import Mathlib

/-!
Verification of the URL platform-detection and processing-strategy engine of the
Guizhang repository, as a shallow embedding in Lean 4.

Sources embedded here:
- `src/lib/platform-detector/index.ts` (orchestrator: `detect`, `detectBatch`, `normalizeUrl`)
- `src/unnamed/part_005` (`RuleManager`: builtin rules, `detectPlatform`, `addRule`,
  `updateRule`, `setRuleEnabled`, `loadRulesFromUrl`)
- `src/unnamed/part_006` (`StrategyDecider`)
- `src/unnamed/part_007` (`CacheManager`)
- `src/lib/platform-detector/content-analyzer/classifier.ts` (`ContentTypeClassifier`)
- `src/types/index.ts` (enums and record shapes)

Modelling conventions:
- JavaScript numbers are modelled as `ℚ` where fractional values occur (confidences,
  metadata quantities) and as `ℕ` for millisecond timestamps and sizes.
- TypeScript optional fields become `Option`; `undefined` is `none`.
- JavaScript regular-expression patterns are embedded as explicit syntax trees
  (`Regex`) next to their source strings, and matched with a Brzozowski-derivative
  matcher.  All patterns in the engine are compiled with the `i` flag; this is
  modelled by ASCII-lowercasing the subject before matching (every literal in the
  embedded patterns is lower-case, and every character class in them is closed
  under the case folding that occurs on lower-cased subjects).
- Steps that touch the network (metadata extraction, dynamic rule loading) are
  modelled as oracle parameters, since their behaviour is not part of this
  repository's code under `src/lib/platform-detector`.
-/

/-! ## Basic character and list helpers -/

/-- ASCII lower-casing of a character, as `String.prototype.toLowerCase` acts on
the ASCII range (the only range exercised by the engine's comparisons). -/
def asciiLower (c : Char) : Char :=
  if 65 ≤ c.toNat ∧ c.toNat ≤ 90 then Char.ofNat (c.toNat + 32) else c

/-- Lower-casing a list of characters. -/
def lowerList (l : List Char) : List Char := l.map asciiLower

/-- `isPrefList pre l` is true when `pre` is a prefix of `l` (character lists). -/
def isPrefList : List Char → List Char → Bool
  | [], _ => true
  | _ :: _, [] => false
  | a :: as, b :: bs => a = b && isPrefList as bs

/-- Substring containment on character lists, as `String.prototype.includes`. -/
def containsSub (hay needle : List Char) : Bool :=
  isPrefList needle hay ||
    match hay with
    | [] => false
    | _ :: t => containsSub t needle

/-- `String.prototype.includes` on strings. -/
def strIncludes (hay needle : String) : Bool := containsSub hay.data needle.data

/-- `s.toLowerCase().includes(needle)` as used by the engine (ASCII fold). -/
def lowerIncludes (hay : String) (needle : String) : Bool :=
  containsSub (lowerList hay.data) needle.data

/-! ## Platform, content-type and strategy enumerations (`src/types/index.ts`) -/

/-- `PlatformType` from `src/types/index.ts`. -/
inductive Platform where
  | youtube | bilibili | twitter | medium | zhihu | github | weibo
  | tiktok | reddit | stackoverflow | devto | hackernews | generic
deriving DecidableEq, Repr

/-- `ContentType` from `src/types/index.ts`. -/
inductive ContentType where
  | article | video | image_gallery | tweet | code_repository
  | documentation | discussion | generic
deriving DecidableEq, Repr

/-- `ProcessingStrategy` from `src/types/index.ts`. -/
inductive ProcessingStrategy where
  | clip | watch_later | bookmark | ignore
deriving DecidableEq, Repr

/-- The open-ended `rawData: Record<string, any>` bag of `PlatformMetadata`,
modelled by the single field the engine reads (`rawData.url`, in
`ContentTypeClassifier.applyPlatformRules`). -/
structure RawData where
  url : Option String := none
deriving DecidableEq, Repr

/-- `PlatformMetadata` from `src/types/index.ts`.  The classifier additionally
reads a `wordCount` property (`classifier.ts` line 178) that is absent from the
declared interface; it is included here as an optional field so that the read
can be modelled. -/
structure PlatformMetadata where
  platformId : Option String := none
  title : Option String := none
  description : Option String := none
  thumbnail : Option String := none
  duration : Option ℚ := none
  author : Option String := none
  publishedAt : Option String := none
  viewCount : Option ℚ := none
  likeCount : Option ℚ := none
  commentCount : Option ℚ := none
  tags : Option (List String) := none
  language : Option String := none
  isLive : Option Bool := none
  isPremium : Option Bool := none
  wordCount : Option ℚ := none
  rawData : Option RawData := none
deriving DecidableEq, Repr

/-- `PlatformDetectionResult` from `src/types/index.ts`. -/
structure PlatformDetectionResult where
  platform : Platform
  contentType : ContentType
  confidence : ℚ
  matchedPattern : Option String := none
  metadata : Option PlatformMetadata := none
  processingStrategy : Option ProcessingStrategy := none
  error : Option String := none
  warnings : Option (List String) := none
deriving DecidableEq, Repr

/-! ## Batch detection (`PlatformDetectorService.detectBatch`)

The source processes the input list in windows (`batchSize = 5`): each loop pass
slices the next window, resolves `detect` on its members, and appends the
window's results in order before the next pass starts.  At the level of values,
each `detect` call resolves to one `PlatformDetectionResult`; a whole batch run
is therefore the window-chunked application of a per-URL result function. -/

/-- The window decomposition performed by `detectBatch`'s loop
(`for (let i = 0; i < urls.length; i += batchSize)` with `slice(i, i + batchSize)`).
`b = 0` would not terminate in the source; the model returns `[]` there and all
theorems assume `0 < b`. -/
def chunksOf (b : Nat) (l : List α) : List (List α) :=
  match l, b with
  | [], _ => []
  | _ :: _, 0 => []
  | x :: xs, b' + 1 =>
    have : ((x :: xs).drop (b' + 1)).length < (x :: xs).length := by
      simp only [List.length_drop, List.length_cons]
      omega
    (x :: xs).take (b' + 1) :: chunksOf (b' + 1) ((x :: xs).drop (b' + 1))
termination_by l.length

/-- `detectBatch`, at the level of resolved values: windows of five, each window
mapped through the per-URL detection function `f`, results concatenated in
order (`results.push(...batchResults)`). -/
def detectBatchModel (f : String → PlatformDetectionResult) (urls : List String) :
    List PlatformDetectionResult :=
  (chunksOf 5 urls).flatMap (fun batch => batch.map f)

theorem chunksOf_flatMap_map (b : Nat) (hb : 0 < b) (f : α → β) :
    ∀ n (l : List α), l.length ≤ n → (chunksOf b l).flatMap (List.map f) = l.map f := by
  intro n
  induction n with
  | zero =>
    intro l hl
    have : l = [] := List.length_eq_zero.mp (Nat.le_zero.mp hl)
    subst this
    simp [chunksOf]
  | succ n ih =>
    intro l hl
    rcases l with _ | ⟨x, xs⟩
    · simp [chunksOf]
    · rcases b with _ | b'
      · omega
      · rw [chunksOf]
        rw [List.flatMap_cons]
        have hdroplen : ((x :: xs : List α).drop (b' + 1)).length ≤ n := by
          simp only [List.length_drop, List.length_cons]
          simp only [List.length_cons] at hl
          omega
        rw [ih _ hdroplen]
        rw [← List.map_append, List.take_append_drop]

/-- C5: for every input list, `detectBatch` returns exactly the per-URL results
in input order — the `i`-th output corresponds to `detect` of the `i`-th input —
and the same holds for any window size `b > 0`, so the output ordering is
independent of the concurrency window. -/
theorem detectBatch_ordered (f : String → PlatformDetectionResult) (urls : List String) :
    detectBatchModel f urls = urls.map f ∧
    ∀ b, 0 < b → (chunksOf b urls).flatMap (List.map f) = urls.map f := by
  constructor
  · exact chunksOf_flatMap_map 5 (by omega) f urls.length urls le_rfl
  · intro b hb
    exact chunksOf_flatMap_map b hb f urls.length urls le_rfl

/-- A concrete per-URL result function used by the C5 witness. -/
def lenResult (u : String) : PlatformDetectionResult :=
  { platform := .generic, contentType := .generic, confidence := (String.length u : ℚ) }

/-- Witness for C5 at a concrete batch (seven URLs, so two windows of five),
with an alternative window size two. -/
theorem detectBatch_ordered_witness :
    detectBatchModel lenResult ["a", "bb", "ccc", "dddd", "eeeee", "ffffff", "g"] =
      ["a", "bb", "ccc", "dddd", "eeeee", "ffffff", "g"].map lenResult ∧
    (chunksOf 2 ["a", "bb", "ccc"]).flatMap (List.map lenResult) =
      ["a", "bb", "ccc"].map lenResult :=
  ⟨(detectBatch_ordered lenResult ["a", "bb", "ccc", "dddd", "eeeee", "ffffff", "g"]).1,
   (detectBatch_ordered lenResult ["a", "bb", "ccc"]).2 2 (by omega)⟩

/-! ## Regular-expression engine

Every pattern the engine compiles with `new RegExp(pattern, 'i')` is embedded as
an explicit syntax tree alongside its source string.  Matching is by Brzozowski
derivatives.  The `i` flag is modelled by lower-casing the subject (see the file
header).  JavaScript's `.` matches everything except line terminators. -/

/-- Regular expressions over characters: empty language, empty string, a single
literal, a (possibly negated) set of ranges, sequencing, alternation, Kleene
star.  `{n}`, `+`, `?`, `.` and `\w`/`\d` are derived forms below. -/
inductive Regex where
  | emp
  | eps
  | chr (c : Char)
  | cls (neg : Bool) (ranges : List (Char × Char))
  | seq (a b : Regex)
  | alt (a b : Regex)
  | star (a : Regex)
deriving DecidableEq, Repr

/-- Does a character fall in a (possibly negated) range set? -/
def inCls (neg : Bool) (ranges : List (Char × Char)) (c : Char) : Bool :=
  let hit := ranges.any (fun r => r.1 ≤ c ∧ c ≤ r.2)
  if neg then !hit else hit

/-- Does the regex accept the empty string? -/
def Regex.nullable : Regex → Bool
  | .emp => false
  | .eps => true
  | .chr _ => false
  | .cls _ _ => false
  | .seq a b => a.nullable && b.nullable
  | .alt a b => a.nullable || b.nullable
  | .star _ => true

/-- Brzozowski derivative with respect to one character. -/
def Regex.deriv : Regex → Char → Regex
  | .emp, _ => .emp
  | .eps, _ => .emp
  | .chr c, x => if c = x then .eps else .emp
  | .cls n rs, x => if inCls n rs x then .eps else .emp
  | .seq a b, x =>
    if a.nullable then .alt (.seq (a.deriv x) b) (b.deriv x)
    else .seq (a.deriv x) b
  | .alt a b, x => .alt (a.deriv x) (b.deriv x)
  | .star a, x => .seq (a.deriv x) (.star a)

/-- Does the regex accept some prefix of `cs` (matching anchored at the start)?
This is the observable of `regex.exec(s) !== null` for a `^`-anchored pattern. -/
def rxMatchStart (r : Regex) : List Char → Bool
  | [] => r.nullable
  | c :: cs => r.nullable || rxMatchStart (r.deriv c) cs

/-- Does the regex accept a substring starting at any position?  This is the
observable of `regex.test(s)` / `regex.exec(s) !== null` for an unanchored
pattern. -/
def rxSearch (r : Regex) : List Char → Bool
  | [] => r.nullable
  | c :: cs => rxMatchStart r (c :: cs) || rxSearch r cs

/-- A source pattern: its literal text (as written in the repository), whether
it begins with a `^` anchor, and the syntax tree of the remainder. -/
structure RxPat where
  src : String
  anchored : Bool
  rx : Regex
deriving DecidableEq, Repr

/-- `new RegExp(p.src, 'i').test(s)` (equivalently, `exec(s) !== null`):
anchored patterns must match a prefix, unanchored patterns anywhere; the
subject is lower-cased to model the `i` flag. -/
def rxTest (p : RxPat) (s : String) : Bool :=
  if p.anchored then rxMatchStart p.rx (lowerList s.data)
  else rxSearch p.rx (lowerList s.data)

/-- Concatenation of a literal string. -/
def Regex.str (s : String) : Regex :=
  s.data.foldr (fun c r => .seq (.chr c) r) .eps

/-- Concatenation of a list of regexes. -/
def Regex.cat (l : List Regex) : Regex := l.foldr .seq .eps

/-- `a+`. -/
def Regex.plus (a : Regex) : Regex := .seq a (.star a)

/-- `a?`. -/
def Regex.opt (a : Regex) : Regex := .alt .eps a

/-- `a{n}`. -/
def Regex.repN (n : Nat) (a : Regex) : Regex := .cat (List.replicate n a)

/-- The ranges of `\w` (`[A-Za-z0-9_]`). -/
def wordRanges : List (Char × Char) := [('a', 'z'), ('A', 'Z'), ('0', '9'), ('_', '_')]

/-- `\w`. -/
def Regex.w : Regex := .cls false wordRanges

/-- `[\w-]`. -/
def Regex.wDash : Regex := .cls false (wordRanges ++ [('-', '-')])

/-- `[\w.-]`. -/
def Regex.wDotDash : Regex := .cls false (wordRanges ++ [('.', '.'), ('-', '-')])

/-- `\d`. -/
def Regex.d : Regex := .cls false [('0', '9')]

/-- `[^/]`. -/
def Regex.notSlash : Regex := .cls true [('/', '/')]

/-- `[A-Za-z0-9]`. -/
def Regex.alnum : Regex := .cls false [('A', 'Z'), ('a', 'z'), ('0', '9')]

/-- `[a-z0-9]`. -/
def Regex.lowAlnum : Regex := .cls false [('a', 'z'), ('0', '9')]

/-- `.` — any character except the four JavaScript line terminators. -/
def Regex.dotAny : Regex :=
  .cls true [('\n', '\n'), ('\r', '\r'), ('\u2028', '\u2028'), ('\u2029', '\u2029')]

/-! ## JavaScript `String.prototype.trim` -/

/-- The ECMAScript `WhiteSpace` and `LineTerminator` characters stripped by
`String.prototype.trim`: TAB, LF, VT, FF, CR, SP, NBSP, Ogham space mark,
the Zs spaces U+2000–U+200A, LS, PS, NNBSP, MMSP, ideographic space, ZWNBSP. -/
def isJsWhitespace (c : Char) : Bool :=
  c.val = 0x9 || c.val = 0xA || c.val = 0xB || c.val = 0xC || c.val = 0xD ||
  c.val = 0x20 || c.val = 0xA0 || c.val = 0x1680 ||
  (0x2000 ≤ c.val && c.val ≤ 0x200A) ||
  c.val = 0x2028 || c.val = 0x2029 || c.val = 0x202F || c.val = 0x205F ||
  c.val = 0x3000 || c.val = 0xFEFF

/-- `trim` on character lists: drop leading and trailing JS whitespace. -/
def jsTrimList (l : List Char) : List Char :=
  (((l.dropWhile isJsWhitespace).reverse).dropWhile isJsWhitespace).reverse

/-- `url.trim()`. -/
def jsTrimS (s : String) : String := String.mk (jsTrimList s.data)

/-! ## Rule manager (`src/unnamed/part_005`, `RuleManager`) -/

/-- `PlatformRule` from `src/types/index.ts`; `patterns` carries each source
pattern string together with its embedded syntax tree. -/
structure PlatformRule where
  platform : Platform
  patterns : List RxPat
  contentType : ContentType
  metadataExtractor : Option String := none
  priority : Nat
  enabled : Bool
  description : Option String := none
deriving DecidableEq, Repr

/-- The intermediate record returned by `RuleManager.detectPlatform`. -/
structure PlatformDetectionIntermediate where
  platform : Platform
  confidence : ℚ
  matchedPattern : Option String := none
  extractedId : Option String := none
deriving DecidableEq, Repr

/-- Stable descending-priority insertion (earlier elements stay in front of
equal-priority later ones), used to model the stable comparator sort
`rules.sort((a, b) => b.priority - a.priority)`. -/
def insertByPriority (r : PlatformRule) : List PlatformRule → List PlatformRule
  | [] => [r]
  | x :: xs => if x.priority ≤ r.priority then r :: x :: xs else x :: insertByPriority r xs

/-- The stable sort by descending `priority` re-established by
`initializeRules`, `addRule` and `loadRulesFromUrl`. -/
def sortRules : List PlatformRule → List PlatformRule
  | [] => []
  | x :: xs => insertByPriority x (sortRules xs)

/-- First enabled rule (in list order) with a pattern matching `u`, together
with that first matching pattern — the inner double loop of `detectPlatform`.
A pattern whose compilation would throw is caught and skipped in the source;
embedded patterns are always well-formed, so that branch is vacuous here. -/
def findRuleMatch (u : String) : List PlatformRule → Option (PlatformRule × RxPat)
  | [] => none
  | r :: rs =>
    if r.enabled then
      match r.patterns.find? (fun p => rxTest p u) with
      | some p => some (r, p)
      | none => findRuleMatch u rs
    else findRuleMatch u rs

/-- `RuleManager.detectPlatform`: trim, scan rules in stored order, first
enabled rule/pattern match wins with confidence 0.9; otherwise platform
`generic` with confidence 0.1.  The platform-specific id extraction
(`extractYouTubeId` etc.) populates only the `extractedId` field, which the
orchestrator never copies into the returned `PlatformDetectionResult`; it is
modelled as `none`. -/
def detectPlatform (rules : List PlatformRule) (url : String) :
    PlatformDetectionIntermediate :=
  let normalizedUrl := jsTrimS url
  match findRuleMatch normalizedUrl rules with
  | some (r, p) =>
    { platform := r.platform, confidence := 9/10, matchedPattern := some p.src }
  | none => { platform := .generic, confidence := 1/10 }

/-- The builtin rule table of `RuleManager.getBuiltinRules`, with each pattern
string paired with its syntax tree. -/
def builtinRules : List PlatformRule :=
  [ { platform := .youtube
    , patterns :=
        [ ⟨"^https://(?:www\\.)?youtube\\.com/watch\\?v=[\\w-]{11}", true,
            .cat [.str "https://", .opt (.str "www."), .str "youtube.com/watch?v=",
                  .repN 11 .wDash]⟩
        , ⟨"^https://youtu\\.be/[\\w-]{11}", true,
            .cat [.str "https://youtu.be/", .repN 11 .wDash]⟩
        , ⟨"^https://(?:www\\.)?youtube\\.com/shorts/[\\w-]+", true,
            .cat [.str "https://", .opt (.str "www."), .str "youtube.com/shorts/",
                  .plus .wDash]⟩
        , ⟨"^https://(?:www\\.)?youtube\\.com/playlist\\?list=[\\w-]+", true,
            .cat [.str "https://", .opt (.str "www."), .str "youtube.com/playlist?list=",
                  .plus .wDash]⟩ ]
    , contentType := .video, metadataExtractor := some "youtube"
    , priority := 100, enabled := true, description := some "YouTube视频检测规则" }
  , { platform := .bilibili
    , patterns :=
        [ ⟨"^https://www\\.bilibili\\.com/video/[A-Za-z0-9]+", true,
            .cat [.str "https://www.bilibili.com/video/", .plus .alnum]⟩
        , ⟨"^https://www\\.bilibili\\.com/bangumi/play/[a-z0-9]+", true,
            .cat [.str "https://www.bilibili.com/bangumi/play/", .plus .lowAlnum]⟩
        , ⟨"^https://b23\\.tv/[A-Za-z0-9]+", true,
            .cat [.str "https://b23.tv/", .plus .alnum]⟩
        , ⟨"^https://(?:www\\.)?bilibili\\.com/read/[a-z0-9]+", true,
            .cat [.str "https://", .opt (.str "www."), .str "bilibili.com/read/",
                  .plus .lowAlnum]⟩ ]
    , contentType := .video, metadataExtractor := some "bilibili"
    , priority := 95, enabled := true, description := some "B站视频检测规则" }
  , { platform := .twitter
    , patterns :=
        [ ⟨"^https://(?:twitter\\.com|x\\.com)/[\\w_]+/status/\\d+", true,
            .cat [.str "https://", .alt (.str "twitter.com") (.str "x.com"),
                  .str "/", .plus .w, .str "/status/", .plus .d]⟩
        , ⟨"^https://(?:twitter\\.com|x\\.com)/[\\w_]+", true,
            .cat [.str "https://", .alt (.str "twitter.com") (.str "x.com"),
                  .str "/", .plus .w]⟩ ]
    , contentType := .tweet, metadataExtractor := some "twitter"
    , priority := 90, enabled := true, description := some "Twitter/X推文检测规则" }
  , { platform := .medium
    , patterns :=
        [ ⟨"^https://medium\\.com/@[\\w.-]+/[\\w-]+", true,
            .cat [.str "https://medium.com/@", .plus .wDotDash, .str "/", .plus .wDash]⟩
        , ⟨"^https://[\\w-]+\\.medium\\.com/[\\w-]+", true,
            .cat [.str "https://", .plus .wDash, .str ".medium.com/", .plus .wDash]⟩ ]
    , contentType := .article, metadataExtractor := some "medium"
    , priority := 85, enabled := true, description := some "Medium文章检测规则" }
  , { platform := .zhihu
    , patterns :=
        [ ⟨"^https://www\\.zhihu\\.com/question/\\d+", true,
            .cat [.str "https://www.zhihu.com/question/", .plus .d]⟩
        , ⟨"^https://zhuanlan\\.zhihu\\.com/p/\\d+", true,
            .cat [.str "https://zhuanlan.zhihu.com/p/", .plus .d]⟩
        , ⟨"^https://www\\.zhihu\\.com/answer/\\d+", true,
            .cat [.str "https://www.zhihu.com/answer/", .plus .d]⟩
        , ⟨"^https://www\\.zhihu\\.com/zvideo/\\d+", true,
            .cat [.str "https://www.zhihu.com/zvideo/", .plus .d]⟩ ]
    , contentType := .article, metadataExtractor := some "zhihu"
    , priority := 80, enabled := true, description := some "知乎内容检测规则" }
  , { platform := .github
    , patterns :=
        [ ⟨"^https://github\\.com/[\\w.-]+/[\\w.-]+", true,
            .cat [.str "https://github.com/", .plus .wDotDash, .str "/", .plus .wDotDash]⟩
        , ⟨"^https://github\\.com/[\\w.-]+/[\\w.-]+/issues/\\d+", true,
            .cat [.str "https://github.com/", .plus .wDotDash, .str "/", .plus .wDotDash,
                  .str "/issues/", .plus .d]⟩
        , ⟨"^https://github\\.com/[\\w.-]+/[\\w.-]+/pull/\\d+", true,
            .cat [.str "https://github.com/", .plus .wDotDash, .str "/", .plus .wDotDash,
                  .str "/pull/", .plus .d]⟩
        , ⟨"^https://github\\.com/[\\w.-]+/[\\w.-]+/blob/", true,
            .cat [.str "https://github.com/", .plus .wDotDash, .str "/", .plus .wDotDash,
                  .str "/blob/"]⟩
        , ⟨"^https://github\\.com/[\\w.-]+/[\\w.-]+/tree/", true,
            .cat [.str "https://github.com/", .plus .wDotDash, .str "/", .plus .wDotDash,
                  .str "/tree/"]⟩ ]
    , contentType := .code_repository, metadataExtractor := some "github"
    , priority := 75, enabled := true, description := some "GitHub仓库检测规则" }
  , { platform := .weibo
    , patterns :=
        [ ⟨"^https://weibo\\.com/\\d+/[A-Za-z0-9]+", true,
            .cat [.str "https://weibo.com/", .plus .d, .str "/", .plus .alnum]⟩
        , ⟨"^https://m\\.weibo\\.cn/status/\\d+", true,
            .cat [.str "https://m.weibo.cn/status/", .plus .d]⟩ ]
    , contentType := .tweet, metadataExtractor := some "weibo"
    , priority := 70, enabled := true, description := some "微博内容检测规则" }
  , { platform := .tiktok
    , patterns :=
        [ ⟨"^https://www\\.tiktok\\.com/@[\\w.-]+/video/\\d+", true,
            .cat [.str "https://www.tiktok.com/@", .plus .wDotDash, .str "/video/",
                  .plus .d]⟩
        , ⟨"^https://vt\\.tiktok\\.com/[A-Za-z0-9]+", true,
            .cat [.str "https://vt.tiktok.com/", .plus .alnum]⟩ ]
    , contentType := .video, metadataExtractor := some "tiktok"
    , priority := 65, enabled := true, description := some "TikTok视频检测规则" }
  , { platform := .reddit
    , patterns :=
        [ ⟨"^https://www\\.reddit\\.com/r/[\\w]+/comments/[\\w]+", true,
            .cat [.str "https://www.reddit.com/r/", .plus .w, .str "/comments/",
                  .plus .w]⟩
        , ⟨"^https://old\\.reddit\\.com/r/[\\w]+/comments/[\\w]+", true,
            .cat [.str "https://old.reddit.com/r/", .plus .w, .str "/comments/",
                  .plus .w]⟩ ]
    , contentType := .discussion, metadataExtractor := some "reddit"
    , priority := 60, enabled := true, description := some "Reddit讨论检测规则" }
  , { platform := .stackoverflow
    , patterns :=
        [ ⟨"^https://stackoverflow\\.com/questions/\\d+/", true,
            .cat [.str "https://stackoverflow.com/questions/", .plus .d, .str "/"]⟩
        , ⟨"^https://stackoverflow\\.com/a/\\d+", true,
            .cat [.str "https://stackoverflow.com/a/", .plus .d]⟩ ]
    , contentType := .discussion, metadataExtractor := some "stackoverflow"
    , priority := 55, enabled := true, description := some "Stack Overflow问答检测规则" }
  , { platform := .devto
    , patterns :=
        [ ⟨"^https://dev\\.to/[\\w.-]+/[\\w-]+", true,
            .cat [.str "https://dev.to/", .plus .wDotDash, .str "/", .plus .wDash]⟩ ]
    , contentType := .article, metadataExtractor := some "devto"
    , priority := 50, enabled := true, description := some "dev.to文章检测规则" }
  , { platform := .hackernews
    , patterns :=
        [ ⟨"^https://news\\.ycombinator\\.com/item\\?id=\\d+", true,
            .cat [.str "https://news.ycombinator.com/item?id=", .plus .d]⟩ ]
    , contentType := .discussion, metadataExtractor := some "hackernews"
    , priority := 45, enabled := true, description := some "Hacker News讨论检测规则" }
  , { platform := .generic
    , patterns :=
        [ ⟨"^https?://[^/]+/blog/[^/]+", true,
            .cat [.str "http", .opt (.chr 's'), .str "://", .plus .notSlash,
                  .str "/blog/", .plus .notSlash]⟩
        , ⟨"^https?://[^/]+/article/[^/]+", true,
            .cat [.str "http", .opt (.chr 's'), .str "://", .plus .notSlash,
                  .str "/article/", .plus .notSlash]⟩
        , ⟨"^https?://[^/]+/post/[^/]+", true,
            .cat [.str "http", .opt (.chr 's'), .str "://", .plus .notSlash,
                  .str "/post/", .plus .notSlash]⟩
        , ⟨"^https?://[^/]+/news/[^/]+", true,
            .cat [.str "http", .opt (.chr 's'), .str "://", .plus .notSlash,
                  .str "/news/", .plus .notSlash]⟩ ]
    , contentType := .article, metadataExtractor := none
    , priority := 10, enabled := true, description := some "通用博客/文章检测规则" } ]

/-- `initializeRules`: take the configured rules if non-empty, else the builtin
table, then sort by descending priority. -/
def initRules (cfgRules : List PlatformRule) : List PlatformRule :=
  sortRules (if cfgRules.isEmpty then builtinRules else cfgRules)

/-- `addRule`: push then re-sort by descending priority. -/
def addRule (rules : List PlatformRule) (r : PlatformRule) : List PlatformRule :=
  sortRules (rules ++ [r])

/-- The `Partial<Omit<PlatformRule, 'platform'>>` argument of `updateRule`. -/
structure RuleUpdate where
  patterns : Option (List RxPat) := none
  contentType : Option ContentType := none
  metadataExtractor : Option (Option String) := none
  priority : Option Nat := none
  enabled : Option Bool := none
  description : Option (Option String) := none
deriving DecidableEq, Repr

/-- The spread `{ ...rules[index], ...updates }`. -/
def applyRuleUpdate (r : PlatformRule) (u : RuleUpdate) : PlatformRule :=
  { platform := r.platform
  , patterns := u.patterns.getD r.patterns
  , contentType := u.contentType.getD r.contentType
  , metadataExtractor := u.metadataExtractor.getD r.metadataExtractor
  , priority := u.priority.getD r.priority
  , enabled := u.enabled.getD r.enabled
  , description := u.description.getD r.description }

/-- `updateRule`: replace the first rule with the given platform in place
(no re-sort), returning the new list and whether a rule was found. -/
def updateRule (rules : List PlatformRule) (p : Platform) (u : RuleUpdate) :
    List PlatformRule × Bool :=
  match rules with
  | [] => ([], false)
  | r :: rest =>
    if r.platform = p then (applyRuleUpdate r u :: rest, true)
    else
      let t := updateRule rest p u
      (r :: t.1, t.2)

/-- `setRuleEnabled`: `updateRule(platform, { enabled })`. -/
def setRuleEnabled (rules : List PlatformRule) (p : Platform) (e : Bool) :
    List PlatformRule × Bool :=
  updateRule rules p { enabled := some e }

/-- `loadRulesFromUrl`: when dynamic loading is enabled and the fetched payload
parses to an array (modelled by the oracle `payload`), replace the rule set and
re-sort; any failure leaves the rules unchanged. -/
def loadRulesFromUrl (enableDynamicLoading : Bool)
    (payload : Option (List PlatformRule)) (rules : List PlatformRule) :
    List PlatformRule :=
  if enableDynamicLoading then
    match payload with
    | some rs => sortRules rs
    | none => rules
  else rules

/-- The sort-order invariant: the stored rule list is descending in priority. -/
def RulesSorted (rules : List PlatformRule) : Prop :=
  List.Pairwise (fun a b => b.priority ≤ a.priority) rules

instance : DecidablePred RulesSorted := fun rules =>
  inferInstanceAs (Decidable (List.Pairwise _ rules))

theorem mem_insertByPriority {y r : PlatformRule} {l : List PlatformRule}
    (h : y ∈ insertByPriority r l) : y = r ∨ y ∈ l := by
  induction l with
  | nil => simpa [insertByPriority] using h
  | cons x xs ih =>
    rw [insertByPriority] at h
    by_cases hc : x.priority ≤ r.priority
    · rw [if_pos hc] at h
      rcases List.mem_cons.mp h with h | h
      · exact Or.inl h
      · exact Or.inr h
    · rw [if_neg hc] at h
      rcases List.mem_cons.mp h with h | h
      · exact Or.inr (by simp [h])
      · rcases ih h with h' | h'
        · exact Or.inl h'
        · exact Or.inr (List.mem_cons_of_mem x h')

theorem insertByPriority_sorted {r : PlatformRule} {l : List PlatformRule}
    (hl : RulesSorted l) : RulesSorted (insertByPriority r l) := by
  induction l with
  | nil => simp [insertByPriority, RulesSorted]
  | cons x xs ih =>
    rw [insertByPriority]
    rcases List.pairwise_cons.mp hl with ⟨hx, hxs⟩
    by_cases hc : x.priority ≤ r.priority
    · rw [if_pos hc]
      refine List.pairwise_cons.mpr ⟨?_, hl⟩
      intro y hy
      rcases List.mem_cons.mp hy with hy | hy
      · simpa [hy] using hc
      · exact le_trans (hx y hy) hc
    · rw [if_neg hc]
      refine List.pairwise_cons.mpr ⟨?_, ih hxs⟩
      intro y hy
      rcases mem_insertByPriority hy with hy' | hy'
      · subst hy'; omega
      · exact hx y hy'

theorem sortRules_sorted (l : List PlatformRule) : RulesSorted (sortRules l) := by
  induction l with
  | nil => simp [sortRules, RulesSorted]
  | cons x xs ih => exact insertByPriority_sorted ih

/-- `updateRule` with an update that does not touch `priority` leaves every
stored priority in place. -/
theorem updateRule_map_priority (rules : List PlatformRule) (p : Platform)
    (u : RuleUpdate) (hu : u.priority = none) :
    (updateRule rules p u).1.map PlatformRule.priority =
      rules.map PlatformRule.priority := by
  induction rules with
  | nil => rfl
  | cons r rest ih =>
    rw [updateRule]
    by_cases hc : r.platform = p
    · rw [if_pos hc]
      simp [applyRuleUpdate, hu]
    · rw [if_neg hc]
      simp [ih]

theorem rulesSorted_of_map_priority_eq {l₁ l₂ : List PlatformRule}
    (h : l₁.map PlatformRule.priority = l₂.map PlatformRule.priority)
    (hs : RulesSorted l₂) : RulesSorted l₁ := by
  have h₁ : List.Pairwise (fun a b : Nat => b ≤ a) (l₂.map PlatformRule.priority) :=
    (List.pairwise_map).mpr hs
  rw [← h] at h₁
  exact (List.pairwise_map).mp h₁

/-- A concrete priority-100 enabled rule used in witnesses and counterexamples. -/
def sampleRuleA : PlatformRule :=
  { platform := .youtube, patterns := [⟨"^a", true, .chr 'a'⟩]
  , contentType := .video, priority := 100, enabled := true }

/-- A concrete priority-50 enabled rule used in witnesses and counterexamples. -/
def sampleRuleB : PlatformRule :=
  { platform := .devto, patterns := [⟨"^b", true, .chr 'b'⟩]
  , contentType := .article, priority := 50, enabled := true }

/-- C8 (amended): the descending-priority sort order holds after construction
and is preserved by `addRule`, by `setRuleEnabled`, and by `loadRulesFromUrl`;
`updateRule` preserves it only when the update leaves `priority` unchanged
(which covers `setRuleEnabled`) — an `updateRule` that changes a priority does
not re-sort (see the counterexample). -/
theorem ruleSort_invariant :
    (∀ cfgRules, RulesSorted (initRules cfgRules)) ∧
    (∀ rules r, RulesSorted (addRule rules r)) ∧
    (∀ rules p u, u.priority = none → RulesSorted rules →
      RulesSorted (updateRule rules p u).1) ∧
    (∀ rules p e, RulesSorted rules → RulesSorted (setRuleEnabled rules p e).1) ∧
    (∀ en payload rules, RulesSorted rules →
      RulesSorted (loadRulesFromUrl en payload rules)) := by
  refine ⟨fun cfgRules => sortRules_sorted _, fun rules r => sortRules_sorted _,
    ?_, ?_, ?_⟩
  · intro rules p u hu hs
    exact rulesSorted_of_map_priority_eq (updateRule_map_priority rules p u hu) hs
  · intro rules p e hs
    exact rulesSorted_of_map_priority_eq
      (updateRule_map_priority rules p { enabled := some e } rfl) hs
  · intro en payload rules hs
    rcases en with _ | _
    · simpa [loadRulesFromUrl] using hs
    · rcases payload with _ | rs
      · simpa [loadRulesFromUrl] using hs
      · simpa [loadRulesFromUrl] using sortRules_sorted rs

/-- Witness for C8's amended statement at concrete inputs: the builtin table is
sorted after construction, insertion keeps the order, and an enabled-flag
update keeps the order. -/
theorem ruleSort_invariant_witness :
    RulesSorted (initRules []) ∧
    RulesSorted (addRule [sampleRuleA, sampleRuleB] sampleRuleB) ∧
    RulesSorted (setRuleEnabled [sampleRuleA, sampleRuleB] Platform.youtube false).1 ∧
    RulesSorted (loadRulesFromUrl true (some [sampleRuleB, sampleRuleA])
      [sampleRuleA]) :=
  ⟨ruleSort_invariant.1 [],
   ruleSort_invariant.2.1 [sampleRuleA, sampleRuleB] sampleRuleB,
   ruleSort_invariant.2.2.2.1 [sampleRuleA, sampleRuleB] Platform.youtube false
     (by decide),
   ruleSort_invariant.2.2.2.2 true (some [sampleRuleB, sampleRuleA]) [sampleRuleA]
     (by decide)⟩

/-- Counterexample to C8 as stated: starting from a sorted two-rule list,
`updateRule` with a priority change (priority 100 → 1 on the first rule) leaves
the list unsorted — `updateRule` does not re-establish the invariant. -/
theorem updateRule_breaks_sort :
    RulesSorted [sampleRuleA, sampleRuleB] ∧
    ¬ RulesSorted
        (updateRule [sampleRuleA, sampleRuleB] Platform.youtube
          { priority := some 1 }).1 := by
  constructor
  · decide
  · decide

/-- C4: with rules R1 (priority 100, enabled, some pattern matching the URL)
and R2 (priority 50), `detectPlatform` returns R1's platform whichever order
the two rules were supplied in — via initial configuration in either order, or
via `addRule` in either order. -/
theorem rulePriority_deterministic (R1 R2 : PlatformRule) (url : String)
    (h1 : R1.priority = 100) (h2 : R2.priority = 50) (he : R1.enabled = true)
    (hm : R1.patterns.any (fun p => rxTest p (jsTrimS url)) = true) :
    (detectPlatform (initRules [R1, R2]) url).platform = R1.platform ∧
    (detectPlatform (initRules [R2, R1]) url).platform = R1.platform ∧
    (detectPlatform (addRule (initRules [R1]) R2) url).platform = R1.platform ∧
    (detectPlatform (addRule (initRules [R2]) R1) url).platform = R1.platform := by
  have hfind : ∃ p, R1.patterns.find? (fun q => rxTest q (jsTrimS url)) = some p := by
    have hsome : (R1.patterns.find? (fun q => rxTest q (jsTrimS url))).isSome := by
      rw [List.find?_isSome]
      simpa [List.any_eq_true] using hm
    exact Option.isSome_iff_exists.mp hsome
  obtain ⟨p, hp⟩ := hfind
  have hsorted12 : sortRules [R1, R2] = [R1, R2] := by
    simp [sortRules, insertByPriority, h1, h2]
  have hsorted21 : sortRules [R2, R1] = [R1, R2] := by
    simp [sortRules, insertByPriority, h1, h2]
  have hdet : (detectPlatform [R1, R2] url).platform = R1.platform := by
    simp [detectPlatform, findRuleMatch, he, hp]
  refine ⟨?_, ?_, ?_, ?_⟩
  · simpa [initRules, hsorted12] using hdet
  · simpa [initRules, hsorted21] using hdet
  · have : addRule (initRules [R1]) R2 = [R1, R2] := by
      simp [addRule, initRules, sortRules, insertByPriority, h1, h2]
    simpa [this] using hdet
  · have : addRule (initRules [R2]) R1 = [R1, R2] := by
      simp [addRule, initRules, sortRules, insertByPriority, h1, h2]
    simpa [this] using hdet

/-- Witness for C4 at concrete rules and URL. -/
theorem rulePriority_deterministic_witness :
    (detectPlatform (initRules [sampleRuleA, sampleRuleB]) "a").platform =
      sampleRuleA.platform ∧
    (detectPlatform (initRules [sampleRuleB, sampleRuleA]) "a").platform =
      sampleRuleA.platform ∧
    (detectPlatform (addRule (initRules [sampleRuleA]) sampleRuleB) "a").platform =
      sampleRuleA.platform ∧
    (detectPlatform (addRule (initRules [sampleRuleB]) sampleRuleA) "a").platform =
      sampleRuleA.platform :=
  rulePriority_deterministic sampleRuleA sampleRuleB "a" rfl rfl rfl (by decide)

/-! ## Content-type classifier
(`src/lib/platform-detector/content-analyzer/classifier.ts`) -/

/-- JavaScript string truthiness for optional strings: the empty string is
falsy, so guards like `metadata.title && ...` treat `""` like absence. -/
def truthyStr : Option String → Option String
  | some s => if s = "" then none else some s
  | none => none

/-- The `metadataPatterns` field of a classification rule. -/
structure MetadataPatterns where
  title : Option (List RxPat) := none
  description : Option (List RxPat) := none
deriving DecidableEq, Repr

/-- `ClassificationRule` from `classifier.ts`. -/
structure ClassificationRule where
  platform : Platform
  patterns : Option (List RxPat) := none
  metadataPatterns : Option MetadataPatterns := none
  contentType : ContentType
  confidence : ℚ
  priority : Nat
deriving DecidableEq, Repr

/-- The body of `applyPlatformRules`' loop for one rule: URL-pattern match at
full rule confidence; otherwise metadata-pattern match ratio ≥ 1/2 at scaled
confidence; otherwise the rule's content type at 0.8 × its confidence.  (In the
source this body ends in an unconditional `return`, so the loop never advances
past its first rule.) -/
def evalPlatformRule (r : ClassificationRule) (m : PlatformMetadata) :
    ContentType × ℚ :=
  let urlHit : Bool :=
    match r.patterns, truthyStr (m.rawData.bind RawData.url) with
    | some pats, some u => pats.any (fun p => rxTest p u)
    | _, _ => false
  if urlHit then (r.contentType, r.confidence)
  else
    match r.metadataPatterns with
    | some mp =>
      let titleM : Option Bool :=
        match mp.title, truthyStr m.title with
        | some ps, some t => some (ps.any (fun p => rxTest p t))
        | _, _ => none
      let descM : Option Bool :=
        match mp.description, truthyStr m.description with
        | some ps, some dsc => some (ps.any (fun p => rxTest p dsc))
        | _, _ => none
      let total : ℕ := (if titleM.isSome then 1 else 0) + (if descM.isSome then 1 else 0)
      let hits : ℕ :=
        (if titleM = some true then 1 else 0) + (if descM = some true then 1 else 0)
      if 0 < total ∧ (hits : ℚ) / (total : ℚ) ≥ 1/2 then
        (r.contentType, r.confidence * ((hits : ℚ) / (total : ℚ)))
      else (r.contentType, r.confidence * (4/5))
    | none => (r.contentType, r.confidence * (4/5))

/-- `applyPlatformRules`: filter the rule table to the given platform and run
the loop — whose body always returns, so only the first filtered rule is ever
consulted; with no rule for the platform the result is `generic` at 0.1. -/
def applyPlatformRules (rules : List ClassificationRule) (p : Platform)
    (m : PlatformMetadata) : ContentType × ℚ :=
  match rules.filter (fun r => r.platform == p) with
  | [] => (ContentType.generic, 1/10)
  | r :: _ => evalPlatformRule r m

/-- `applyHeuristicRules`: the fixed ordered cross-platform heuristics; the
first that fires wins, and nothing firing yields `generic` at 0.3. -/
def applyHeuristicRules (m : PlatformMetadata) : ContentType × ℚ :=
  if (match m.duration with | some d => decide (d > 0) | none => false) then
    (ContentType.video, 9/10)
  else if (match m.title with
           | some t => lowerIncludes t "video" || lowerIncludes t "watch"
           | none => false) then
    (ContentType.video, 7/10)
  else if (match m.wordCount with | some w' => decide (w' > 500) | none => false) then
    (ContentType.article, 8/10)
  else if (match m.title with
           | some t => lowerIncludes t "blog" || lowerIncludes t "article" ||
               lowerIncludes t "post"
           | none => false) then
    (ContentType.article, 7/10)
  else if (match m.title with
           | some t => lowerIncludes t "github" || lowerIncludes t "repo" ||
               lowerIncludes t "code"
           | none => false) then
    (ContentType.code_repository, 8/10)
  else if (match m.description with
           | some dsc => lowerIncludes dsc "api" || lowerIncludes dsc "documentation"
           | none => false) then
    (ContentType.documentation, 7/10)
  else if (match m.title with
           | some t => lowerIncludes t "discussion" || lowerIncludes t "question" ||
               lowerIncludes t "answer"
           | none => false) then
    (ContentType.discussion, 7/10)
  else if (match m.title with
           | some t => lowerIncludes t "gallery" || lowerIncludes t "photo" ||
               lowerIncludes t "image"
           | none => false) then
    (ContentType.image_gallery, 7/10)
  else (ContentType.generic, 3/10)

/-- `ContentTypeClassifier.classify` with an explicit rule table, heuristic
switch and confidence threshold (defaults: builtin table, `true`, 0.6). -/
def classifyWith (rules : List ClassificationRule) (enableHeuristicRules : Bool)
    (threshold : ℚ) (p : Platform) (m : PlatformMetadata) : ContentType :=
  if (applyPlatformRules rules p m).2 ≥ threshold then
    (applyPlatformRules rules p m).1
  else if enableHeuristicRules then
    if (applyHeuristicRules m).2 ≥ threshold then (applyHeuristicRules m).1
    else ContentType.generic
  else ContentType.generic

/-- The default classification rule table of `getDefaultRules` (declaration
order; the constructor does not sort it). -/
def classifierDefaultRules : List ClassificationRule :=
  [ { platform := .youtube
    , patterns := some
        [ ⟨"youtube\\.com/watch", false, .str "youtube.com/watch"⟩
        , ⟨"youtu\\.be/", false, .str "youtu.be/"⟩
        , ⟨"youtube\\.com/shorts", false, .str "youtube.com/shorts"⟩ ]
    , contentType := .video, confidence := 95/100, priority := 100 }
  , { platform := .youtube
    , patterns := some [⟨"youtube\\.com/playlist", false, .str "youtube.com/playlist"⟩]
    , contentType := .video, confidence := 9/10, priority := 90 }
  , { platform := .bilibili
    , patterns := some [⟨"bilibili\\.com/video", false, .str "bilibili.com/video"⟩]
    , contentType := .video, confidence := 95/100, priority := 100 }
  , { platform := .bilibili
    , patterns := some [⟨"bilibili\\.com/read", false, .str "bilibili.com/read"⟩]
    , contentType := .article, confidence := 9/10, priority := 90 }
  , { platform := .twitter
    , patterns := some
        [ ⟨"twitter\\.com/.*/status", false,
            .cat [.str "twitter.com/", .star .dotAny, .str "/status"]⟩
        , ⟨"x\\.com/.*/status", false,
            .cat [.str "x.com/", .star .dotAny, .str "/status"]⟩ ]
    , contentType := .tweet, confidence := 95/100, priority := 100 }
  , { platform := .medium
    , patterns := some [⟨"medium\\.com", false, .str "medium.com"⟩]
    , contentType := .article, confidence := 9/10, priority := 100 }
  , { platform := .zhihu
    , patterns := some [⟨"zhihu\\.com/question", false, .str "zhihu.com/question"⟩]
    , contentType := .discussion, confidence := 9/10, priority := 100 }
  , { platform := .zhihu
    , patterns := some [⟨"zhuanlan\\.zhihu\\.com", false, .str "zhuanlan.zhihu.com"⟩]
    , contentType := .article, confidence := 9/10, priority := 90 }
  , { platform := .zhihu
    , patterns := some [⟨"zhihu\\.com/zvideo", false, .str "zhihu.com/zvideo"⟩]
    , contentType := .video, confidence := 9/10, priority := 80 }
  , { platform := .github
    , patterns := some
        [ ⟨"github\\.com/.*/.*", false,
            .cat [.str "github.com/", .star .dotAny, .str "/", .star .dotAny]⟩ ]
    , contentType := .code_repository, confidence := 9/10, priority := 100 }
  , { platform := .github
    , patterns := some
        [ ⟨"github\\.com/.*/issues", false,
            .cat [.str "github.com/", .star .dotAny, .str "/issues"]⟩
        , ⟨"github\\.com/.*/pull", false,
            .cat [.str "github.com/", .star .dotAny, .str "/pull"]⟩ ]
    , contentType := .discussion, confidence := 8/10, priority := 90 }
  , { platform := .weibo
    , patterns := some [⟨"weibo\\.com", false, .str "weibo.com"⟩]
    , contentType := .tweet, confidence := 9/10, priority := 100 }
  , { platform := .tiktok
    , patterns := some
        [ ⟨"tiktok\\.com/.*/video", false,
            .cat [.str "tiktok.com/", .star .dotAny, .str "/video"]⟩ ]
    , contentType := .video, confidence := 95/100, priority := 100 }
  , { platform := .reddit
    , patterns := some
        [ ⟨"reddit\\.com/r/.*/comments", false,
            .cat [.str "reddit.com/r/", .star .dotAny, .str "/comments"]⟩ ]
    , contentType := .discussion, confidence := 9/10, priority := 100 }
  , { platform := .stackoverflow
    , patterns := some
        [ ⟨"stackoverflow\\.com/questions", false, .str "stackoverflow.com/questions"⟩
        , ⟨"stackoverflow\\.com/a/", false, .str "stackoverflow.com/a/"⟩ ]
    , contentType := .discussion, confidence := 95/100, priority := 100 }
  , { platform := .devto
    , patterns := some [⟨"dev\\.to", false, .str "dev.to"⟩]
    , contentType := .article, confidence := 9/10, priority := 100 }
  , { platform := .hackernews
    , patterns := some [⟨"news\\.ycombinator\\.com", false, .str "news.ycombinator.com"⟩]
    , contentType := .discussion, confidence := 9/10, priority := 100 } ]

/-- `classify` with the constructor defaults: builtin rule table, heuristics
enabled, threshold 0.6. -/
def defaultClassify (p : Platform) (m : PlatformMetadata) : ContentType :=
  classifyWith classifierDefaultRules true (3/5) p m


theorem applyPlatformRules_eq_head (rules : List ClassificationRule)
    (p : Platform) (m : PlatformMetadata) :
    applyPlatformRules rules p m =
      match (rules.filter (fun r => r.platform == p)).head? with
      | none => (ContentType.generic, 1/10)
      | some r => evalPlatformRule r m := by
  rcases hf : rules.filter (fun r => r.platform == p) with _ | ⟨r, rest⟩ <;>
    simp [applyPlatformRules, hf]

/-- C6 (amended): classification consults only the first rule listed for the
platform.  (a) Two rule tables whose first rule for the platform agrees
classify identically, whatever their other rules are; (b) whenever the first
listed rule's evaluated confidence (full on URL-pattern hit, ratio-scaled on
metadata hit, 0.8 × otherwise) reaches the default threshold 0.6, its content
type is returned. -/
theorem classify_first_rule_only :
    (∀ (rules₁ rules₂ : List ClassificationRule) (en : Bool) (θ : ℚ)
        (p : Platform) (m : PlatformMetadata),
      (rules₁.filter (fun r => r.platform == p)).head? =
        (rules₂.filter (fun r => r.platform == p)).head? →
      classifyWith rules₁ en θ p m = classifyWith rules₂ en θ p m) ∧
    (∀ (rules : List ClassificationRule) (p : Platform) (m : PlatformMetadata)
        (r : ClassificationRule) (rest : List ClassificationRule),
      rules.filter (fun r => r.platform == p) = r :: rest →
      (evalPlatformRule r m).2 ≥ 3/5 →
      classifyWith rules true (3/5) p m = (evalPlatformRule r m).1) := by
  constructor
  · intro rules₁ rules₂ en θ p m hhead
    unfold classifyWith
    rw [applyPlatformRules_eq_head rules₁, applyPlatformRules_eq_head rules₂, hhead]
  · intro rules p m r rest hfilter hconf
    unfold classifyWith
    rw [applyPlatformRules_eq_head rules, hfilter]
    simp only [List.head?]
    exact if_pos hconf

/-- A one-rule table used by the C6 witness. -/
def witnessClassRule : ClassificationRule :=
  { platform := .medium, patterns := some [⟨"x", false, .chr 'x'⟩]
  , contentType := .article, confidence := 9/10, priority := 100 }

/-- Metadata whose raw URL is matched by `witnessClassRule`. -/
def witnessClassMeta : PlatformMetadata :=
  { rawData := some { url := some "x" } }

/-- Witness for C6's amended statement: the first-rule characterisation at a
concrete table, metadata and platform. -/
theorem classify_first_rule_only_witness :
    classifyWith [witnessClassRule] true (3/5) Platform.medium witnessClassMeta =
      ContentType.article ∧
    classifyWith [witnessClassRule, witnessClassRule] true (3/5) Platform.medium
        witnessClassMeta =
      classifyWith [witnessClassRule] true (3/5) Platform.medium witnessClassMeta := by
  constructor
  · have h := classify_first_rule_only.2 [witnessClassRule] Platform.medium
      witnessClassMeta witnessClassRule [] rfl
      (show (evalPlatformRule witnessClassRule witnessClassMeta).2 ≥ 3/5 from
        show (9:ℚ)/10 ≥ 3/5 by norm_num)
    rw [h]
    rfl
  · exact classify_first_rule_only.1 [witnessClassRule, witnessClassRule]
      [witnessClassRule] true (3/5) Platform.medium witnessClassMeta rfl

/-- Whether a platform rule "matches" in the sense of the spec sentence behind
C6 ("platform-specific rules keyed by platform+URL-pattern or
platform+metadata-keyword match").  Modelled from the spec's words, for
comparison against the implementation. -/
def specRuleMatches (r : ClassificationRule) (m : PlatformMetadata) : Bool :=
  (match r.patterns, truthyStr (m.rawData.bind RawData.url) with
   | some pats, some u => pats.any (fun p => rxTest p u)
   | _, _ => false) ||
  (match r.metadataPatterns with
   | some mp =>
     (match mp.title, truthyStr m.title with
      | some ps, some t => ps.any (fun p => rxTest p t)
      | _, _ => false) ||
     (match mp.description, truthyStr m.description with
      | some ps, some dsc => ps.any (fun p => rxTest p dsc)
      | _, _ => false)
   | none => false)

/-- The claim's "highest-confidence matching platform rule at or above the
threshold", modelled from the spec's words: among the rules for the platform
that match, the one of maximal confidence (first such on ties), kept only when
its confidence clears the threshold. -/
def specHighestRule (rules : List ClassificationRule) (p : Platform)
    (m : PlatformMetadata) (threshold : ℚ) : Option ClassificationRule :=
  match (rules.filter (fun r => r.platform == p && specRuleMatches r m)).foldl
      (fun best r =>
        match best with
        | none => some r
        | some b => if r.confidence > b.confidence then some r else best)
      none with
  | none => none
  | some b => if b.confidence ≥ threshold then some b else none

/-- Metadata carrying a zhihu z-video URL, on which the claimed and the
implemented classification differ. -/
def zvideoMeta : PlatformMetadata :=
  { rawData := some { url := some "https://www.zhihu.com/zvideo/123" } }

/-- The third builtin zhihu classification rule (`zhihu.com/zvideo`, content
type `video`, confidence 0.9), named for use in the C6 counterexample. -/
def zhihuZvideoRule : ClassificationRule :=
  { platform := .zhihu
  , patterns := some [⟨"zhihu\\.com/zvideo", false, .str "zhihu.com/zvideo"⟩]
  , contentType := .video, confidence := 9/10, priority := 80 }

/-- Counterexample to C6 as stated: for platform `zhihu` and a z-video URL the
highest-confidence matching platform rule at or above the 0.6 threshold is the
`zhihu.com/zvideo` rule (confidence 0.9, content type `video`), yet `classify`
returns `discussion`: it consults only the first zhihu rule
(`zhihu.com/question`), whose patterns do not match the URL, and takes that
rule's pattern-less default 0.9 × 0.8 = 0.72 ≥ 0.6 result. -/
theorem classify_not_highest_rule :
    defaultClassify Platform.zhihu zvideoMeta = ContentType.discussion ∧
    (specHighestRule classifierDefaultRules Platform.zhihu zvideoMeta
        (3/5)).map ClassificationRule.contentType = some ContentType.video ∧
    ContentType.discussion ≠ ContentType.video := by
  refine ⟨?_, ?_, by decide⟩
  · have h1 : applyPlatformRules classifierDefaultRules Platform.zhihu zvideoMeta =
        (ContentType.discussion, 9/10 * (4/5)) := rfl
    unfold defaultClassify classifyWith
    rw [h1]
    rw [if_pos (show ((ContentType.discussion, (9:ℚ)/10 * (4/5)).2 ≥ 3/5) from
      show (9:ℚ)/10 * (4/5) ≥ 3/5 by norm_num)]
  · have h2 : specHighestRule classifierDefaultRules Platform.zhihu zvideoMeta
        (3/5) =
        (if zhihuZvideoRule.confidence ≥ 3/5 then some zhihuZvideoRule else none) :=
      rfl
    rw [h2]
    rw [if_pos (show zhihuZvideoRule.confidence ≥ 3/5 from
      show (9:ℚ)/10 ≥ 3/5 by norm_num)]
    rfl

/-! ## Strategy decider (`src/unnamed/part_006`, `StrategyDecider`)

The service constructs its decider as `new StrategyDecider(userPreferences)`;
with the service's default preferences, the merged `defaultStrategies` table
equals the builtin `getDefaultStrategies` table, `enableContextAware` is `true`
and `enableLearning` is `false`.  `Math.exp(-age / 30days)`, the only
transcendental in the engine, is abstracted as the weight oracle `expw`
(applied to the age), and `Date.now()` as the parameter `now`.  The
`recordDecision` side effect appends to an internal history that no returned
value reads (learning reads `context.userHistory`), so it has no value-level
model.  Where the source binds intermediate results (`contextResult`) once,
the model re-evaluates the same pure expression. -/

/-- The string value of a `ContentType`, as interpolated into reasoning. -/
def ctName : ContentType → String
  | .article => "article"
  | .video => "video"
  | .image_gallery => "image_gallery"
  | .tweet => "tweet"
  | .code_repository => "code_repository"
  | .documentation => "documentation"
  | .discussion => "discussion"
  | .generic => "generic"

/-- The string value of a `ProcessingStrategy`, as interpolated into reasoning. -/
def psName : ProcessingStrategy → String
  | .clip => "clip"
  | .watch_later => "watch_later"
  | .bookmark => "bookmark"
  | .ignore => "ignore"

/-- The metadata record read by the decider's context rules
(`ctx.metadata` is a `Record<string, any>`; these are the keys the rules read). -/
structure DecisionMeta where
  duration : Option ℚ := none
  wordCount : Option ℚ := none
  language : Option String := none
  commentCount : Option ℚ := none
  title : Option String := none

/-- One entry of `userHistory.similarContentDecisions`. -/
structure HistEntry where
  contentType : ContentType
  strategy : ProcessingStrategy
  timestamp : ℚ
  satisfaction : Option ℚ := none

/-- The `userHistory` bag of the decision context. -/
structure UserHistory where
  similarContentDecisions : List HistEntry := []

/-- `DecisionContext` from `part_006`. -/
structure DecisionContext where
  url : Option String := none
  platform : Option String := none
  metadata : Option DecisionMeta := none
  userHistory : Option UserHistory := none
  currentQueueSize : Option ℚ := none
  availableStorage : Option ℚ := none

/-- One context rule of `getContextRules`. -/
structure ContextRule where
  condition : ContentType → DecisionContext → Bool
  strategy : ProcessingStrategy
  matchQuality : ContentType → DecisionContext → ℚ
  reason : String

/-- `getDefaultStrategies` (also the default preferences table of the service). -/
def getDefaultStrategies : ContentType → ProcessingStrategy
  | .article => .clip
  | .video => .watch_later
  | .tweet => .bookmark
  | .code_repository => .bookmark
  | .documentation => .clip
  | .discussion => .bookmark
  | .image_gallery => .bookmark
  | .generic => .clip

/-- `getContextRules`: the eight ordered context rules, with JavaScript
truthiness made explicit (a numeric field read through `&&` must be present
and non-zero; `!== undefined` checks only presence). -/
def getContextRules : List ContextRule :=
  [ { condition := fun t c =>
        t == .video &&
          (match c.metadata with
           | some md =>
             match md.duration with
             | some d => !(decide (d = 0)) && decide (d < 300)
             | none => false
           | none => false)
    , strategy := .clip
    , matchQuality := fun _ c =>
        let d : ℚ := (match c.metadata with
                  | some md => md.duration.getD 0
                  | none => 0)
        if d < 60 then 9/10 else 7/10
    , reason := "短视频适合直接剪藏" }
  , { condition := fun t c =>
        t == .video &&
          (match c.currentQueueSize with
           | some q => decide (q < 5)
           | none => false)
    , strategy := .watch_later
    , matchQuality := fun _ _ => 8/10
    , reason := "队列较短，适合添加到稍后观看" }
  , { condition := fun t c =>
        t == .article &&
          (match c.metadata with
           | some md =>
             match md.wordCount with
             | some w' => !(decide (w' = 0)) && decide (w' > 5000)
             | none => false
           | none => false)
    , strategy := .watch_later
    , matchQuality := fun _ c =>
        let w' : ℚ := (match c.metadata with
                   | some md => md.wordCount.getD 0
                   | none => 0)
        if w' > 10000 then 9/10 else 7/10
    , reason := "长文章适合稍后阅读" }
  , { condition := fun t c =>
        t == .article &&
          (match c.availableStorage with
           | some st => decide (st < 50 * 1024 * 1024)
           | none => false)
    , strategy := .bookmark
    , matchQuality := fun _ _ => 9/10
    , reason := "存储空间不足，使用书签保存" }
  , { condition := fun t c =>
        (t == .code_repository || t == .documentation) &&
          (match c.metadata with
           | some md =>
             match md.language with
             | some lang => lang == "zh"
             | none => false
           | none => false)
    , strategy := .clip
    , matchQuality := fun _ _ => 8/10
    , reason := "中文文档适合剪藏" }
  , { condition := fun t c =>
        t == .discussion &&
          (match c.metadata with
           | some md =>
             match md.commentCount with
             | some cc => !(decide (cc = 0)) && decide (cc > 100)
             | none => false
           | none => false)
    , strategy := .bookmark
    , matchQuality := fun _ c =>
        let cc : ℚ := (match c.metadata with
                   | some md => md.commentCount.getD 0
                   | none => 0)
        if cc > 500 then 9/10 else 7/10
    , reason := "热门讨论适合书签保存" }
  , { condition := fun _ c =>
        (match c.url with | some u => strIncludes u "tutorial" | none => false) ||
        (match c.url with | some u => strIncludes u "guide" | none => false) ||
        (match c.metadata with
         | some md =>
           match md.title with
           | some t => lowerIncludes t "tutorial"
           | none => false
         | none => false)
    , strategy := .clip
    , matchQuality := fun _ _ => 8/10
    , reason := "教程类内容适合剪藏" }
  , { condition := fun _ c =>
        (match c.url with | some u => strIncludes u "news" | none => false) ||
        (match c.metadata with
         | some md =>
           match md.title with
           | some t => lowerIncludes t "news"
           | none => false
         | none => false)
    , strategy := .bookmark
    , matchQuality := fun _ _ => 7/10
    , reason := "新闻类内容适合书签保存" }
  ]

/-- The decider's configuration after constructor merging. -/
structure StrategyDeciderCfg where
  defaultStrategies : ContentType → ProcessingStrategy
  enableContextAware : Bool
  enableLearning : Bool

/-- The configuration the service's decider ends up with under default
preferences. -/
def builtinDeciderCfg : StrategyDeciderCfg :=
  { defaultStrategies := getDefaultStrategies
  , enableContextAware := true
  , enableLearning := false }

/-- The running best match of `applyContextRules`. -/
structure CtxBest where
  strategy : ProcessingStrategy
  confidence : ℚ
  reason : String

/-- One pass of `applyContextRules`' loop: a rule whose condition holds takes
over when there is no best match yet or its match quality is strictly higher. -/
def ctxStep (ct : ContentType) (ctx : DecisionContext) (acc : Option CtxBest)
    (r : ContextRule) : Option CtxBest :=
  if r.condition ct ctx then
    match acc with
    | none => some ⟨r.strategy, r.matchQuality ct ctx, r.reason⟩
    | some b =>
      if r.matchQuality ct ctx > b.confidence then
        some ⟨r.strategy, r.matchQuality ct ctx, r.reason⟩
      else some b
  else acc

/-- The loop of `applyContextRules` over the rule table. -/
def ctxBestMatch (rules : List ContextRule) (ct : ContentType)
    (ctx : DecisionContext) : Option CtxBest :=
  rules.foldl (ctxStep ct ctx) none

/-- `StrategyDecision` from `part_006` (alternatives as strategy, confidence,
reason triples; absent when empty). -/
structure StrategyDecision where
  strategy : ProcessingStrategy
  confidence : ℚ
  reasoning : List String := []
  alternatives : Option (List (ProcessingStrategy × ℚ × String)) := none

/-- `applyContextRules`: the winning context rule's strategy at its match
quality, or the default strategy at 0.7 when no rule matches. -/
def applyContextRules (cfg : StrategyDeciderCfg) (ct : ContentType)
    (ctx : DecisionContext) : StrategyDecision :=
  match ctxBestMatch getContextRules ct ctx with
  | some b =>
    { strategy := b.strategy, confidence := b.confidence
    , reasoning := ["上下文规则匹配: " ++ b.reason] }
  | none =>
    { strategy := cfg.defaultStrategies ct, confidence := 7/10
    , reasoning := ["没有匹配的上下文规则，使用默认策略"] }

/-- Stable descending insertion by `timestamp` (for the history sort
`(a, b) => b.timestamp - a.timestamp`). -/
def insertHistDesc (e : HistEntry) : List HistEntry → List HistEntry
  | [] => [e]
  | x :: xs =>
    if x.timestamp ≤ e.timestamp then e :: x :: xs else x :: insertHistDesc e xs

/-- Stable sort of history entries by descending timestamp. -/
def sortHistDesc : List HistEntry → List HistEntry
  | [] => []
  | x :: xs => insertHistDesc x (sortHistDesc xs)

/-- `strategyCounts.set(strategy, (get(strategy) || 0) + weight)` on an
insertion-ordered association list (JavaScript `Map` semantics). -/
def bumpCount : List (ProcessingStrategy × ℚ) → ProcessingStrategy → ℚ →
    List (ProcessingStrategy × ℚ)
  | [], s, w' => [(s, w')]
  | (s', c) :: t, s, w' =>
    if s' == s then (s', c + w') :: t else (s', c) :: bumpCount t s w'

/-- The line `内容类型 "<ct>" 的默认策略是 "<strategy>"`. -/
def defaultLine (ct : ContentType) (s : ProcessingStrategy) : String :=
  "内容类型 \"" ++ ctName ct ++ "\" 的默认策略是 \"" ++ psName s ++ "\""

/-- `applyLearning`: time-decayed weighted vote over same-content-type history,
with an average-satisfaction bonus of at most 0.2, capped at 0.9.  The weight
`expw (now - timestamp)` stands for `Math.exp(-age / 30days)`. -/
def applyLearning (cfg : StrategyDeciderCfg) (now : ℚ) (expw : ℚ → ℚ)
    (ct : ContentType) (ctx : DecisionContext) : StrategyDecision :=
  match ctx.userHistory with
  | none =>
    { strategy := cfg.defaultStrategies ct, confidence := 1/2
    , reasoning := ["没有用户历史数据"] }
  | some uh =>
    if uh.similarContentDecisions.isEmpty then
      { strategy := cfg.defaultStrategies ct, confidence := 1/2
      , reasoning := ["没有用户历史数据"] }
    else
      let similar := sortHistDesc (uh.similarContentDecisions.filter
        (fun d => d.contentType == ct))
      if similar.isEmpty then
        { strategy := cfg.defaultStrategies ct, confidence := 1/2
        , reasoning := ["没有相同内容类型的历史决策"] }
      else
        let counts := similar.foldl
          (fun (acc : List (ProcessingStrategy × ℚ) × ℚ) d =>
            let w' := expw (now - d.timestamp)
            (bumpCount acc.1 d.strategy w', acc.2 + w'))
          ([], 0)
        let best := counts.1.foldl
          (fun (best : ProcessingStrategy × ℚ) sc =>
            if sc.2 / counts.2 > best.2 then (sc.1, sc.2 / counts.2) else best)
          (ProcessingStrategy.clip, 0)
        let sats := similar.filterMap (fun d => d.satisfaction)
        let bonus :=
          if sats.isEmpty then 0
          else (sats.foldl (· + ·) 0) / (sats.length : ℚ) * (1/5)
        { strategy := best.1, confidence := min (9/10) (best.2 + bonus)
        , reasoning := ["基于 " ++ toString similar.length ++ " 个历史决策学习"] }

/-- The strategy `decideWithDetails` settles on: the context-rule result when
context awareness is on and it differs from the default, else the default. -/
def finalStrategyOf (cfg : StrategyDeciderCfg) (ct : ContentType)
    (ctx : DecisionContext) : ProcessingStrategy :=
  if cfg.enableContextAware then
    if (applyContextRules cfg ct ctx).strategy ≠ cfg.defaultStrategies ct then
      (applyContextRules cfg ct ctx).strategy
    else cfg.defaultStrategies ct
  else cfg.defaultStrategies ct

/-- The confidence `decideWithDetails` reports (0.8 unless a context rule
overrode the default). -/
def finalConfidenceOf (cfg : StrategyDeciderCfg) (ct : ContentType)
    (ctx : DecisionContext) : ℚ :=
  if cfg.enableContextAware then
    if (applyContextRules cfg ct ctx).strategy ≠ cfg.defaultStrategies ct then
      (applyContextRules cfg ct ctx).confidence
    else 8/10
  else 8/10

/-- The reasoning lines `decideWithDetails` accumulates. -/
def reasoningOf (cfg : StrategyDeciderCfg) (ct : ContentType)
    (ctx : DecisionContext) : List String :=
  if cfg.enableContextAware ∧
      (applyContextRules cfg ct ctx).strategy ≠ cfg.defaultStrategies ct then
    defaultLine ct (cfg.defaultStrategies ct) :: (applyContextRules cfg ct ctx).reasoning
  else [defaultLine ct (cfg.defaultStrategies ct)]

/-- The alternatives `decideWithDetails` accumulates: the default strategy when
a context rule overrode it, then the learned suggestion when learning is on,
history exists and it differs from the final strategy. -/
def alternativesOf (cfg : StrategyDeciderCfg) (now : ℚ) (expw : ℚ → ℚ)
    (ct : ContentType) (ctx : DecisionContext) :
    List (ProcessingStrategy × ℚ × String) :=
  (if cfg.enableContextAware ∧
      (applyContextRules cfg ct ctx).strategy ≠ cfg.defaultStrategies ct then
    [(cfg.defaultStrategies ct, 7/10, "默认策略")]
   else []) ++
  (if cfg.enableLearning ∧ ctx.userHistory.isSome ∧
      (applyLearning cfg now expw ct ctx).strategy ≠ finalStrategyOf cfg ct ctx then
    [((applyLearning cfg now expw ct ctx).strategy,
      (applyLearning cfg now expw ct ctx).confidence, "基于用户历史学习")]
   else [])

/-- `decideWithDetails`. -/
def decideWithDetails (cfg : StrategyDeciderCfg) (now : ℚ) (expw : ℚ → ℚ)
    (ct : ContentType) (ctx : DecisionContext) : StrategyDecision :=
  { strategy := finalStrategyOf cfg ct ctx
  , confidence := finalConfidenceOf cfg ct ctx
  , reasoning := reasoningOf cfg ct ctx
  , alternatives :=
      if (alternativesOf cfg now expw ct ctx).isEmpty then none
      else some (alternativesOf cfg now expw ct ctx) }

/-- `decide(contentType, context)`. -/
def decideModel (cfg : StrategyDeciderCfg) (now : ℚ) (expw : ℚ → ℚ)
    (ct : ContentType) (ctx : DecisionContext) : ProcessingStrategy :=
  (decideWithDetails cfg now expw ct ctx).strategy

/-- `decide(contentType)` with the service's default decider (learning is off,
so the time and weight-oracle arguments are unused). -/
def decideDefault (ct : ContentType) (ctx : DecisionContext) : ProcessingStrategy :=
  decideModel builtinDeciderCfg 0 (fun _ => 0) ct ctx

theorem ctxStep_strategy (ct : ContentType) (ctx : DecisionContext)
    (acc : Option CtxBest) (r : ContextRule) (a : CtxBest)
    (h : ctxStep ct ctx acc r = some a) :
    a.strategy = r.strategy ∨ acc = some a := by
  unfold ctxStep at h
  by_cases hcond : r.condition ct ctx
  · rw [if_pos hcond] at h
    cases acc with
    | none =>
      injection h with h2
      left
      rw [← h2]
    | some b' =>
      dsimp only at h
      by_cases hq : r.matchQuality ct ctx > b'.confidence
      · rw [if_pos hq] at h
        injection h with h2
        left
        rw [← h2]
      · rw [if_neg hq] at h
        right
        exact h
  · rw [if_neg hcond] at h
    right
    exact h

theorem ctxFold_ne_ignore (ct : ContentType) (ctx : DecisionContext) :
    ∀ (rules : List ContextRule) (acc : Option CtxBest),
      (∀ r ∈ rules, r.strategy ≠ ProcessingStrategy.ignore) →
      (∀ a, acc = some a → a.strategy ≠ ProcessingStrategy.ignore) →
      ∀ b, rules.foldl (ctxStep ct ctx) acc = some b →
        b.strategy ≠ ProcessingStrategy.ignore := by
  intro rules
  induction rules with
  | nil =>
    intro acc _ hacc b hb
    exact hacc b (by simpa using hb)
  | cons r rs ih =>
    intro acc hr hacc b hb
    rw [List.foldl_cons] at hb
    refine ih (ctxStep ct ctx acc r)
      (fun r' h' => hr r' (List.mem_cons_of_mem _ h')) ?_ b hb
    intro a ha
    rcases ctxStep_strategy ct ctx acc r a ha with h' | h'
    · rw [h']
      exact hr r (List.mem_cons_self _ _)
    · exact hacc a h'

theorem getContextRules_ne_ignore :
    ∀ r ∈ getContextRules, r.strategy ≠ ProcessingStrategy.ignore := by
  intro r hr
  simp only [getContextRules, List.mem_cons, List.not_mem_nil, or_false] at hr
  rcases hr with rfl | rfl | rfl | rfl | rfl | rfl | rfl | rfl <;> decide

theorem applyContextRules_strategy (cfg : StrategyDeciderCfg) (ct : ContentType)
    (ctx : DecisionContext) :
    (applyContextRules cfg ct ctx).strategy = cfg.defaultStrategies ct ∨
    ∃ b, ctxBestMatch getContextRules ct ctx = some b ∧
      (applyContextRules cfg ct ctx).strategy = b.strategy := by
  unfold applyContextRules
  cases hb : ctxBestMatch getContextRules ct ctx with
  | none => left; rfl
  | some b => right; exact ⟨b, rfl, rfl⟩

/-- C10: with the builtin default-strategy table and builtin context rules (the
service's default decider), `decide` returns `clip`, `watch_later` or
`bookmark` for every content type and every decision context — never `ignore`,
for any clock value and any learning-weight function. -/
theorem decide_never_ignore (now : ℚ) (expw : ℚ → ℚ) (ct : ContentType)
    (ctx : DecisionContext) :
    decideModel builtinDeciderCfg now expw ct ctx ≠ ProcessingStrategy.ignore := by
  have hd : ∀ ct', getDefaultStrategies ct' ≠ ProcessingStrategy.ignore := by
    intro ct'
    cases ct' <;> decide
  have hacr : (applyContextRules builtinDeciderCfg ct ctx).strategy ≠
      ProcessingStrategy.ignore := by
    rcases applyContextRules_strategy builtinDeciderCfg ct ctx with h | ⟨b, hb, h⟩
    · rw [h]
      exact hd ct
    · rw [h]
      exact ctxFold_ne_ignore ct ctx getContextRules none getContextRules_ne_ignore
        (fun a ha => by cases ha) b hb
  have hfinal : finalStrategyOf builtinDeciderCfg ct ctx ≠
      ProcessingStrategy.ignore := by
    unfold finalStrategyOf
    split
    · split
      · exact hacr
      · exact hd ct
    · exact hd ct
  simpa [decideModel, decideWithDetails] using hfinal

/-! ## Cache manager (`src/unnamed/part_007`, `CacheManager`)

The cache is a JavaScript `Map` keyed by normalized URL: an insertion-ordered
association list with unique keys, where `set` on an existing key replaces the
value in place and `delete` removes the entry.  `Date.now()` values are the
explicit `now : ℕ` arguments (milliseconds).  `get` returns `{ ...item.result }`,
a value-equal shallow copy, modelled as the stored value itself. -/

/-- The `CacheManagerConfig` fields the state operations read (the cleanup
interval only schedules the periodic `cleanup`, which is a `CacheReach` step
here). -/
structure CacheConfig where
  enabled : Bool
  duration : Nat
  maxSize : Nat
deriving DecidableEq, Repr

/-- `CacheItem` from `part_007`. -/
structure CacheItem where
  result : PlatformDetectionResult
  timestamp : Nat
  expiresAt : Nat
  accessCount : Nat
deriving DecidableEq, Repr

/-- The mutable state of a `CacheManager`: the map entries in insertion order
and the hit/miss counters. -/
structure CacheState where
  entries : List (String × CacheItem) := []
  hits : Nat := 0
  misses : Nat := 0
deriving DecidableEq, Repr

/-- `Map.prototype.get`. -/
def lookupEntry (l : List (String × CacheItem)) (k : String) : Option CacheItem :=
  (l.find? (fun e => e.1 == k)).map Prod.snd

/-- `Map.prototype.delete` (unique keys make the filter remove one entry). -/
def eraseKey (l : List (String × CacheItem)) (k : String) :
    List (String × CacheItem) :=
  l.filter (fun e => !(e.1 == k))

/-- The in-place `item.accessCount++` of `get`. -/
def bumpAccess (l : List (String × CacheItem)) (k : String) :
    List (String × CacheItem) :=
  l.map (fun e =>
    if e.1 == k then (e.1, { e.2 with accessCount := e.2.accessCount + 1 }) else e)

/-- `CacheManager.get`: disabled or missing or expired keys yield `none` (an
expired entry is deleted lazily); a live entry yields a copy of its result and
bumps the bookkeeping. -/
def cacheGet (cfg : CacheConfig) (s : CacheState) (k : String) (now : Nat) :
    Option PlatformDetectionResult × CacheState :=
  if !cfg.enabled then (none, { s with misses := s.misses + 1 })
  else
    match lookupEntry s.entries k with
    | none => (none, { s with misses := s.misses + 1 })
    | some it =>
      if now > it.expiresAt then
        (none, { s with entries := eraseKey s.entries k, misses := s.misses + 1 })
      else
        (some it.result,
         { s with entries := bumpAccess s.entries k, hits := s.hits + 1 })

/-- `Map.prototype.set`: replace in place when the key exists (keeping its
position), append otherwise. -/
def insertEntry : List (String × CacheItem) → String → CacheItem →
    List (String × CacheItem)
  | [], k, it => [(k, it)]
  | e :: t, k, it => if e.1 == k then (k, it) :: t else e :: insertEntry t k it

/-- Stable ascending insertion by `timestamp`
(the comparator `(a, b) => a[1].timestamp - b[1].timestamp`). -/
def insertTsAsc (e : String × CacheItem) : List (String × CacheItem) →
    List (String × CacheItem)
  | [] => [e]
  | x :: xs =>
    if e.2.timestamp ≤ x.2.timestamp then e :: x :: xs else x :: insertTsAsc e xs

/-- Stable sort of the entries by ascending creation timestamp. -/
def sortTsAsc : List (String × CacheItem) → List (String × CacheItem)
  | [] => []
  | x :: xs => insertTsAsc x (sortTsAsc xs)

/-- Stable ascending insertion by `accessCount`
(the comparator `(a, b) => (a[1].accessCount || 0) - (b[1].accessCount || 0)`). -/
def insertAccAsc (e : String × CacheItem) : List (String × CacheItem) →
    List (String × CacheItem)
  | [] => [e]
  | x :: xs =>
    if e.2.accessCount ≤ x.2.accessCount then e :: x :: xs else x :: insertAccAsc e xs

/-- Stable sort of the entries by ascending access count. -/
def sortAccAsc : List (String × CacheItem) → List (String × CacheItem)
  | [] => []
  | x :: xs => insertAccAsc x (sortAccAsc xs)

/-- `evictOldestItems(count)`: clear everything when the cache holds at most
`count` entries, else delete the `count` entries of oldest creation timestamp.
The value is the surviving entry list. -/
def evictOldestItems (count : Nat) (l : List (String × CacheItem)) :
    List (String × CacheItem) :=
  if l.length ≤ count then []
  else ((sortTsAsc l).take count).foldl (fun acc e => eraseKey acc e.1) l

/-- `evictLeastUsed(count)`: the same with the access-count order. -/
def evictLeastUsed (count : Nat) (l : List (String × CacheItem)) :
    List (String × CacheItem) :=
  if l.length ≤ count then []
  else ((sortAccAsc l).take count).foldl (fun acc e => eraseKey acc e.1) l

/-- The cache item `set` stores: creation time `now`, expiry
`now + (duration || config.duration)` — a zero or omitted per-call duration
falls back to the configured one — and a zero access count. -/
def mkCacheItem (cfg : CacheConfig) (r : PlatformDetectionResult) (d : Option Nat)
    (now : Nat) : CacheItem :=
  { result := r
  , timestamp := now
  , expiresAt := now +
      (match d with
       | none => cfg.duration
       | some v => if v = 0 then cfg.duration else v)
  , accessCount := 0 }

/-- `CacheManager.set`: a no-op when disabled; evicts a batch of ten oldest
entries first when the size is at or above `maxSize`; then stores the entry. -/
def cacheSet (cfg : CacheConfig) (s : CacheState) (k : String)
    (r : PlatformDetectionResult) (d : Option Nat) (now : Nat) : CacheState :=
  if !cfg.enabled then s
  else
    { s with
      entries :=
        insertEntry
          (if s.entries.length ≥ cfg.maxSize then evictOldestItems 10 s.entries
           else s.entries)
          k (mkCacheItem cfg r d now) }

/-- `CacheManager.delete`. -/
def cacheDelete (s : CacheState) (k : String) : CacheState :=
  { s with entries := eraseKey s.entries k }

/-- `CacheManager.clear`: drops all entries and resets both counters. -/
def cacheClear (_s : CacheState) : CacheState :=
  { entries := [], hits := 0, misses := 0 }

/-- `CacheManager.cleanup`: eagerly removes every expired entry. -/
def cacheCleanup (s : CacheState) (now : Nat) : CacheState :=
  { s with entries := s.entries.filter (fun e => !(now > e.2.expiresAt)) }

/-- `CacheManager.refresh`: push an existing entry's expiry out to
`now + (duration || config.duration)`. -/
def cacheRefresh (cfg : CacheConfig) (s : CacheState) (k : String) (d : Option Nat)
    (now : Nat) : CacheState :=
  { s with entries := s.entries.map (fun e =>
      if e.1 == k then
        (e.1, { e.2 with expiresAt := now +
          (match d with
           | none => cfg.duration
           | some v => if v = 0 then cfg.duration else v) })
      else e) }

/-- The states a `CacheManager` can reach from construction through its public
operations (the periodic timer only ever calls `cleanup`). -/
inductive CacheReach (cfg : CacheConfig) : CacheState → Prop where
  | init : CacheReach cfg { entries := [], hits := 0, misses := 0 }
  | get (s k now) : CacheReach cfg s → CacheReach cfg (cacheGet cfg s k now).2
  | set (s k r d now) : CacheReach cfg s → CacheReach cfg (cacheSet cfg s k r d now)
  | del (s k) : CacheReach cfg s → CacheReach cfg (cacheDelete s k)
  | clear (s) : CacheReach cfg s → CacheReach cfg (cacheClear s)
  | cleanup (s now) : CacheReach cfg s → CacheReach cfg (cacheCleanup s now)
  | evictLeast (s n) : CacheReach cfg s →
      CacheReach cfg { s with entries := evictLeastUsed n s.entries }
  | evictOldest (s n) : CacheReach cfg s →
      CacheReach cfg { s with entries := evictOldestItems n s.entries }
  | refresh (s k d now) : CacheReach cfg s →
      CacheReach cfg (cacheRefresh cfg s k d now)

/-- Keys are pairwise distinct (the `Map` invariant). -/
def NodupKeys (l : List (String × CacheItem)) : Prop :=
  (l.map Prod.fst).Nodup

instance : DecidablePred NodupKeys := fun l =>
  inferInstanceAs (Decidable ((l.map Prod.fst).Nodup))

theorem nodupKeys_sublist {l₁ l₂ : List (String × CacheItem)}
    (h : l₁.Sublist l₂) (h₂ : NodupKeys l₂) : NodupKeys l₁ :=
  List.Nodup.sublist (List.Sublist.map Prod.fst h) h₂

theorem eraseKey_sublist (l : List (String × CacheItem)) (k : String) :
    (eraseKey l k).Sublist l :=
  List.filter_sublist l

theorem bumpAccess_map_fst (l : List (String × CacheItem)) (k : String) :
    (bumpAccess l k).map Prod.fst = l.map Prod.fst := by
  unfold bumpAccess
  rw [List.map_map]
  refine List.map_congr_left ?_
  intro e _
  simp only [Function.comp]
  by_cases h : e.1 == k
  · rw [if_pos h]
  · rw [if_neg h]

theorem cacheRefresh_map_fst (cfg : CacheConfig) (s : CacheState) (k : String)
    (d : Option Nat) (now : Nat) :
    (cacheRefresh cfg s k d now).entries.map Prod.fst = s.entries.map Prod.fst := by
  unfold cacheRefresh
  rw [List.map_map]
  refine List.map_congr_left ?_
  intro e _
  simp only [Function.comp]
  by_cases h : e.1 == k
  · rw [if_pos h]
  · rw [if_neg h]

theorem length_insertEntry (l : List (String × CacheItem)) (k : String)
    (it : CacheItem) : (insertEntry l k it).length ≤ l.length + 1 := by
  induction l with
  | nil => simp [insertEntry]
  | cons e t ih =>
    rw [insertEntry]
    by_cases h : e.1 == k
    · rw [if_pos h]
      simp
    · rw [if_neg h]
      simp only [List.length_cons]
      omega

theorem mem_keys_insertEntry {l : List (String × CacheItem)} {k x : String}
    {it : CacheItem} (h : x ∈ (insertEntry l k it).map Prod.fst) :
    x = k ∨ x ∈ l.map Prod.fst := by
  induction l with
  | nil =>
    rw [insertEntry, List.map_cons] at h
    rcases List.mem_cons.mp h with h' | h'
    · exact Or.inl h'
    · exact absurd h' (List.not_mem_nil x)
  | cons e t ih =>
    rw [insertEntry] at h
    by_cases he : e.1 == k
    · rw [if_pos he, List.map_cons] at h
      rcases List.mem_cons.mp h with h' | h'
      · exact Or.inl h'
      · exact Or.inr (by rw [List.map_cons]; exact List.mem_cons_of_mem _ h')
    · rw [if_neg he, List.map_cons] at h
      rcases List.mem_cons.mp h with h' | h'
      · refine Or.inr ?_
        rw [List.map_cons, h']
        exact List.mem_cons_self _ _
      · rcases ih h' with h'' | h''
        · exact Or.inl h''
        · exact Or.inr (by rw [List.map_cons]; exact List.mem_cons_of_mem _ h'')

theorem nodupKeys_insertEntry {l : List (String × CacheItem)} (k : String)
    (it : CacheItem) (h : NodupKeys l) : NodupKeys (insertEntry l k it) := by
  induction l with
  | nil => simp [insertEntry, NodupKeys]
  | cons e t ih =>
    unfold NodupKeys at h
    rw [List.map_cons, List.nodup_cons] at h
    rw [insertEntry]
    by_cases he : e.1 == k
    · rw [if_pos he]
      unfold NodupKeys
      rw [List.map_cons, List.nodup_cons]
      have hek : e.1 = k := by simpa using he
      exact ⟨hek ▸ h.1, h.2⟩
    · rw [if_neg he]
      unfold NodupKeys
      rw [List.map_cons, List.nodup_cons]
      refine ⟨?_, ih h.2⟩
      intro hmem
      rcases mem_keys_insertEntry hmem with h' | h'
      · exact he (by simp [h'])
      · exact h.1 h'

theorem lookupEntry_insertEntry (l : List (String × CacheItem)) (k : String)
    (it : CacheItem) : lookupEntry (insertEntry l k it) k = some it := by
  induction l with
  | nil => simp [insertEntry, lookupEntry, List.find?]
  | cons e t ih =>
    rw [insertEntry]
    by_cases he : e.1 == k
    · rw [if_pos he]
      simp [lookupEntry, List.find?]
    · rw [if_neg he]
      unfold lookupEntry at ih ⊢
      rw [List.find?_cons_of_neg _ (by simpa using he)]
      exact ih

theorem insertTsAsc_perm (e : String × CacheItem) (l : List (String × CacheItem)) :
    (insertTsAsc e l).Perm (e :: l) := by
  induction l with
  | nil => simp [insertTsAsc]
  | cons x xs ih =>
    rw [insertTsAsc]
    by_cases h : e.2.timestamp ≤ x.2.timestamp
    · rw [if_pos h]
    · rw [if_neg h]
      exact (List.Perm.cons x ih).trans (List.Perm.swap e x xs)

theorem sortTsAsc_perm (l : List (String × CacheItem)) : (sortTsAsc l).Perm l := by
  induction l with
  | nil => simp [sortTsAsc]
  | cons x xs ih =>
    rw [sortTsAsc]
    exact (insertTsAsc_perm x (sortTsAsc xs)).trans (List.Perm.cons x ih)

theorem insertTsAsc_sorted {e : String × CacheItem} {l : List (String × CacheItem)}
    (hl : List.Pairwise (fun a b => a.2.timestamp ≤ b.2.timestamp) l) :
    List.Pairwise (fun a b => a.2.timestamp ≤ b.2.timestamp) (insertTsAsc e l) := by
  induction l with
  | nil => simp [insertTsAsc]
  | cons x xs ih =>
    rcases List.pairwise_cons.mp hl with ⟨hx, hxs⟩
    rw [insertTsAsc]
    by_cases h : e.2.timestamp ≤ x.2.timestamp
    · rw [if_pos h]
      refine List.pairwise_cons.mpr ⟨?_, hl⟩
      intro y hy
      rcases List.mem_cons.mp hy with hy | hy
      · exact hy ▸ h
      · exact le_trans h (hx y hy)
    · rw [if_neg h]
      refine List.pairwise_cons.mpr ⟨?_, ih hxs⟩
      intro y hy
      have hy' := (insertTsAsc_perm e xs).mem_iff.mp hy
      rcases List.mem_cons.mp hy' with hy'' | hy''
      · subst hy''
        omega
      · exact hx y hy''

theorem sortTsAsc_sorted (l : List (String × CacheItem)) :
    List.Pairwise (fun a b => a.2.timestamp ≤ b.2.timestamp) (sortTsAsc l) := by
  induction l with
  | nil => simp [sortTsAsc]
  | cons x xs ih => exact insertTsAsc_sorted ih

theorem foldl_eraseKey_sublist (vs : List (String × CacheItem)) :
    ∀ l, (vs.foldl (fun acc e => eraseKey acc e.1) l).Sublist l := by
  induction vs with
  | nil => intro l; simp
  | cons v vs' ih =>
    intro l
    rw [List.foldl_cons]
    exact (ih (eraseKey l v.1)).trans (eraseKey_sublist l v.1)

theorem eraseKey_perm_of_nodup {l t : List (String × CacheItem)}
    {v : String × CacheItem} (hnd : NodupKeys l) (hp : l.Perm (v :: t)) :
    (eraseKey l v.1).Perm t := by
  have hndvt : ((v :: t).map Prod.fst).Nodup := (hp.map Prod.fst).nodup hnd
  rw [List.map_cons, List.nodup_cons] at hndvt
  have h1 : (eraseKey l v.1).Perm (eraseKey (v :: t) v.1) :=
    List.Perm.filter _ hp
  have h2 : eraseKey (v :: t) v.1 = t := by
    unfold eraseKey
    rw [List.filter_cons]
    have hv : (!(v.1 == v.1)) = false := by simp
    rw [hv]
    simp only [Bool.false_eq_true, if_false]
    rw [List.filter_eq_self]
    intro e he
    have : e.1 ≠ v.1 := by
      intro hek
      exact hndvt.1 (hek ▸ List.mem_map_of_mem Prod.fst he)
    simpa using this
  rw [h2] at h1
  exact h1

theorem foldl_eraseKey_perm :
    ∀ (vs rest l : List (String × CacheItem)), NodupKeys l → l.Perm (vs ++ rest) →
      (vs.foldl (fun acc e => eraseKey acc e.1) l).Perm rest := by
  intro vs
  induction vs with
  | nil =>
    intro rest l _ hp
    simpa using hp
  | cons v vs' ih =>
    intro rest l hnd hp
    rw [List.foldl_cons]
    refine ih rest (eraseKey l v.1) (nodupKeys_sublist (eraseKey_sublist l v.1) hnd) ?_
    exact eraseKey_perm_of_nodup hnd (by simpa using hp)

theorem evictOldest_sublist (count : Nat) (l : List (String × CacheItem)) :
    (evictOldestItems count l).Sublist l := by
  unfold evictOldestItems
  by_cases h : l.length ≤ count
  · rw [if_pos h]; exact List.nil_sublist l
  · rw [if_neg h]; exact foldl_eraseKey_sublist _ l

theorem evictLeast_sublist (count : Nat) (l : List (String × CacheItem)) :
    (evictLeastUsed count l).Sublist l := by
  unfold evictLeastUsed
  by_cases h : l.length ≤ count
  · rw [if_pos h]; exact List.nil_sublist l
  · rw [if_neg h]; exact foldl_eraseKey_sublist _ l

theorem evictOldest_perm_drop (count : Nat) (l : List (String × CacheItem))
    (hnd : NodupKeys l) (h : ¬ l.length ≤ count) :
    (evictOldestItems count l).Perm ((sortTsAsc l).drop count) := by
  unfold evictOldestItems
  rw [if_neg h]
  refine foldl_eraseKey_perm _ _ l hnd ?_
  rw [List.take_append_drop]
  exact (sortTsAsc_perm l).symm

theorem evictOldest_length (count : Nat) (l : List (String × CacheItem))
    (hnd : NodupKeys l) :
    (evictOldestItems count l).length = l.length - min count l.length := by
  by_cases h : l.length ≤ count
  · unfold evictOldestItems
    rw [if_pos h]
    simp
    omega
  · rw [(evictOldest_perm_drop count l hnd h).length_eq]
    rw [List.length_drop, (sortTsAsc_perm l).length_eq]
    omega

theorem evictOldest_oldest (count : Nat) (l : List (String × CacheItem))
    (hnd : NodupKeys l) :
    ∀ p ∈ l, p ∉ evictOldestItems count l →
      ∀ q ∈ evictOldestItems count l, p.2.timestamp ≤ q.2.timestamp := by
  intro p hp hpe q hq
  by_cases h : l.length ≤ count
  · exfalso
    unfold evictOldestItems at hq
    rw [if_pos h] at hq
    exact List.not_mem_nil q hq
  · have hperm := evictOldest_perm_drop count l hnd h
    have hqd : q ∈ (sortTsAsc l).drop count := hperm.mem_iff.mp hq
    have hps : p ∈ sortTsAsc l := (sortTsAsc_perm l).mem_iff.mpr hp
    rw [← List.take_append_drop count (sortTsAsc l), List.mem_append] at hps
    rcases hps with hpt | hpd
    · have hsorted := sortTsAsc_sorted l
      rw [← List.take_append_drop count (sortTsAsc l)] at hsorted
      exact (List.pairwise_append.mp hsorted).2.2 p hpt q hqd
    · exact absurd (hperm.mem_iff.mpr hpd) hpe

theorem cacheGet_entries (cfg : CacheConfig) (s : CacheState) (k : String)
    (now : Nat) :
    (cacheGet cfg s k now).2.entries = s.entries ∨
    (cacheGet cfg s k now).2.entries = eraseKey s.entries k ∨
    (cacheGet cfg s k now).2.entries = bumpAccess s.entries k := by
  unfold cacheGet
  by_cases he : !cfg.enabled
  · rw [if_pos he]
    left
    rfl
  · rw [if_neg he]
    cases hl : lookupEntry s.entries k with
    | none => left; rfl
    | some it =>
      dsimp only
      by_cases hex : now > it.expiresAt
      · rw [if_pos hex]
        right; left; rfl
      · rw [if_neg hex]
        right; right; rfl

theorem cacheReach_invariant (cfg : CacheConfig) (hmax : 1 ≤ cfg.maxSize) :
    ∀ s, CacheReach cfg s → NodupKeys s.entries ∧ s.entries.length ≤ cfg.maxSize := by
  intro s h
  induction h with
  | init => exact ⟨List.nodup_nil, Nat.zero_le _⟩
  | get s k now _ ih =>
    rcases cacheGet_entries cfg s k now with h' | h' | h'
    · rw [h']
      exact ih
    · rw [h']
      exact ⟨nodupKeys_sublist (eraseKey_sublist _ _) ih.1,
        le_trans (eraseKey_sublist s.entries k).length_le ih.2⟩
    · rw [h']
      refine ⟨?_, ?_⟩
      · unfold NodupKeys
        rw [bumpAccess_map_fst]
        exact ih.1
      · unfold bumpAccess
        rw [List.length_map]
        exact ih.2
  | set s k r d now _ ih =>
    unfold cacheSet
    by_cases he : !cfg.enabled
    · rw [if_pos he]
      exact ih
    · rw [if_neg he]
      by_cases hge : cfg.maxSize ≤ s.entries.length
      · rw [if_pos hge]
        refine ⟨nodupKeys_insertEntry _ _
          (nodupKeys_sublist (evictOldest_sublist 10 s.entries) ih.1), ?_⟩
        dsimp only
        have h1 := length_insertEntry (evictOldestItems 10 s.entries) k
          (mkCacheItem cfg r d now)
        have h2 := evictOldest_length 10 s.entries ih.1
        have h3 := ih.2
        omega
      · rw [if_neg hge]
        refine ⟨nodupKeys_insertEntry _ _ ih.1, ?_⟩
        dsimp only
        have h1 := length_insertEntry s.entries k (mkCacheItem cfg r d now)
        omega
  | del s k _ ih =>
    exact ⟨nodupKeys_sublist (eraseKey_sublist _ _) ih.1,
      le_trans (eraseKey_sublist s.entries k).length_le ih.2⟩
  | clear s _ =>
    exact ⟨List.nodup_nil, Nat.zero_le _⟩
  | cleanup s now _ ih =>
    exact ⟨nodupKeys_sublist (List.filter_sublist _) ih.1,
      le_trans (List.filter_sublist s.entries).length_le ih.2⟩
  | evictLeast s n _ ih =>
    exact ⟨nodupKeys_sublist (evictLeast_sublist n s.entries) ih.1,
      le_trans (evictLeast_sublist n s.entries).length_le ih.2⟩
  | evictOldest s n _ ih =>
    exact ⟨nodupKeys_sublist (evictOldest_sublist n s.entries) ih.1,
      le_trans (evictOldest_sublist n s.entries).length_le ih.2⟩
  | refresh s k d now _ ih =>
    refine ⟨?_, ?_⟩
    · unfold NodupKeys
      rw [cacheRefresh_map_fst]
      exact ih.1
    · unfold cacheRefresh
      rw [List.length_map]
      exact ih.2

/-- C9 (amended): for any configured `maxSize ≥ 1`, every state the cache can
reach keeps at most `maxSize` entries; and a `set` arriving while the size is
at or above `maxSize` first evicts the batch of the `min(10, size)`
oldest-by-creation-timestamp entries (the whole cache when it holds at most
ten) before inserting the new entry — so the batch has ten entries only when
the cache held more than ten. -/
theorem cache_bounded_batched_eviction (cfg : CacheConfig)
    (hmax : 1 ≤ cfg.maxSize) :
    (∀ s, CacheReach cfg s → s.entries.length ≤ cfg.maxSize) ∧
    (∀ (s : CacheState) (k : String) (r : PlatformDetectionResult)
        (d : Option Nat) (now : Nat),
      cfg.enabled = true → NodupKeys s.entries →
      cfg.maxSize ≤ s.entries.length →
      (cacheSet cfg s k r d now).entries =
        insertEntry (evictOldestItems 10 s.entries) k (mkCacheItem cfg r d now) ∧
      (evictOldestItems 10 s.entries).length =
        s.entries.length - min 10 s.entries.length ∧
      ∀ p ∈ s.entries, p ∉ evictOldestItems 10 s.entries →
        ∀ q ∈ evictOldestItems 10 s.entries, p.2.timestamp ≤ q.2.timestamp) := by
  constructor
  · intro s h
    exact (cacheReach_invariant cfg hmax s h).2
  · intro s k r d now hen hnd hge
    refine ⟨?_, evictOldest_length 10 s.entries hnd, evictOldest_oldest 10 s.entries hnd⟩
    unfold cacheSet
    rw [if_neg (by simp [hen]), if_pos hge]

/-- A minimal concrete detection result for cache scenarios. -/
def sampleResult : PlatformDetectionResult :=
  { platform := .generic, contentType := .generic, confidence := 0 }

/-- The empty cache state (fresh construction). -/
def emptyCache : CacheState := { entries := [], hits := 0, misses := 0 }

/-- A small enabled configuration with `maxSize = 1`. -/
def cacheCfgSmall : CacheConfig := { enabled := true, duration := 100, maxSize := 1 }

/-- A one-entry state at the small configuration's size bound. -/
def oneEntryState : CacheState :=
  { entries := [("k", { result := sampleResult, timestamp := 0, expiresAt := 100,
                        accessCount := 0 })]
  , hits := 0, misses := 0 }

/-- Witness for C9's amended statement at concrete inputs: a reachable state
respects the bound, and a `set` at the bound evicts before inserting with the
stated batch size. -/
theorem cache_bounded_witness :
    (cacheSet cacheCfgSmall emptyCache "k" sampleResult none 0).entries.length ≤
      cacheCfgSmall.maxSize ∧
    (cacheSet cacheCfgSmall oneEntryState "k2" sampleResult none 5).entries =
      insertEntry (evictOldestItems 10 oneEntryState.entries) "k2"
        (mkCacheItem cacheCfgSmall sampleResult none 5) ∧
    (evictOldestItems 10 oneEntryState.entries).length =
      oneEntryState.entries.length - min 10 oneEntryState.entries.length :=
  ⟨(cache_bounded_batched_eviction cacheCfgSmall (by decide)).1 _
      (CacheReach.set emptyCache "k" sampleResult none 0 CacheReach.init),
   ((cache_bounded_batched_eviction cacheCfgSmall (by decide)).2 oneEntryState
      "k2" sampleResult none 5 rfl (by decide) (by decide)).1,
   ((cache_bounded_batched_eviction cacheCfgSmall (by decide)).2 oneEntryState
      "k2" sampleResult none 5 rfl (by decide) (by decide)).2.1⟩

/-- A configuration with `maxSize = 5` and a state holding five entries. -/
def evictCfg : CacheConfig := { enabled := true, duration := 100, maxSize := 5 }

/-- A cache item created at time `t`. -/
def mkIt (t : Nat) : CacheItem :=
  { result := sampleResult, timestamp := t, expiresAt := t + 100, accessCount := 0 }

/-- Five entries with creation times 0..4. -/
def fiveState : CacheState :=
  { entries := [("k1", mkIt 0), ("k2", mkIt 1), ("k3", mkIt 2), ("k4", mkIt 3),
                ("k5", mkIt 4)]
  , hits := 0, misses := 0 }

/-- Counterexample to C9 as stated: with `maxSize = 5` and the cache full, the
`set` that triggers eviction removes all five entries (the batch is
`min(10, size) = 5` entries, not 10), leaving exactly the new entry. -/
theorem evict_batch_not_ten :
    evictCfg.maxSize ≤ fiveState.entries.length ∧
    fiveState.entries.length -
      (evictOldestItems 10 fiveState.entries).length = 5 ∧
    (5 : ℕ) ≠ 10 ∧
    (cacheSet evictCfg fiveState "k6" sampleResult none 10).entries.length = 1 := by
  refine ⟨by decide, rfl, by decide, rfl⟩

/-- C3 (amended): on an enabled cache, after `set(k, r, d)` with a positive
per-call TTL `d` at time `now`, a `get(k)` at any `t' ≤ now + d` returns a
value equal to `r`, and a `get(k)` at any `t' > now + d` returns absent —
`get` yields an `Option`, never an error.  (A TTL of zero falls back to the
configured default duration; see the counterexample.) -/
theorem cache_roundtrip (cfg : CacheConfig) (s : CacheState) (k : String)
    (r : PlatformDetectionResult) (d now t' : Nat)
    (hen : cfg.enabled = true) (hd : 0 < d) :
    (t' ≤ now + d →
      (cacheGet cfg (cacheSet cfg s k r (some d) now) k t').1 = some r) ∧
    (now + d < t' →
      (cacheGet cfg (cacheSet cfg s k r (some d) now) k t').1 = none) := by
  have hentry : lookupEntry (cacheSet cfg s k r (some d) now).entries k =
      some (mkCacheItem cfg r (some d) now) := by
    unfold cacheSet
    rw [if_neg (by simp [hen])]
    exact lookupEntry_insertEntry _ _ _
  have hexp : (mkCacheItem cfg r (some d) now).expiresAt = now + d := by
    unfold mkCacheItem
    dsimp only
    rw [if_neg (show ¬ d = 0 by omega)]
  constructor
  · intro ht
    unfold cacheGet
    rw [if_neg (by simp [hen]), hentry]
    dsimp only
    rw [if_neg (by rw [hexp]; omega)]
    rfl
  · intro ht
    unfold cacheGet
    rw [if_neg (by simp [hen]), hentry]
    dsimp only
    rw [if_pos (by rw [hexp]; omega)]

/-- The service's default cache configuration (enabled, five-minute TTL,
maximum 1000 entries). -/
def rtCfg : CacheConfig := { enabled := true, duration := 300000, maxSize := 1000 }

/-- Witness for C3's amended statement: a ten-millisecond TTL entry is present
at time 5 and absent at time 11. -/
theorem cache_roundtrip_witness :
    (cacheGet rtCfg (cacheSet rtCfg emptyCache "u" sampleResult (some 10) 0)
        "u" 5).1 = some sampleResult ∧
    (cacheGet rtCfg (cacheSet rtCfg emptyCache "u" sampleResult (some 10) 0)
        "u" 11).1 = none :=
  ⟨(cache_roundtrip rtCfg emptyCache "u" sampleResult 10 0 5 rfl (by omega)).1
      (by omega),
   (cache_roundtrip rtCfg emptyCache "u" sampleResult 10 0 11 rfl (by omega)).2
      (by omega)⟩

/-- Counterexample to C3 as stated: with TTL `d = 0`, the time `1` lies after
`d` has elapsed (`0 + 0 < 1`), yet `get` still returns the value — the
`duration || config.duration` fallback replaced the zero TTL with the
configured 300000 ms. -/
theorem cache_zero_ttl_not_expired :
    (0 : ℕ) + 0 < 1 ∧
    (cacheGet rtCfg (cacheSet rtCfg emptyCache "k" sampleResult (some 0) 0)
        "k" 1).1 = some sampleResult := by
  exact ⟨by omega, rfl⟩

/-! ## URL normalizer (`PlatformDetectorService.normalizeUrl`)

The method parses `new URL(url)`, clears the fragment, lower-cases scheme and
host, deletes the tracking query parameters through `URLSearchParams`, and
re-serializes; parse failure falls back to `url.trim()`.  The idempotence
claim is settled over an abstract canonicalizer oracle capturing exactly this
`try`/`catch`-plus-trim structure (`normalizeUrlO`), with the
canonical-fixed-point property of the environment URL implementation —
canonical outputs re-canonicalize to themselves — as a hypothesis.  That
hypothesis is discharged by an executable model of the WHATWG fragment
(`canonModel`): hierarchical `scheme://host[:port][/path][?query][#fragment]`
URLs with leading/trailing C0-control-or-space stripping, removal of interior
tabs and newlines, scheme validation and lower-casing, printable-ASCII hosts
outside the forbidden-domain code points (lower-cased; anything else —
userinfo, IPv6 brackets, non-ASCII hosts that the real parser routes through
IDNA — is outside the fragment and treated as a parse failure), default-port
dropping, the default `/` path for special schemes, percent-encoding of
controls and spaces in the path, and fragment dropping.  `URLSearchParams` is
modelled by splitting on `&` and the first `=`, with `+`/space form decoding;
percent-sequences are carried verbatim (they are fixed points of one
decode/encode round, which is all idempotence observes). -/

/-- A C0 control or space (the code points the URL parser strips from the
edges of its input). -/
def isC0OrSpace (c : Char) : Bool := c.toNat ≤ 0x20

/-- ASCII tab, LF or CR (removed everywhere in the input by the URL parser). -/
def isTabOrNewline (c : Char) : Bool :=
  c.toNat = 0x9 || c.toNat = 0xA || c.toNat = 0xD

/-- Strip leading and trailing C0-or-space characters. -/
def stripEdges (l : List Char) : List Char :=
  (((l.dropWhile isC0OrSpace).reverse).dropWhile isC0OrSpace).reverse

/-- The URL parser's input preprocessing. -/
def preprocessUrl (l : List Char) : List Char :=
  (stripEdges l).filter (fun c => !isTabOrNewline c)

/-- ASCII letter. -/
def isAsciiAlpha (c : Char) : Bool :=
  (97 ≤ c.toNat && c.toNat ≤ 122) || (65 ≤ c.toNat && c.toNat ≤ 90)

/-- ASCII digit. -/
def isAsciiDigit (c : Char) : Bool := 48 ≤ c.toNat && c.toNat ≤ 57

/-- A character allowed after the first position of a scheme. -/
def isSchemeChar (c : Char) : Bool :=
  isAsciiAlpha c || isAsciiDigit c || c == '+' || c == '-' || c == '.'

/-- A valid scheme: a letter followed by letters, digits, `+`, `-`, `.`. -/
def validScheme : List Char → Bool
  | [] => false
  | c :: cs => isAsciiAlpha c && cs.all isSchemeChar

/-- The WHATWG special schemes (the ones that receive a default `/` path). -/
def isSpecialScheme (sch : List Char) : Bool :=
  sch == "http".data || sch == "https".data || sch == "ws".data ||
  sch == "wss".data || sch == "ftp".data || sch == "file".data

/-- Default ports of the special schemes. -/
def defaultPort (sch : List Char) : Option Nat :=
  if sch == "http".data || sch == "ws".data then some 80
  else if sch == "https".data || sch == "wss".data then some 443
  else if sch == "ftp".data then some 21
  else none

/-- The decimal digit character of `n < 10`. -/
def digitChar (n : Nat) : Char := Char.ofNat (48 + n)

/-- Decimal digits of a natural number (most significant first). -/
def natDigits (n : Nat) : List Char :=
  if h : n < 10 then [digitChar n]
  else
    have : n / 10 < n := Nat.div_lt_self (by omega) (by omega)
    natDigits (n / 10) ++ [digitChar (n % 10)]
termination_by n

/-- The numeric value of a decimal digit string. -/
def natOfDigits (ds : List Char) : Nat :=
  ds.foldl (fun a c => a * 10 + (c.toNat - 48)) 0

/-- Upper-case hexadecimal digit of `n < 16`. -/
def hexDigit (n : Nat) : Char :=
  if n < 10 then Char.ofNat (48 + n) else Char.ofNat (55 + n)

/-- Percent-encoding of one path character: the parser encodes controls and
space (the modelled portion of the path percent-encode set). -/
def pathEncodeChar (c : Char) : List Char :=
  if c.toNat ≤ 0x20 then ['%', hexDigit (c.toNat / 16), hexDigit (c.toNat % 16)]
  else [c]

/-- Percent-encoding of a path. -/
def pathEncode (l : List Char) : List Char := l.flatMap pathEncodeChar

/-- A parsed URL record (fragment already discarded — `normalizeUrl` clears
it). -/
structure UrlRec where
  scheme : List Char
  host : List Char
  port : Option Nat
  path : List Char
  query : Option (List Char)
deriving DecidableEq, Repr

/-- Parse the portion after the host up to `/`, `?` or `#`: empty, or a colon
followed by an all-digit port (empty port meaning none; anything else is a
parse failure). -/
def parsePort : List Char → Option (Option Nat)
  | [] => some none
  | ':' :: ds =>
    if ds.isEmpty then some none
    else if ds.all isAsciiDigit then some (some (natOfDigits ds)) else none
  | _ => none

/-- Drop a scheme's default port. -/
def dropDefaultPort (sch : List Char) : Option Nat → Option Nat
  | some n => if defaultPort sch = some n then none else some n
  | none => none

/-- Authority terminator. -/
def notAuthEnd (c : Char) : Bool := !(c == '/' || c == '?' || c == '#')

/-- Path terminator. -/
def notPQEnd (c : Char) : Bool := !(c == '?' || c == '#')

/-- A host character the modelled parser accepts: printable ASCII outside the
WHATWG forbidden-domain code points (`#`, `%`, `/`, `:`, `<`, `>`, `?`, `@`,
`[`, `\`, `]`, `^`, `|`; controls, space and DEL are excluded by the range).
Every such character is kept verbatim by the real host parser, up to ASCII
lower-casing; anything else (including every non-ASCII code point, which the
real parser routes through IDNA) is outside the modelled fragment and treated
as a parse failure. -/
def hostOkChar (c : Char) : Bool :=
  decide (0x20 < c.toNat) && decide (c.toNat < 0x7F) &&
  c != '#' && c != '%' && c != '/' && c != ':' && c != '<' && c != '>' &&
  c != '?' && c != '@' && c != '[' && c != '\\' && c != ']' && c != '^' && c != '|'

/-- `new URL(s)` on the modelled fragment: `none` is a thrown `TypeError`. -/
def parseUrl (s : String) : Option UrlRec :=
  let l := preprocessUrl s.data
  let sch := l.takeWhile (fun c => c != ':')
  if validScheme sch then
    match l.dropWhile (fun c => c != ':') with
    | ':' :: '/' :: '/' :: r2 =>
      let auth := r2.takeWhile notAuthEnd
      let r3 := r2.dropWhile notAuthEnd
      let host := auth.takeWhile (fun c => c != ':')
      if host.isEmpty || host.any (fun c => !hostOkChar c) then none
      else
        match parsePort (auth.dropWhile (fun c => c != ':')) with
        | none => none
        | some p =>
          let scheme := lowerList sch
          let rawPath := r3.takeWhile notPQEnd
          some
            { scheme := scheme
            , host := lowerList host
            , port := dropDefaultPort scheme p
            , path :=
                if rawPath.isEmpty then
                  (if isSpecialScheme scheme then ['/'] else [])
                else pathEncode rawPath
            , query :=
                match r3.dropWhile notPQEnd with
                | '?' :: q => some (q.takeWhile (fun c => c != '#'))
                | _ => none }
    | _ => none
  else none

/-- `url.toString()` on the modelled fragment (no fragment — `normalizeUrl`
cleared it). -/
def serializeUrl (r : UrlRec) : List Char :=
  r.scheme ++ ':' :: '/' :: '/' :: r.host ++
  (match r.port with
   | none => []
   | some n => ':' :: natDigits n) ++
  r.path ++
  (match r.query with
   | none => []
   | some q => '?' :: q)

/-- Split on every occurrence of a separator (no segment dropped). -/
def splitSep (sep : Char) : List Char → List (List Char)
  | [] => [[]]
  | c :: cs =>
    if c == sep then [] :: splitSep sep cs
    else
      match splitSep sep cs with
      | [] => [[c]]
      | seg :: rest => (c :: seg) :: rest

/-- Join with a separator. -/
def joinSep (sep : Char) : List (List Char) → List Char
  | [] => []
  | [x] => x
  | x :: xs => x ++ sep :: joinSep sep xs

/-- Split at the first `=`, if any. -/
def splitFirstEq : List Char → List Char × Option (List Char)
  | [] => ([], none)
  | c :: cs =>
    if c == '=' then ([], some cs)
    else
      let r := splitFirstEq cs
      (c :: r.1, r.2)

/-- `application/x-www-form-urlencoded` decoding of one character (the
modelled portion: `+` means space; percent sequences are carried verbatim). -/
def formDecodeChar (c : Char) : Char := if c == '+' then ' ' else c

/-- Form decoding of a component. -/
def formDecode (l : List Char) : List Char := l.map formDecodeChar

/-- Form encoding of one character: space becomes `+`, controls become percent
sequences, everything else is carried verbatim. -/
def formEncodeChar (c : Char) : List Char :=
  if c == ' ' then ['+']
  else if c.toNat ≤ 0x1F then ['%', hexDigit (c.toNat / 16), hexDigit (c.toNat % 16)]
  else [c]

/-- Form encoding of a component. -/
def formEncode (l : List Char) : List Char := l.flatMap formEncodeChar

/-- `new URLSearchParams(search)`: split on `&`, drop empty segments, split
each at its first `=`, decode both sides. -/
def parsePairs (q : List Char) : List (List Char × List Char) :=
  ((splitSep '&' q).filter (fun seg => !seg.isEmpty)).map (fun seg =>
    match splitFirstEq seg with
    | (k, some v) => (formDecode k, formDecode v)
    | (k, none) => (formDecode k, []))

/-- `URLSearchParams.prototype.toString`. -/
def serializePairs (ps : List (List Char × List Char)) : List Char :=
  joinSep '&' (ps.map (fun p => formEncode p.1 ++ '=' :: formEncode p.2))

/-- The tracking parameters `normalizeUrl` deletes. -/
def trackingParams : List (List Char) :=
  ["utm_source".data, "utm_medium".data, "utm_campaign".data, "utm_term".data,
   "utm_content".data, "fbclid".data, "gclid".data]

/-- Is a decoded key one of the tracking parameters? -/
def isTracking (k : List Char) : Bool := trackingParams.any (fun t => t == k)

/-- The query rewrite of `normalizeUrl`: parse, delete tracking parameters,
re-serialize; an empty serialization clears the query (the empty-string
`search` setter nulls the query). -/
def normQuery (q : Option (List Char)) : Option (List Char) :=
  let q' := serializePairs ((parsePairs (q.getD [])).filter (fun p => !isTracking p.1))
  if q'.isEmpty then none else some q'

/-- The record-level normalization `normalizeUrl` performs on a parsed URL:
clear the fragment (already absent from the record), lower-case scheme and
host (the parser already lower-cased them; the assignment re-applies the
fold), rewrite the query. -/
def normRec (r : UrlRec) : UrlRec :=
  { scheme := lowerList r.scheme
  , host := lowerList r.host
  , port := r.port
  , path := r.path
  , query := normQuery r.query }

/-- `PlatformDetectorService.normalizeUrl`: canonicalize on parse success,
fall back to `url.trim()` on parse failure. -/
def normalizeUrl (s : String) : String :=
  match parseUrl s with
  | some r => String.mk (serializeUrl (normRec r))
  | none => jsTrimS s

/-! ### Character-level facts used by the URL development -/

/-- Characters with equal code points are equal. -/
theorem char_toNat_inj {c d : Char} (h : c.toNat = d.toNat) : c = d :=
  Char.ext (UInt32.ext h)

/-- `Char.ofNat` below the surrogate range keeps the code point. -/
theorem char_toNat_ofNat {n : Nat} (h : n < 55296) : (Char.ofNat n).toNat = n := by
  have hv : Nat.isValidChar n := Or.inl h
  simp only [Char.ofNat, hv, dite_true, Char.toNat, Char.ofNatAux]
  rfl

/-- Code point of `asciiLower`. -/
theorem asciiLower_toNat (c : Char) :
    (asciiLower c).toNat =
      if 65 ≤ c.toNat ∧ c.toNat ≤ 90 then c.toNat + 32 else c.toNat := by
  unfold asciiLower
  by_cases h : 65 ≤ c.toNat ∧ c.toNat ≤ 90
  · rw [if_pos h, if_pos h]; exact char_toNat_ofNat (by omega)
  · rw [if_neg h, if_neg h]

/-- `asciiLower` either keeps the code point (non-upper-case input) or adds 32
to an upper-case letter. -/
theorem asciiLower_cases (c : Char) :
    (asciiLower c).toNat = c.toNat ∧ ¬(65 ≤ c.toNat ∧ c.toNat ≤ 90) ∨
    (asciiLower c).toNat = c.toNat + 32 ∧ 65 ≤ c.toNat ∧ c.toNat ≤ 90 := by
  by_cases h : 65 ≤ c.toNat ∧ c.toNat ≤ 90
  · right; exact ⟨by rw [asciiLower_toNat, if_pos h], h⟩
  · left; exact ⟨by rw [asciiLower_toNat, if_neg h], h⟩

/-- Lower-casing is idempotent on characters. -/
theorem asciiLower_idem (c : Char) : asciiLower (asciiLower c) = asciiLower c := by
  apply char_toNat_inj
  rcases asciiLower_cases c with ⟨h1, h2⟩ | ⟨h1, h2⟩
  · rw [asciiLower_toNat, h1, if_neg h2]
  · rw [asciiLower_toNat, h1, if_neg (by omega)]

/-- Lower-casing is idempotent on lists. -/
theorem lowerList_idem (l : List Char) : lowerList (lowerList l) = lowerList l := by
  induction l with
  | nil => rfl
  | cons a t ih =>
    simp only [lowerList, List.map_cons] at ih ⊢
    rw [asciiLower_idem, ih]

/-- Characters with distinct code points are distinct. -/
theorem char_ne_of_toNat_ne {c d : Char} (h : c.toNat ≠ d.toNat) : c ≠ d :=
  fun he => h (congrArg Char.toNat he)

/-- `==` is false on characters with distinct code points. -/
theorem char_beq_false_of_toNat_ne {c d : Char} (h : c.toNat ≠ d.toNat) :
    (c == d) = false :=
  beq_eq_false_iff_ne.mpr (char_ne_of_toNat_ne h)

/-- `!=` is true on characters with distinct code points. -/
theorem char_bne_true_of_toNat_ne {c d : Char} (h : c.toNat ≠ d.toNat) :
    (c != d) = true :=
  bne_iff_ne.mpr (char_ne_of_toNat_ne h)

/-- A true `!=` separates the code points. -/
theorem char_toNat_ne_of_bne {c d : Char} (h : (c != d) = true) :
    c.toNat ≠ d.toNat :=
  fun hn => (bne_iff_ne.mp h) (char_toNat_inj hn)

/-- A true `==` identifies the code points. -/
theorem char_toNat_eq_of_beq {c d : Char} (h : (c == d) = true) :
    c.toNat = d.toNat :=
  congrArg Char.toNat (eq_of_beq h)

/-- Code point of a decimal digit character. -/
theorem digitChar_toNat {n : Nat} (h : n < 10) : (digitChar n).toNat = 48 + n :=
  char_toNat_ofNat (by omega)

/-- Code point of a hexadecimal digit character. -/
theorem hexDigit_toNat {n : Nat} (h : n < 16) :
    (hexDigit n).toNat = if n < 10 then 48 + n else 55 + n := by
  unfold hexDigit
  by_cases h10 : n < 10
  · rw [if_pos h10, if_pos h10]; exact char_toNat_ofNat (by omega)
  · rw [if_neg h10, if_neg h10]; exact char_toNat_ofNat (by omega)

/-! ### `takeWhile` / `dropWhile` facts -/

/-- `takeWhile` passes over a fully satisfying block. -/
theorem takeWhile_append_all {p : Char → Bool} {xs : List Char} (ys : List Char)
    (h : xs.all p = true) : (xs ++ ys).takeWhile p = xs ++ ys.takeWhile p := by
  induction xs with
  | nil => rfl
  | cons a t ih =>
    rw [List.all_cons, Bool.and_eq_true] at h
    simp [List.takeWhile_cons, h.1, ih h.2]

/-- `dropWhile` consumes a fully satisfying block. -/
theorem dropWhile_append_all {p : Char → Bool} {xs : List Char} (ys : List Char)
    (h : xs.all p = true) : (xs ++ ys).dropWhile p = ys.dropWhile p := by
  induction xs with
  | nil => rfl
  | cons a t ih =>
    rw [List.all_cons, Bool.and_eq_true] at h
    simp [List.dropWhile_cons, h.1, ih h.2]

/-- `takeWhile` stops at a failing head. -/
theorem takeWhile_cons_of_neg {p : Char → Bool} {c : Char} (ys : List Char)
    (h : p c = false) : (c :: ys).takeWhile p = [] := by
  simp [List.takeWhile_cons, h]

/-- `dropWhile` stops at a failing head. -/
theorem dropWhile_cons_of_neg {p : Char → Bool} {c : Char} (ys : List Char)
    (h : p c = false) : (c :: ys).dropWhile p = c :: ys := by
  simp [List.dropWhile_cons, h]

/-- `takeWhile` over a satisfying block terminated by a failing character. -/
theorem takeWhile_append_cons {p : Char → Bool} {xs : List Char} {c : Char}
    (ys : List Char) (h1 : xs.all p = true) (h2 : p c = false) :
    (xs ++ c :: ys).takeWhile p = xs := by
  rw [takeWhile_append_all _ h1, takeWhile_cons_of_neg _ h2, List.append_nil]

/-- `dropWhile` over a satisfying block terminated by a failing character. -/
theorem dropWhile_append_cons {p : Char → Bool} {xs : List Char} {c : Char}
    (ys : List Char) (h1 : xs.all p = true) (h2 : p c = false) :
    (xs ++ c :: ys).dropWhile p = c :: ys := by
  rw [dropWhile_append_all _ h1, dropWhile_cons_of_neg _ h2]

/-- `takeWhile` keeps a fully satisfying list. -/
theorem takeWhile_eq_self_of_all {p : Char → Bool} {l : List Char}
    (h : l.all p = true) : l.takeWhile p = l := by
  simpa using takeWhile_append_all (p := p) [] h

/-- `dropWhile` erases a fully satisfying list. -/
theorem dropWhile_eq_nil_of_all {p : Char → Bool} {l : List Char}
    (h : l.all p = true) : l.dropWhile p = [] := by
  simpa using dropWhile_append_all (p := p) [] h

/-- `dropWhile` keeps a list whose head fails the predicate. -/
theorem dropWhile_eq_self_of_head {p : Char → Bool} {l : List Char}
    (h : ∀ c, l.head? = some c → p c = false) : l.dropWhile p = l := by
  cases l with
  | nil => rfl
  | cons a t => simp [List.dropWhile_cons, h a rfl]

/-- The head of a `takeWhile` is the head of the list and satisfies the
predicate. -/
theorem head?_takeWhile {p : Char → Bool} {l : List Char} {c : Char}
    (h : (l.takeWhile p).head? = some c) : l.head? = some c ∧ p c = true := by
  cases l with
  | nil => simp at h
  | cons a t =>
    rw [List.takeWhile_cons] at h
    by_cases hpa : p a = true
    · rw [if_pos hpa] at h
      simp only [List.head?_cons, Option.some.injEq] at h
      subst h; exact ⟨rfl, hpa⟩
    · rw [if_neg hpa] at h; exact absurd h (by simp)

/-- The head of a `dropWhile` fails the predicate. -/
theorem head?_dropWhile {p : Char → Bool} {l : List Char} {c : Char}
    (h : (l.dropWhile p).head? = some c) : p c = false := by
  induction l with
  | nil => simp at h
  | cons a t ih =>
    rw [List.dropWhile_cons] at h
    by_cases hpa : p a = true
    · rw [if_pos hpa] at h; exact ih h
    · rw [if_neg hpa] at h
      simp only [List.head?_cons, Option.some.injEq] at h
      subst h; simpa using hpa

/-- A nonempty `dropWhile` keeps the last element. -/
theorem getLast?_dropWhile {p : Char → Bool} {l : List Char}
    (h : l.dropWhile p ≠ []) : (l.dropWhile p).getLast? = l.getLast? := by
  induction l with
  | nil => simp at h
  | cons a t ih =>
    rw [List.dropWhile_cons] at h ⊢
    by_cases hpa : p a = true
    · rw [if_pos hpa] at h ⊢
      rw [ih h]
      have ht : t ≠ [] := by
        intro he; rw [he] at h; simp at h
      cases t with
      | nil => exact absurd rfl ht
      | cons b u => rw [List.getLast?_cons_cons]
    · rw [if_neg hpa]

/-- `dropWhile` is idempotent. -/
theorem dropWhile_dropWhile {p : Char → Bool} (l : List Char) :
    (l.dropWhile p).dropWhile p = l.dropWhile p := by
  apply dropWhile_eq_self_of_head
  intro c hc
  exact head?_dropWhile hc

/-- The trim shape (drop from the front, reverse, drop, reverse) is
idempotent. -/
theorem trim_shape_idem (p : Char → Bool) (l : List Char) :
    (((((((l.dropWhile p).reverse.dropWhile p).reverse).dropWhile p).reverse).dropWhile p).reverse)
      = ((l.dropWhile p).reverse.dropWhile p).reverse := by
  set d1 := l.dropWhile p with hd1
  set d2 := d1.reverse.dropWhile p with hd2
  have hm : d2.reverse.dropWhile p = d2.reverse := by
    apply dropWhile_eq_self_of_head
    intro c hc
    rw [List.head?_reverse] at hc
    by_cases hne : d2 = []
    · rw [hne] at hc; simp at hc
    · rw [hd2] at hc
      rw [getLast?_dropWhile (by rw [← hd2]; exact hne)] at hc
      rw [List.getLast?_reverse] at hc
      exact head?_dropWhile (p := p) (l := l) (by rw [← hd1]; exact hc)
  rw [hm, List.reverse_reverse, hd2, dropWhile_dropWhile]

/-- `url.trim()` is idempotent (list level). -/
theorem jsTrimList_idem (l : List Char) : jsTrimList (jsTrimList l) = jsTrimList l := by
  unfold jsTrimList
  exact trim_shape_idem _ l

/-- `url.trim()` is idempotent. -/
theorem jsTrimS_idem (s : String) : jsTrimS (jsTrimS s) = jsTrimS s := by
  unfold jsTrimS
  exact congrArg String.mk (jsTrimList_idem s.data)

/-- `dropWhile` keeps a list on which the predicate is everywhere false. -/
theorem dropWhile_eq_self_of_all_not {p : Char → Bool} {l : List Char}
    (h : l.all (fun c => !p c) = true) : l.dropWhile p = l := by
  apply dropWhile_eq_self_of_head
  intro c hc
  cases l with
  | nil => simp at hc
  | cons a t =>
    rw [List.all_cons, Bool.and_eq_true] at h
    simp only [List.head?_cons, Option.some.injEq] at hc
    subst hc
    simpa using h.1

/-- Edge stripping keeps a list free of C0 controls and spaces. -/
theorem stripEdges_eq_self {l : List Char}
    (h : l.all (fun c => !isC0OrSpace c) = true) : stripEdges l = l := by
  unfold stripEdges
  rw [dropWhile_eq_self_of_all_not h,
      dropWhile_eq_self_of_all_not (by rw [List.all_reverse]; exact h),
      List.reverse_reverse]

/-- Preprocessing keeps a list whose characters all lie above `0x20`. -/
theorem preprocessUrl_eq_self {l : List Char}
    (h : l.all (fun c => 0x20 < c.toNat) = true) : preprocessUrl l = l := by
  have hmem := List.all_eq_true.mp h
  unfold preprocessUrl
  rw [stripEdges_eq_self]
  · apply List.filter_eq_self.mpr
    intro c hc
    have := hmem c hc
    simp only [decide_eq_true_eq] at this
    simp only [isTabOrNewline, Bool.not_eq_true', Bool.or_eq_false_iff,
      decide_eq_false_iff_not]
    omega
  · rw [List.all_eq_true]
    intro c hc
    have := hmem c hc
    simp only [decide_eq_true_eq] at this
    simp only [isC0OrSpace, Bool.not_eq_true', decide_eq_false_iff_not]
    omega

/-! ### Decimal digit strings -/

/-- `natDigits` is never empty. -/
theorem natDigits_ne_nil (n : Nat) : natDigits n ≠ [] := by
  unfold natDigits
  split <;> simp

/-- `natDigits` produces only ASCII digits. -/
theorem natDigits_all_digit (n : Nat) : (natDigits n).all isAsciiDigit = true := by
  induction n using Nat.strong_induction_on with
  | _ n ih =>
    unfold natDigits
    split
    · next h =>
      simp only [List.all_cons, List.all_nil, Bool.and_true]
      simp only [isAsciiDigit, digitChar_toNat h, Bool.and_eq_true, decide_eq_true_eq]
      omega
    · next h =>
      rw [List.all_append, ih (n / 10) (Nat.div_lt_self (by omega) (by omega))]
      have hm : n % 10 < 10 := Nat.mod_lt _ (by omega)
      simp only [Bool.true_and, List.all_cons, List.all_nil, Bool.and_true]
      simp only [isAsciiDigit, digitChar_toNat hm, Bool.and_eq_true, decide_eq_true_eq]
      omega

/-- Folding the decimal accumulator over `natDigits n` from `a` gives
`a * 10 ^ length + n`. -/
theorem natDigits_foldl (n : Nat) : ∀ a : Nat,
    (natDigits n).foldl (fun x c => x * 10 + (c.toNat - 48)) a
      = a * 10 ^ (natDigits n).length + n := by
  induction n using Nat.strong_induction_on with
  | _ n ih =>
    intro a
    unfold natDigits
    split
    · next h =>
      simp only [List.foldl_cons, List.foldl_nil, List.length_cons, List.length_nil,
        digitChar_toNat h, pow_succ, pow_zero, one_mul, Nat.zero_add]
      omega
    · next h =>
      rw [List.foldl_append, ih (n / 10) (Nat.div_lt_self (by omega) (by omega)) a]
      have hm : n % 10 < 10 := Nat.mod_lt _ (by omega)
      simp only [List.foldl_cons, List.foldl_nil, List.length_append, List.length_cons,
        List.length_nil, digitChar_toNat hm, Nat.zero_add, pow_succ]
      rw [← Nat.mul_assoc]
      omega

/-- Decimal digits round-trip through their numeric value. -/
theorem natOfDigits_natDigits (n : Nat) : natOfDigits (natDigits n) = n := by
  unfold natOfDigits
  rw [natDigits_foldl n 0]
  simp

/-! ### Separator splitting and joining -/

/-- `splitSep` of a separator-free list is that single segment. -/
theorem splitSep_all_ne {sep : Char} {l : List Char}
    (h : l.all (fun c => c != sep) = true) : splitSep sep l = [l] := by
  induction l with
  | nil => rfl
  | cons a t ih =>
    rw [List.all_cons, Bool.and_eq_true] at h
    have ha : (a == sep) = false := beq_eq_false_iff_ne.mpr (bne_iff_ne.mp h.1)
    simp [splitSep, ha, ih h.2]

/-- `splitSep` peels a separator-free first segment. -/
theorem splitSep_append {sep : Char} {x : List Char} (t : List Char)
    (h : x.all (fun c => c != sep) = true) :
    splitSep sep (x ++ sep :: t) = x :: splitSep sep t := by
  induction x with
  | nil => simp [splitSep]
  | cons a u ih =>
    rw [List.all_cons, Bool.and_eq_true] at h
    have ha : (a == sep) = false := beq_eq_false_iff_ne.mpr (bne_iff_ne.mp h.1)
    simp only [List.cons_append]
    simp [splitSep, ha, ih h.2]

/-- `splitSep` is never empty. -/
theorem splitSep_ne_nil (sep : Char) (l : List Char) : splitSep sep l ≠ [] := by
  cases l with
  | nil => simp [splitSep]
  | cons a t =>
    unfold splitSep
    by_cases ha : (a == sep) = true
    · simp [ha]
    · have ha' : (a == sep) = false := by simpa using ha
      simp only [ha', Bool.false_eq_true, if_false]
      cases h : splitSep sep t <;> simp

/-- `splitSep` splits a join back into its separator-free segments. -/
theorem splitSep_joinSep {sep : Char} {segs : List (List Char)} (hne : segs ≠ [])
    (h : ∀ s ∈ segs, s.all (fun c => c != sep) = true) :
    splitSep sep (joinSep sep segs) = segs := by
  induction segs with
  | nil => exact absurd rfl hne
  | cons x xs ih =>
    cases xs with
    | nil =>
      simp only [joinSep]
      exact splitSep_all_ne (h x (by simp))
    | cons y ys =>
      simp only [joinSep]
      rw [splitSep_append _ (h x (by simp))]
      rw [ih (by simp) (fun s hs => h s (by simp [hs]))]

/-- Characters of a `splitSep` segment come from the input. -/
theorem mem_splitSep {sep : Char} {l : List Char} {seg : List Char} {c : Char}
    (hseg : seg ∈ splitSep sep l) (hc : c ∈ seg) : c ∈ l := by
  induction l generalizing seg with
  | nil =>
    simp [splitSep] at hseg
    subst hseg
    simp at hc
  | cons a t ih =>
    unfold splitSep at hseg
    by_cases ha : (a == sep) = true
    · simp [ha] at hseg
      rcases hseg with h | h
      · subst h; simp at hc
      · exact List.mem_cons_of_mem _ (ih h hc)
    · have ha' : (a == sep) = false := by simpa using ha
      simp only [ha', Bool.false_eq_true, if_false] at hseg
      cases hsp : splitSep sep t with
      | nil => exact absurd hsp (splitSep_ne_nil sep t)
      | cons s rest =>
        rw [hsp] at hseg
        simp at hseg
        rcases hseg with h | h
        · subst h
          rcases List.mem_cons.mp hc with h1 | h1
          · exact List.mem_cons.mpr (Or.inl (by first | exact h1 | exact h1.symm))
          · exact List.mem_cons_of_mem _
              (ih (by rw [hsp]; exact List.mem_cons_self _ _) h1)
        · exact List.mem_cons_of_mem _
            (ih (by rw [hsp]; exact List.mem_cons_of_mem _ h) hc)

/-- `splitSep` segments are separator-free. -/
theorem splitSep_seg_all {sep : Char} {l : List Char} {seg : List Char}
    (hseg : seg ∈ splitSep sep l) : seg.all (fun c => c != sep) = true := by
  induction l generalizing seg with
  | nil =>
    simp [splitSep] at hseg
    subst hseg
    rfl
  | cons a t ih =>
    unfold splitSep at hseg
    by_cases ha : (a == sep) = true
    · simp [ha] at hseg
      rcases hseg with h | h
      · subst h; rfl
      · exact ih h
    · have ha' : (a == sep) = false := by simpa using ha
      simp only [ha', Bool.false_eq_true, if_false] at hseg
      cases hsp : splitSep sep t with
      | nil => exact absurd hsp (splitSep_ne_nil sep t)
      | cons s rest =>
        rw [hsp] at hseg
        simp at hseg
        have hane : (a != sep) = true := by simp [bne, ha']
        rcases hseg with h | h
        · subst h
          rw [List.all_cons, hane, Bool.true_and]
          exact ih (by rw [hsp]; exact List.mem_cons_self _ _)
        · exact ih (by rw [hsp]; exact List.mem_cons_of_mem _ h)

/-- `splitFirstEq` inverts gluing with `=` when the key is `=`-free. -/
theorem splitFirstEq_append {k : List Char} (v : List Char)
    (h : k.all (fun c => c != '=') = true) :
    splitFirstEq (k ++ '=' :: v) = (k, some v) := by
  induction k with
  | nil => simp [splitFirstEq]
  | cons a t ih =>
    rw [List.all_cons, Bool.and_eq_true] at h
    have ha : (a == '=') = false := beq_eq_false_iff_ne.mpr (bne_iff_ne.mp h.1)
    simp [splitFirstEq, ha, ih h.2]

/-- The first component of `splitFirstEq` is `=`-free. -/
theorem splitFirstEq_fst_all {l : List Char} :
    (splitFirstEq l).1.all (fun c => c != '=') = true := by
  induction l with
  | nil => rfl
  | cons a t ih =>
    unfold splitFirstEq
    by_cases ha : (a == '=') = true
    · simp [ha]
    · have ha' : (a == '=') = false := by simpa using ha
      simp [ha', List.all_cons, bne]
      intro x hx
      exact bne_iff_ne.mp ((List.all_eq_true.mp ih) x hx)

/-- Characters of the first `splitFirstEq` component come from the input. -/
theorem mem_splitFirstEq_fst {l : List Char} {c : Char}
    (h : c ∈ (splitFirstEq l).1) : c ∈ l := by
  induction l with
  | nil => simp [splitFirstEq] at h
  | cons a t ih =>
    unfold splitFirstEq at h
    by_cases ha : (a == '=') = true
    · simp [ha] at h
    · have ha' : (a == '=') = false := by simpa using ha
      simp [ha'] at h
      rcases h with h | h
      · exact List.mem_cons.mpr (Or.inl (by first | exact h | exact h.symm))
      · exact List.mem_cons_of_mem _ (ih h)

/-- Characters of the second `splitFirstEq` component come from the input. -/
theorem mem_splitFirstEq_snd {l : List Char} {v : List Char} {c : Char}
    (hv : (splitFirstEq l).2 = some v) (h : c ∈ v) : c ∈ l := by
  induction l generalizing v with
  | nil => simp [splitFirstEq] at hv
  | cons a t ih =>
    unfold splitFirstEq at hv
    by_cases ha : (a == '=') = true
    · simp [ha] at hv
      subst hv
      exact List.mem_cons_of_mem _ h
    · have ha' : (a == '=') = false := by simpa using ha
      simp [ha'] at hv
      exact List.mem_cons_of_mem _ (ih hv h)

/-! ### Form encoding and decoding -/

/-- Every character of `formEncodeChar c` is `+`, `%`, a hexadecimal digit,
or `c` itself. -/
theorem mem_formEncodeChar {c x : Char} (h : x ∈ formEncodeChar c) :
    x.toNat = 43 ∨ x.toNat = 37 ∨ (∃ k, k < 16 ∧ x = hexDigit k) ∨ x = c := by
  unfold formEncodeChar at h
  by_cases h1 : (c == ' ') = true
  · rw [if_pos h1] at h
    simp at h
    subst h
    left; rfl
  · rw [if_neg h1] at h
    by_cases h2 : c.toNat ≤ 0x1F
    · rw [if_pos h2] at h
      simp at h
      rcases h with h | h | h
      · subst h; right; left; rfl
      · subst h; right; right; left; exact ⟨_, by omega, rfl⟩
      · subst h; right; right; left; exact ⟨_, by omega, rfl⟩
    · rw [if_neg h2] at h
      simp at h
      subst h
      right; right; right; rfl

/-- Form encoding preserves freedom from a character that is not `+`, `%`
or a hexadecimal digit. -/
theorem formEncode_all_bne {l : List Char} {d : Char}
    (hd : d.toNat ≠ 43 ∧ d.toNat ≠ 37 ∧ ¬(48 ≤ d.toNat ∧ d.toNat ≤ 57) ∧
      ¬(65 ≤ d.toNat ∧ d.toNat ≤ 70))
    (h : l.all (fun c => c != d) = true) :
    (formEncode l).all (fun c => c != d) = true := by
  rw [List.all_eq_true] at h ⊢
  intro x hx
  rw [formEncode, List.mem_flatMap] at hx
  obtain ⟨a, ha, hxa⟩ := hx
  rcases mem_formEncodeChar hxa with h1 | h1 | ⟨k, hk, h1⟩ | h1
  · exact char_bne_true_of_toNat_ne (by omega)
  · exact char_bne_true_of_toNat_ne (by omega)
  · subst h1
    have := hexDigit_toNat hk
    apply char_bne_true_of_toNat_ne
    rw [this]
    split <;> omega
  · subst h1; exact h _ ha

/-- Form decoding preserves freedom from a character other than space. -/
theorem formDecode_all_bne {l : List Char} {d : Char} (hd : d.toNat ≠ 32)
    (h : l.all (fun c => c != d) = true) :
    (formDecode l).all (fun c => c != d) = true := by
  rw [List.all_eq_true] at h ⊢
  intro x hx
  rw [formDecode, List.mem_map] at hx
  obtain ⟨a, ha, hxa⟩ := hx
  subst hxa
  unfold formDecodeChar
  by_cases hp : (a == '+') = true
  · rw [if_pos hp]
    exact char_bne_true_of_toNat_ne (fun he => hd he.symm)
  · rw [if_neg hp]; exact h a ha

/-- Decode-encode per character: a decode of an encoded block re-encodes to
the same block. -/
theorem ede_char (c : Char) :
    formEncode (formDecode (formEncodeChar c)) = formEncodeChar c := by
  unfold formEncodeChar
  by_cases h1 : (c == ' ') = true
  · rw [if_pos h1]; rfl
  · rw [if_neg h1]
    by_cases h2 : c.toNat ≤ 0x1F
    · rw [if_pos h2]
      have key : ∀ k, k < 16 →
          formDecodeChar (hexDigit k) = hexDigit k ∧
          formEncodeChar (hexDigit k) = [hexDigit k] := by
        intro k hk
        have ht := hexDigit_toNat hk
        constructor
        · unfold formDecodeChar
          rw [if_neg]
          intro hbeq
          have := char_toNat_eq_of_beq hbeq
          rw [ht] at this
          have h43 : ('+').toNat = 43 := rfl
          rw [h43] at this
          split at this <;> omega
        · unfold formEncodeChar
          rw [if_neg, if_neg]
          · rw [ht]; split <;> omega
          · intro hbeq
            have := char_toNat_eq_of_beq hbeq
            rw [ht] at this
            have h32 : (' ').toNat = 32 := rfl
            rw [h32] at this
            split at this <;> omega
      have kd := key (c.toNat / 16) (by omega)
      have km := key (c.toNat % 16) (by omega)
      simp only [formDecode, formEncode, List.map_cons, List.map_nil,
        List.flatMap_cons, List.flatMap_nil, kd.1, km.1, kd.2, km.2]
      rfl
    · rw [if_neg h2]
      simp only [formDecode, formEncode, List.map_cons, List.map_nil,
        List.flatMap_cons, List.flatMap_nil, List.append_nil]
      unfold formDecodeChar
      by_cases hp : (c == '+') = true
      · rw [if_pos hp]
        have hc : c = '+' := eq_of_beq hp
        subst hc
        rfl
      · rw [if_neg hp]
        unfold formEncodeChar
        rw [if_neg h1, if_neg h2]

/-- A decoded component re-encodes to the original encoding. -/
theorem ede (l : List Char) :
    formEncode (formDecode (formEncode l)) = formEncode l := by
  induction l with
  | nil => rfl
  | cons a t ih =>
    show formEncode (formDecode (formEncodeChar a ++ formEncode t))
        = formEncodeChar a ++ formEncode t
    have hd : formDecode (formEncodeChar a ++ formEncode t)
        = formDecode (formEncodeChar a) ++ formDecode (formEncode t) := by
      unfold formDecode; exact List.map_append _ _ _
    rw [hd]
    have he : formEncode (formDecode (formEncodeChar a) ++ formDecode (formEncode t))
        = formEncode (formDecode (formEncodeChar a)) ++
          formEncode (formDecode (formEncode t)) := by
      unfold formEncode; exact List.flatMap_append _ _ _
    rw [he, ede_char a, ih]

/-- Decoding an encoded clean component (no `+`, no control characters) is the
identity. -/
theorem de_char_eq {c : Char} (h1 : (c == '+') = false) (h2 : 0x1F < c.toNat) :
    (formEncodeChar c).map formDecodeChar = [c] := by
  by_cases hs : (c == ' ') = true
  · unfold formEncodeChar
    rw [if_pos hs]
    have : c = ' ' := eq_of_beq hs
    subst this
    rfl
  · unfold formEncodeChar
    rw [if_neg hs, if_neg (by omega)]
    simp [formDecodeChar, h1]

/-- Decode after encode is the identity on clean components. -/
theorem de_eq_self {l : List Char}
    (h : l.all (fun c => (c != '+') && decide (0x1F < c.toNat)) = true) :
    formDecode (formEncode l) = l := by
  induction l with
  | nil => rfl
  | cons a t ih =>
    rw [List.all_cons, Bool.and_eq_true] at h
    rw [Bool.and_eq_true] at *
    have h1 : (a == '+') = false := by
      have := h.1.1
      simpa [bne] using this
    have h2 : 0x1F < a.toNat := by
      have := h.1.2
      simpa using this
    show formDecode (formEncodeChar a ++ formEncode t) = a :: t
    rw [show formDecode (formEncodeChar a ++ formEncode t)
          = (formEncodeChar a).map formDecodeChar ++ formDecode (formEncode t) from
        List.map_append _ _ _]
    rw [de_char_eq h1 h2, ih h.2, List.singleton_append]

/-! ### `URLSearchParams` round-trip -/

/-- Freedom facts about `&` (code point 38) for the encode transfer. -/
theorem amp_not_special :
    ('&').toNat ≠ 43 ∧ ('&').toNat ≠ 37 ∧ ¬(48 ≤ ('&').toNat ∧ ('&').toNat ≤ 57) ∧
      ¬(65 ≤ ('&').toNat ∧ ('&').toNat ≤ 70) := by decide

/-- Freedom facts about `=` (code point 61) for the encode transfer. -/
theorem eq_not_special :
    ('=').toNat ≠ 43 ∧ ('=').toNat ≠ 37 ∧ ¬(48 ≤ ('=').toNat ∧ ('=').toNat ≤ 57) ∧
      ¬(65 ≤ ('=').toNat ∧ ('=').toNat ≤ 70) := by decide

/-- Parsing the serialization of pairs with separator-free components yields
the decode of the encode of each component. -/
theorem parsePairs_serializePairs {ps : List (List Char × List Char)}
    (hne : ps ≠ [])
    (hk : ∀ p ∈ ps, p.1.all (fun c => c != '&') = true ∧
      p.1.all (fun c => c != '=') = true ∧ p.2.all (fun c => c != '&') = true) :
    parsePairs (serializePairs ps)
      = ps.map (fun p => (formDecode (formEncode p.1), formDecode (formEncode p.2))) := by
  unfold parsePairs serializePairs
  rw [splitSep_joinSep]
  · rw [List.filter_eq_self.mpr, List.map_map]
    · apply List.map_congr_left
      intro p hp
      obtain ⟨hk1, hk2, hk3⟩ := hk p hp
      simp only [Function.comp]
      rw [splitFirstEq_append _ (formEncode_all_bne eq_not_special hk2)]
    · intro seg hseg
      rw [List.mem_map] at hseg
      obtain ⟨p, hp, hpeq⟩ := hseg
      subst hpeq
      simp
  · simpa using hne
  · intro seg hseg
    rw [List.mem_map] at hseg
    obtain ⟨p, hp, hpeq⟩ := hseg
    subst hpeq
    obtain ⟨hk1, hk2, hk3⟩ := hk p hp
    rw [List.all_append, formEncode_all_bne amp_not_special hk1]
    rw [List.all_cons]
    rw [formEncode_all_bne amp_not_special hk3]
    rfl

/-- If the decode of an encode is a tracking key, the original key already
was one. -/
theorem isTracking_de {k : List Char}
    (h : isTracking (formDecode (formEncode k)) = true) : isTracking k = true := by
  by_cases hclean : k.all (fun c => (c != '+') && decide (0x1F < c.toNat)) = true
  · rwa [de_eq_self hclean] at h
  · exfalso
    rw [List.all_eq_true] at hclean
    push_neg at hclean
    obtain ⟨c, hc, hbad⟩ := hclean
    have hbad' : ¬((c != '+') = true ∧ (decide (0x1F < c.toNat)) = true) := by
      intro hb
      exact hbad (by rw [Bool.and_eq_true]; exact hb)
    -- the tracking name the decode equals
    unfold isTracking at h
    rw [List.any_eq_true] at h
    obtain ⟨t, ht, hteq⟩ := h
    have htk : t = formDecode (formEncode k) := eq_of_beq hteq
    -- the decode contains a space or a percent sign
    have hsp : (' ' ∈ formDecode (formEncode k)) ∨ ('%' ∈ formDecode (formEncode k)) := by
      by_cases hplus : (c != '+') = true
      · -- then the control branch is violated
        have hctl : c.toNat ≤ 0x1F := by
          by_contra hgt
          exact hbad' ⟨hplus, decide_eq_true (by omega)⟩
        right
        rw [formDecode, formEncode, List.mem_map]
        refine ⟨'%', ?_, rfl⟩
        rw [List.mem_flatMap]
        refine ⟨c, hc, ?_⟩
        unfold formEncodeChar
        rw [if_neg, if_pos hctl]
        · exact List.mem_cons_self _ _
        · intro hbeq
          have := char_toNat_eq_of_beq hbeq
          have h32 : (' ').toNat = 32 := rfl
          rw [h32] at this
          omega
      · -- c is `+`, whose encode is `+` and whose decode is a space
        have hcp : c = '+' := by
          have : ¬ c ≠ '+' := fun hne => hplus (bne_iff_ne.mpr hne)
          exact not_not.mp this
        left
        rw [formDecode, List.mem_map]
        refine ⟨'+', ?_, rfl⟩
        rw [formEncode, List.mem_flatMap]
        refine ⟨c, hc, ?_⟩
        subst hcp
        decide
    -- no tracking name contains a space or percent sign
    rw [← htk] at hsp
    fin_cases ht <;> rcases hsp with hsp | hsp <;> revert hsp <;> decide

/-- Components produced by `parsePairs` are `&`-free, and keys are `=`-free. -/
theorem parsePairs_components_free {q0 : List Char} {p : List Char × List Char}
    (hp : p ∈ parsePairs q0) :
    p.1.all (fun c => c != '&') = true ∧ p.1.all (fun c => c != '=') = true ∧
      p.2.all (fun c => c != '&') = true := by
  unfold parsePairs at hp
  rw [List.mem_map] at hp
  obtain ⟨seg, hseg, hpeq⟩ := hp
  rw [List.mem_filter] at hseg
  have hsegall : seg.all (fun c => c != '&') = true := splitSep_seg_all hseg.1
  have hmemseg := List.all_eq_true.mp hsegall
  have hamp : ((splitFirstEq seg).1.all (fun c => c != '&')) = true := by
    rw [List.all_eq_true]
    intro x hx
    exact hmemseg x (mem_splitFirstEq_fst hx)
  cases hsf : splitFirstEq seg with
  | mk k v2 =>
    cases v2 with
    | none =>
      rw [hsf] at hpeq
      dsimp only at hpeq
      subst hpeq
      refine ⟨?_, ?_, by rfl⟩
      · exact formDecode_all_bne (by decide) (by rw [← show (splitFirstEq seg).1 = k from by rw [hsf]]; exact hamp)
      · exact formDecode_all_bne (by decide) (by rw [← show (splitFirstEq seg).1 = k from by rw [hsf]]; exact splitFirstEq_fst_all)
    | some v =>
      rw [hsf] at hpeq
      dsimp only at hpeq
      subst hpeq
      refine ⟨?_, ?_, ?_⟩
      · exact formDecode_all_bne (by decide) (by rw [← show (splitFirstEq seg).1 = k from by rw [hsf]]; exact hamp)
      · exact formDecode_all_bne (by decide) (by rw [← show (splitFirstEq seg).1 = k from by rw [hsf]]; exact splitFirstEq_fst_all)
      · apply formDecode_all_bne (by decide)
        rw [List.all_eq_true]
        intro x hx
        exact hmemseg x (mem_splitFirstEq_snd (by rw [hsf]) hx)

/-- The query rewrite of `normalizeUrl` is idempotent. -/
theorem normQuery_idem (q : Option (List Char)) :
    normQuery (normQuery q) = normQuery q := by
  cases hnq : normQuery q with
  | none => rfl
  | some q1 =>
    unfold normQuery at hnq
    by_cases hemp :
        (serializePairs ((parsePairs (q.getD [])).filter fun p => !isTracking p.1)).isEmpty = true
    · rw [if_pos hemp] at hnq
      exact absurd hnq (by simp)
    · rw [if_neg hemp] at hnq
      injection hnq with hq1
      subst hq1
      set ps := (parsePairs (q.getD [])).filter (fun p => !isTracking p.1) with hps
      have hne : ps ≠ [] := by
        intro h0
        rw [h0] at hemp
        exact hemp rfl
      have hfree : ∀ p ∈ ps, p.1.all (fun c => c != '&') = true ∧
          p.1.all (fun c => c != '=') = true ∧ p.2.all (fun c => c != '&') = true := by
        intro p hp
        rw [hps, List.mem_filter] at hp
        exact parsePairs_components_free hp.1
      have hrt := parsePairs_serializePairs hne hfree
      unfold normQuery
      simp only [Option.getD_some]
      rw [hrt]
      have hfilt : ((ps.map (fun p => (formDecode (formEncode p.1), formDecode (formEncode p.2)))).filter
            (fun p => !isTracking p.1))
          = ps.map (fun p => (formDecode (formEncode p.1), formDecode (formEncode p.2))) := by
        apply List.filter_eq_self.mpr
        intro p hp
        rw [List.mem_map] at hp
        obtain ⟨p0, hp0, hpeq⟩ := hp
        subst hpeq
        have hnt : isTracking p0.1 = false := by
          have hm := hp0
          rw [hps, List.mem_filter] at hm
          simpa using hm.2
        cases hb : isTracking (formDecode (formEncode p0.1)) with
        | false => simp [hb]
        | true => exact absurd (isTracking_de hb) (by simp [hnt])
      rw [hfilt]
      have hser : serializePairs
            (ps.map (fun p => (formDecode (formEncode p.1), formDecode (formEncode p.2))))
          = serializePairs ps := by
        unfold serializePairs
        rw [List.map_map]
        apply congrArg
        apply List.map_congr_left
        intro p hp
        simp only [Function.comp]
        rw [ede p.1, ede p.2]
      rw [hser]
      rw [if_neg hemp]

/-! ### Normal-form URL records -/

/-- A character acceptable inside a normal-form path. -/
def pathOkChar (c : Char) : Bool :=
  decide (0x20 < c.toNat) && c != '?' && c != '#'

/-- A character acceptable inside a normal-form query. -/
def queryOkChar (c : Char) : Bool :=
  decide (0x20 < c.toNat) && c != '#'

/-- Normal form of a parsed-and-normalized URL record: exactly the shape whose
serialization re-parses to itself. -/
def NFUrl (u : UrlRec) : Prop :=
  validScheme u.scheme = true ∧
  lowerList u.scheme = u.scheme ∧
  u.host ≠ [] ∧
  u.host.all hostOkChar = true ∧
  lowerList u.host = u.host ∧
  dropDefaultPort u.scheme u.port = u.port ∧
  ((u.path = [] ∧ isSpecialScheme u.scheme = false) ∨
    (u.path.head? = some '/' ∧ u.path.all pathOkChar = true)) ∧
  (∀ q, u.query = some q → q.all queryOkChar = true)

/-- `hostOkChar` in terms of code points. -/
theorem hostOkChar_iff {c : Char} : hostOkChar c = true ↔
    0x20 < c.toNat ∧ c.toNat < 0x7F ∧ c.toNat ≠ 35 ∧ c.toNat ≠ 37 ∧
    c.toNat ≠ 47 ∧ c.toNat ≠ 58 ∧ c.toNat ≠ 60 ∧ c.toNat ≠ 62 ∧
    c.toNat ≠ 63 ∧ c.toNat ≠ 64 ∧ c.toNat ≠ 91 ∧ c.toNat ≠ 92 ∧
    c.toNat ≠ 93 ∧ c.toNat ≠ 94 ∧ c.toNat ≠ 124 := by
  unfold hostOkChar
  simp only [Bool.and_eq_true, decide_eq_true_eq, bne_iff_ne]
  constructor
  · intro h
    obtain ⟨⟨⟨⟨⟨⟨⟨⟨⟨⟨⟨⟨⟨⟨hg, hl⟩, h35⟩, h37⟩, h47⟩, h58⟩, h60⟩, h62⟩, h63⟩, h64⟩,
      h91⟩, h92⟩, h93⟩, h94⟩, h124⟩ := h
    refine ⟨hg, hl, ?_, ?_, ?_, ?_, ?_, ?_, ?_, ?_, ?_, ?_, ?_, ?_, ?_⟩ <;>
      intro he
    · exact h35 (char_toNat_inj (he.trans (show (35 : Nat) = ('#').toNat from rfl)))
    · exact h37 (char_toNat_inj (he.trans (show (37 : Nat) = ('%').toNat from rfl)))
    · exact h47 (char_toNat_inj (he.trans (show (47 : Nat) = ('/').toNat from rfl)))
    · exact h58 (char_toNat_inj (he.trans (show (58 : Nat) = (':').toNat from rfl)))
    · exact h60 (char_toNat_inj (he.trans (show (60 : Nat) = ('<').toNat from rfl)))
    · exact h62 (char_toNat_inj (he.trans (show (62 : Nat) = ('>').toNat from rfl)))
    · exact h63 (char_toNat_inj (he.trans (show (63 : Nat) = ('?').toNat from rfl)))
    · exact h64 (char_toNat_inj (he.trans (show (64 : Nat) = ('@').toNat from rfl)))
    · exact h91 (char_toNat_inj (he.trans (show (91 : Nat) = ('[').toNat from rfl)))
    · exact h92 (char_toNat_inj (he.trans (show (92 : Nat) = ('\\').toNat from rfl)))
    · exact h93 (char_toNat_inj (he.trans (show (93 : Nat) = (']').toNat from rfl)))
    · exact h94 (char_toNat_inj (he.trans (show (94 : Nat) = ('^').toNat from rfl)))
    · exact h124 (char_toNat_inj (he.trans (show (124 : Nat) = ('|').toNat from rfl)))
  · intro ⟨hg, hl, h35, h37, h47, h58, h60, h62, h63, h64, h91, h92, h93, h94, h124⟩
    refine ⟨⟨⟨⟨⟨⟨⟨⟨⟨⟨⟨⟨⟨⟨hg, hl⟩, ?_⟩, ?_⟩, ?_⟩, ?_⟩, ?_⟩, ?_⟩, ?_⟩, ?_⟩, ?_⟩, ?_⟩,
      ?_⟩, ?_⟩, ?_⟩
    · exact fun he => h35 ((congrArg Char.toNat he).trans
        (show ('#').toNat = (35 : Nat) from rfl))
    · exact fun he => h37 ((congrArg Char.toNat he).trans
        (show ('%').toNat = (37 : Nat) from rfl))
    · exact fun he => h47 ((congrArg Char.toNat he).trans
        (show ('/').toNat = (47 : Nat) from rfl))
    · exact fun he => h58 ((congrArg Char.toNat he).trans
        (show (':').toNat = (58 : Nat) from rfl))
    · exact fun he => h60 ((congrArg Char.toNat he).trans
        (show ('<').toNat = (60 : Nat) from rfl))
    · exact fun he => h62 ((congrArg Char.toNat he).trans
        (show ('>').toNat = (62 : Nat) from rfl))
    · exact fun he => h63 ((congrArg Char.toNat he).trans
        (show ('?').toNat = (63 : Nat) from rfl))
    · exact fun he => h64 ((congrArg Char.toNat he).trans
        (show ('@').toNat = (64 : Nat) from rfl))
    · exact fun he => h91 ((congrArg Char.toNat he).trans
        (show ('[').toNat = (91 : Nat) from rfl))
    · exact fun he => h92 ((congrArg Char.toNat he).trans
        (show ('\\').toNat = (92 : Nat) from rfl))
    · exact fun he => h93 ((congrArg Char.toNat he).trans
        (show (']').toNat = (93 : Nat) from rfl))
    · exact fun he => h94 ((congrArg Char.toNat he).trans
        (show ('^').toNat = (94 : Nat) from rfl))
    · exact fun he => h124 ((congrArg Char.toNat he).trans
        (show ('|').toNat = (124 : Nat) from rfl))

/-- `pathOkChar` in terms of code points. -/
theorem pathOkChar_iff {c : Char} : pathOkChar c = true ↔
    0x20 < c.toNat ∧ c.toNat ≠ 63 ∧ c.toNat ≠ 35 := by
  unfold pathOkChar
  constructor
  · intro h
    rw [Bool.and_eq_true, Bool.and_eq_true] at h
    obtain ⟨⟨hg, hq⟩, hh⟩ := h
    exact ⟨by simpa using hg, char_toNat_ne_of_bne hq, char_toNat_ne_of_bne hh⟩
  · intro ⟨hg, hq, hh⟩
    rw [Bool.and_eq_true, Bool.and_eq_true]
    exact ⟨⟨decide_eq_true hg, char_bne_true_of_toNat_ne hq⟩,
      char_bne_true_of_toNat_ne hh⟩

/-- `queryOkChar` in terms of code points. -/
theorem queryOkChar_iff {c : Char} : queryOkChar c = true ↔
    0x20 < c.toNat ∧ c.toNat ≠ 35 := by
  unfold queryOkChar
  constructor
  · intro h
    rw [Bool.and_eq_true] at h
    exact ⟨by simpa using h.1, char_toNat_ne_of_bne h.2⟩
  · intro ⟨hg, hh⟩
    rw [Bool.and_eq_true]
    exact ⟨decide_eq_true hg, char_bne_true_of_toNat_ne hh⟩

/-- `notAuthEnd` from code-point disequalities. -/
theorem notAuthEnd_of_toNat {c : Char} (h47 : c.toNat ≠ 47) (h63 : c.toNat ≠ 63)
    (h35 : c.toNat ≠ 35) : notAuthEnd c = true := by
  unfold notAuthEnd
  rw [char_beq_false_of_toNat_ne h47, char_beq_false_of_toNat_ne h63,
    char_beq_false_of_toNat_ne h35]
  rfl

/-- `notPQEnd` from code-point disequalities. -/
theorem notPQEnd_of_toNat {c : Char} (h63 : c.toNat ≠ 63) (h35 : c.toNat ≠ 35) :
    notPQEnd c = true := by
  unfold notPQEnd
  rw [char_beq_false_of_toNat_ne h63, char_beq_false_of_toNat_ne h35]
  rfl

/-- `notPQEnd` gives the two code-point disequalities. -/
theorem notPQEnd_toNat {c : Char} (h : notPQEnd c = true) :
    c.toNat ≠ 63 ∧ c.toNat ≠ 35 := by
  unfold notPQEnd at h
  rw [Bool.not_eq_true', Bool.or_eq_false_iff] at h
  exact ⟨fun he => by
      have : c = '?' := char_toNat_inj he
      rw [this] at h
      simp at h,
    fun he => by
      have : c = '#' := char_toNat_inj he
      rw [this] at h
      simp at h⟩

/-- `notAuthEnd` gives the three code-point disequalities. -/
theorem notAuthEnd_toNat {c : Char} (h : notAuthEnd c = true) :
    c.toNat ≠ 47 ∧ c.toNat ≠ 63 ∧ c.toNat ≠ 35 := by
  unfold notAuthEnd at h
  rw [Bool.not_eq_true', Bool.or_eq_false_iff, Bool.or_eq_false_iff] at h
  refine ⟨fun he => ?_, fun he => ?_, fun he => ?_⟩
  · have : c = '/' := char_toNat_inj he
    rw [this] at h; simp at h
  · have : c = '?' := char_toNat_inj he
    rw [this] at h; simp at h
  · have : c = '#' := char_toNat_inj he
    rw [this] at h; simp at h

/-- Code-point consequences of `isAsciiAlpha`. -/
theorem isAsciiAlpha_toNat {c : Char} (h : isAsciiAlpha c = true) :
    97 ≤ c.toNat ∧ c.toNat ≤ 122 ∨ 65 ≤ c.toNat ∧ c.toNat ≤ 90 := by
  simp only [isAsciiAlpha, Bool.or_eq_true, Bool.and_eq_true, decide_eq_true_eq] at h
  exact h

/-- Code-point consequences of `isSchemeChar`. -/
theorem isSchemeChar_toNat {c : Char} (h : isSchemeChar c = true) :
    (97 ≤ c.toNat ∧ c.toNat ≤ 122) ∨ (65 ≤ c.toNat ∧ c.toNat ≤ 90) ∨
      (48 ≤ c.toNat ∧ c.toNat ≤ 57) ∨ c.toNat = 43 ∨ c.toNat = 45 ∨ c.toNat = 46 := by
  simp only [isSchemeChar, isAsciiAlpha, isAsciiDigit, Bool.or_eq_true,
    Bool.and_eq_true, decide_eq_true_eq, beq_iff_eq] at h
  rcases h with ((((h | h) | h) | h) | h) | h
  · exact Or.inl h
  · exact Or.inr (Or.inl h)
  · exact Or.inr (Or.inr (Or.inl h))
  · subst h; exact Or.inr (Or.inr (Or.inr (Or.inl rfl)))
  · subst h; exact Or.inr (Or.inr (Or.inr (Or.inr (Or.inl rfl))))
  · subst h; exact Or.inr (Or.inr (Or.inr (Or.inr (Or.inr rfl))))

/-- Characters of a valid scheme lie above `0x20` and are not colons. -/
theorem validScheme_facts {l : List Char} (h : validScheme l = true) :
    l.all (fun c => decide (0x20 < c.toNat)) = true ∧
      l.all (fun c => c != ':') = true := by
  cases l with
  | nil => simp [validScheme] at h
  | cons a cs =>
    simp only [validScheme, Bool.and_eq_true] at h
    obtain ⟨ha, hcs⟩ := h
    have hcs' := List.all_eq_true.mp hcs
    have hhead : 0x20 < a.toNat ∧ a.toNat ≠ 58 := by
      rcases isAsciiAlpha_toNat ha with ⟨x1, x2⟩ | ⟨x1, x2⟩ <;> omega
    have htail : ∀ x ∈ cs, 0x20 < x.toNat ∧ x.toNat ≠ 58 := by
      intro x hx
      rcases isSchemeChar_toNat (hcs' x hx) with h' | h' | h' | h' | h' | h' <;> omega
    constructor
    · rw [List.all_cons, Bool.and_eq_true]
      refine ⟨decide_eq_true hhead.1, ?_⟩
      rw [List.all_eq_true]
      intro x hx
      exact decide_eq_true (htail x hx).1
    · rw [List.all_cons, Bool.and_eq_true]
      refine ⟨char_bne_true_of_toNat_ne hhead.2, ?_⟩
      rw [List.all_eq_true]
      intro x hx
      exact char_bne_true_of_toNat_ne (htail x hx).2

/-- Path percent-encoding of a single admissible character produces only
normal-form path characters. -/
theorem pathEncodeChar_all_ok {c : Char} (h : notPQEnd c = true) :
    (pathEncodeChar c).all pathOkChar = true := by
  unfold pathEncodeChar
  by_cases h2 : c.toNat ≤ 0x20
  · rw [if_pos h2]
    have hx : ∀ k, k < 16 → pathOkChar (hexDigit k) = true := by
      intro k hk
      have ht := hexDigit_toNat hk
      apply pathOkChar_iff.mpr
      rw [ht]
      split <;> omega
    rw [List.all_cons, List.all_cons, List.all_cons, List.all_nil,
      hx _ (by omega : c.toNat / 16 < 16), hx _ (by omega : c.toNat % 16 < 16)]
    decide
  · rw [if_neg h2]
    rw [List.all_cons, List.all_nil, Bool.and_true]
    obtain ⟨h63, h35⟩ := notPQEnd_toNat h
    exact pathOkChar_iff.mpr ⟨by omega, h63, h35⟩

/-- Path percent-encoding of an admissible raw path produces only normal-form
path characters. -/
theorem pathEncode_all_ok {l : List Char} (h : l.all notPQEnd = true) :
    (pathEncode l).all pathOkChar = true := by
  rw [List.all_eq_true] at h ⊢
  intro x hx
  rw [pathEncode, List.mem_flatMap] at hx
  obtain ⟨a, ha, hxa⟩ := hx
  exact (List.all_eq_true.mp (pathEncodeChar_all_ok (h a ha))) x hxa

/-- Path percent-encoding is the identity above `0x20`. -/
theorem pathEncode_eq_self {l : List Char}
    (h : l.all (fun c => decide (0x20 < c.toNat)) = true) : pathEncode l = l := by
  induction l with
  | nil => rfl
  | cons a t ih =>
    rw [List.all_cons, Bool.and_eq_true] at h
    show pathEncodeChar a ++ pathEncode t = a :: t
    unfold pathEncodeChar
    rw [if_neg (by have := h.1; simp at this; omega), ih h.2, List.singleton_append]

/-- `dropDefaultPort` is idempotent. -/
theorem dropDefaultPort_idem (sch : List Char) (p : Option Nat) :
    dropDefaultPort sch (dropDefaultPort sch p) = dropDefaultPort sch p := by
  cases p with
  | none => rfl
  | some n =>
    unfold dropDefaultPort
    dsimp only
    by_cases h : defaultPort sch = some n
    · rw [if_pos h]
    · rw [if_neg h]
      dsimp only
      rw [if_neg h]

/-- `takeWhile` walks over a satisfying head. -/
theorem takeWhile_cons_of_pos {p : Char → Bool} {c : Char} (ys : List Char)
    (h : p c = true) : (c :: ys).takeWhile p = c :: ys.takeWhile p := by
  simp [List.takeWhile_cons, h]

/-- `dropWhile` consumes a satisfying head. -/
theorem dropWhile_cons_of_pos {p : Char → Bool} {c : Char} (ys : List Char)
    (h : p c = true) : (c :: ys).dropWhile p = ys.dropWhile p := by
  simp [List.dropWhile_cons, h]

/-- Decimal digits pass the authority scanner and sit above `0x20`. -/
theorem natDigits_facts (n : Nat) :
    (natDigits n).all notAuthEnd = true ∧
      (natDigits n).all (fun c => decide (0x20 < c.toNat)) = true := by
  have hall := List.all_eq_true.mp (natDigits_all_digit n)
  constructor
  · rw [List.all_eq_true]
    intro x hx
    have := hall x hx
    simp only [isAsciiDigit, Bool.and_eq_true, decide_eq_true_eq] at this
    exact notAuthEnd_of_toNat (by omega) (by omega) (by omega)
  · rw [List.all_eq_true]
    intro x hx
    have := hall x hx
    simp only [isAsciiDigit, Bool.and_eq_true, decide_eq_true_eq] at this
    exact decide_eq_true (by omega)

/-- Parsing a serialized port block recovers the port. -/
theorem parsePort_digits (n : Nat) : parsePort (':' :: natDigits n) = some (some n) := by
  have hne : (natDigits n).isEmpty = false := by
    cases hd : natDigits n with
    | nil => exact absurd hd (natDigits_ne_nil n)
    | cons a t => rfl
  simp [parsePort, hne, natDigits_all_digit n, natOfDigits_natDigits]

/-- `parseUrl` with its let-bindings inlined (definitional restatement used to
drive the round-trip computation). -/
theorem parseUrl_def (s : String) : parseUrl s =
    (if validScheme ((preprocessUrl s.data).takeWhile (fun c => c != ':')) = true then
      match (preprocessUrl s.data).dropWhile (fun c => c != ':') with
      | ':' :: '/' :: '/' :: r2 =>
        if (((r2.takeWhile notAuthEnd).takeWhile (fun c => c != ':')).isEmpty
            || ((r2.takeWhile notAuthEnd).takeWhile (fun c => c != ':')).any
                (fun c => !hostOkChar c)) = true then none
        else
          match parsePort ((r2.takeWhile notAuthEnd).dropWhile (fun c => c != ':')) with
          | none => none
          | some p =>
            some { scheme := lowerList ((preprocessUrl s.data).takeWhile (fun c => c != ':'))
                 , host := lowerList ((r2.takeWhile notAuthEnd).takeWhile (fun c => c != ':'))
                 , port := dropDefaultPort
                     (lowerList ((preprocessUrl s.data).takeWhile (fun c => c != ':'))) p
                 , path :=
                     if ((r2.dropWhile notAuthEnd).takeWhile notPQEnd).isEmpty = true then
                       (if isSpecialScheme
                           (lowerList ((preprocessUrl s.data).takeWhile (fun c => c != ':')))
                           = true then ['/'] else [])
                     else pathEncode ((r2.dropWhile notAuthEnd).takeWhile notPQEnd)
                 , query :=
                     match (r2.dropWhile notAuthEnd).dropWhile notPQEnd with
                     | '?' :: q => some (q.takeWhile (fun c => c != '#'))
                     | _ => none }
      | _ => none
    else none) := rfl

/-- Parsing a canonical serialization `scheme://<R>` recovers the record, given
the computed authority, port, path and query pieces. -/
theorem parseUrl_mk_canonical (S H R : List Char) (Po : Option Nat)
    (Pa : List Char) (Q : Option (List Char))
    (h1 : validScheme S = true)
    (h2 : lowerList S = S)
    (h5 : lowerList H = H)
    (hguard : (H.isEmpty || H.any (fun c => !hostOkChar c)) = false)
    (hScolon : S.all (fun c => c != ':') = true)
    (hgt : (S ++ ':' :: '/' :: '/' :: R).all (fun c => decide (0x20 < c.toNat)) = true)
    (hhost : (R.takeWhile notAuthEnd).takeWhile (fun c => c != ':') = H)
    (hport : parsePort ((R.takeWhile notAuthEnd).dropWhile (fun c => c != ':')) = some Po)
    (hdp : dropDefaultPort S Po = Po)
    (hraw : (R.dropWhile notAuthEnd).takeWhile notPQEnd = Pa)
    (hpath : (if Pa.isEmpty = true then
        (if isSpecialScheme S = true then ['/'] else []) else pathEncode Pa) = Pa)
    (hpq : (R.dropWhile notAuthEnd).dropWhile notPQEnd
        = (match Q with | some q => '?' :: q | none => []))
    (hQhash : ∀ q, Q = some q → q.all (fun c => c != '#') = true) :
    parseUrl (String.mk (S ++ ':' :: '/' :: '/' :: R)) = some ⟨S, H, Po, Pa, Q⟩ := by
  rw [parseUrl_def]
  rw [show (String.mk (S ++ ':' :: '/' :: '/' :: R)).data
      = S ++ ':' :: '/' :: '/' :: R from rfl]
  rw [preprocessUrl_eq_self hgt]
  rw [takeWhile_append_cons _ hScolon (by decide),
    dropWhile_append_cons _ hScolon (by decide)]
  rw [if_pos h1]
  split
  · next r2 heq =>
    have hr2 : r2 = R := by
      injection heq with a1 a2
      injection a2 with a3 a4
      injection a4 with a5 a6
      first | exact a6 | exact a6.symm
    subst hr2
    rw [hhost]
    rw [if_neg (by rw [hguard]; exact Bool.false_ne_true)]
    rw [hport]
    dsimp only
    rw [h2, h5, hdp, hraw, hpath, hpq]
    cases Q with
    | none => rfl
    | some q =>
      split
      · next r heq2 =>
        have hrq : r = q := by
          injection heq2 with b1 b2
          first | exact b2 | exact b2.symm
        rw [hrq, takeWhile_eq_self_of_all (hQhash q rfl)]
      · next hne => exact absurd rfl (hne q)
  · next hne => exact absurd rfl (hne R)

/-- Serializing a normal-form record and re-parsing recovers the record. -/
theorem parse_serialize_of_NF (u : UrlRec) (h : NFUrl u) :
    parseUrl (String.mk (serializeUrl u)) = some u := by
  obtain ⟨S, H, Po, Pa, Q⟩ := u
  obtain ⟨h1, h2, h3, h4, h5, h6, h7, h8⟩ := h
  dsimp only at h1 h2 h3 h4 h5 h6 h7 h8
  obtain ⟨hSgt, hScolon⟩ := validScheme_facts h1
  have hHfacts := List.all_eq_true.mp h4
  have hHgt : H.all (fun c => decide (0x20 < c.toNat)) = true := by
    rw [List.all_eq_true]
    intro x hx
    exact decide_eq_true (hostOkChar_iff.mp (hHfacts x hx)).1
  have hHcolon : H.all (fun c => c != ':') = true := by
    rw [List.all_eq_true]
    intro x hx
    obtain ⟨-, -, -, -, -, a58, -, -, -, -, -, -, -, -, -⟩ :=
      hostOkChar_iff.mp (hHfacts x hx)
    exact char_bne_true_of_toNat_ne a58
  have hHauth : H.all notAuthEnd = true := by
    rw [List.all_eq_true]
    intro x hx
    obtain ⟨-, -, a35, -, a47, -, -, -, a63, -, -, -, -, -, -⟩ :=
      hostOkChar_iff.mp (hHfacts x hx)
    exact notAuthEnd_of_toNat a47 a63 a35
  have hguard : (H.isEmpty || H.any (fun c => !hostOkChar c)) = false := by
    rw [Bool.or_eq_false_iff]
    constructor
    · cases hH0 : H with
      | nil => exact absurd hH0 h3
      | cons a t => rfl
    · rw [List.any_eq_false]
      intro x hx
      simp [hHfacts x hx]
  have hQhash : ∀ q, Q = some q → q.all (fun c => c != '#') = true := by
    intro q hq
    have hmem := List.all_eq_true.mp (h8 q hq)
    rw [List.all_eq_true]
    intro x hx
    exact char_bne_true_of_toNat_ne (queryOkChar_iff.mp (hmem x hx)).2
  have hQgt : ∀ q, Q = some q → q.all (fun c => decide (0x20 < c.toNat)) = true := by
    intro q hq
    have hmem := List.all_eq_true.mp (h8 q hq)
    rw [List.all_eq_true]
    intro x hx
    exact decide_eq_true (queryOkChar_iff.mp (hmem x hx)).1
  rcases h7 with ⟨hpa, hns⟩ | ⟨hph, hpall⟩
  · -- empty path, non-special scheme
    subst hpa
    have hpath0 : (if ([] : List Char).isEmpty = true then
        (if isSpecialScheme S = true then ['/'] else []) else pathEncode []) = [] := by
      simp [hns]
    cases Po with
    | none =>
      cases Q with
      | none =>
        have hL : serializeUrl ⟨S, H, none, [], none⟩ = S ++ ':' :: '/' :: '/' :: H := by
          simp [serializeUrl]
        rw [hL]
        refine parseUrl_mk_canonical S H H none [] none h1 h2 h5 hguard hScolon
          ?_ ?_ ?_ rfl ?_ hpath0 ?_ hQhash
        · simp [List.all_append, List.all_cons, hSgt, hHgt]
        · rw [takeWhile_eq_self_of_all hHauth, takeWhile_eq_self_of_all hHcolon]
        · rw [takeWhile_eq_self_of_all hHauth, dropWhile_eq_nil_of_all hHcolon]; rfl
        · rw [dropWhile_eq_nil_of_all hHauth]; rfl
        · rw [dropWhile_eq_nil_of_all hHauth]; rfl
      | some q =>
        have hL : serializeUrl ⟨S, H, none, [], some q⟩
            = S ++ ':' :: '/' :: '/' :: (H ++ '?' :: q) := by
          simp [serializeUrl, List.append_assoc]
        rw [hL]
        refine parseUrl_mk_canonical S H (H ++ '?' :: q) none [] (some q) h1 h2 h5
          hguard hScolon ?_ ?_ ?_ rfl ?_ hpath0 ?_ hQhash
        · simp [List.all_append, List.all_cons, hSgt, hHgt, hQgt q rfl]
        · rw [takeWhile_append_cons _ hHauth (by decide),
            takeWhile_eq_self_of_all hHcolon]
        · rw [takeWhile_append_cons _ hHauth (by decide),
            dropWhile_eq_nil_of_all hHcolon]
          rfl
        · rw [dropWhile_append_cons _ hHauth (by decide),
            takeWhile_cons_of_neg _ (by decide)]
        · rw [dropWhile_append_cons _ hHauth (by decide),
            dropWhile_cons_of_neg _ (by decide)]
    | some n =>
      cases Q with
      | none =>
        have hL : serializeUrl ⟨S, H, some n, [], none⟩
            = S ++ ':' :: '/' :: '/' :: (H ++ ':' :: natDigits n) := by
          simp [serializeUrl, List.append_assoc]
        rw [hL]
        have hat : (H ++ ':' :: natDigits n).takeWhile notAuthEnd
            = H ++ ':' :: natDigits n := by
          rw [takeWhile_append_all _ hHauth, takeWhile_cons_of_pos _ (by decide),
            takeWhile_eq_self_of_all (natDigits_facts n).1]
        have hdr : (H ++ ':' :: natDigits n).dropWhile notAuthEnd = [] := by
          rw [dropWhile_append_all _ hHauth, dropWhile_cons_of_pos _ (by decide),
            dropWhile_eq_nil_of_all (natDigits_facts n).1]
        refine parseUrl_mk_canonical S H (H ++ ':' :: natDigits n) (some n) [] none
          h1 h2 h5 hguard hScolon ?_ ?_ ?_ h6 ?_ hpath0 ?_ hQhash
        · simp [List.all_append, List.all_cons, hSgt, hHgt, (natDigits_facts n).2]
        · rw [hat, takeWhile_append_cons _ hHcolon (by decide)]
        · rw [hat, dropWhile_append_cons _ hHcolon (by decide), parsePort_digits]
        · rw [hdr]; rfl
        · rw [hdr]; rfl
      | some q =>
        have hL : serializeUrl ⟨S, H, some n, [], some q⟩
            = S ++ ':' :: '/' :: '/' :: (H ++ ':' :: (natDigits n ++ '?' :: q)) := by
          simp [serializeUrl, List.append_assoc]
        rw [hL]
        have hat : (H ++ ':' :: (natDigits n ++ '?' :: q)).takeWhile notAuthEnd
            = H ++ ':' :: natDigits n := by
          rw [takeWhile_append_all _ hHauth, takeWhile_cons_of_pos _ (by decide),
            takeWhile_append_cons _ (natDigits_facts n).1 (by decide)]
        have hdr : (H ++ ':' :: (natDigits n ++ '?' :: q)).dropWhile notAuthEnd
            = '?' :: q := by
          rw [dropWhile_append_all _ hHauth, dropWhile_cons_of_pos _ (by decide),
            dropWhile_append_cons _ (natDigits_facts n).1 (by decide)]
        refine parseUrl_mk_canonical S H (H ++ ':' :: (natDigits n ++ '?' :: q))
          (some n) [] (some q) h1 h2 h5 hguard hScolon ?_ ?_ ?_ h6 ?_ hpath0 ?_ hQhash
        · simp [List.all_append, List.all_cons, hSgt, hHgt, (natDigits_facts n).2,
            hQgt q rfl]
        · rw [hat, takeWhile_append_cons _ hHcolon (by decide)]
        · rw [hat, dropWhile_append_cons _ hHcolon (by decide), parsePort_digits]
        · rw [hdr, takeWhile_cons_of_neg _ (by decide)]
        · rw [hdr, dropWhile_cons_of_neg _ (by decide)]
  · -- nonempty path starting with a slash
    cases Pa with
    | nil => simp at hph
    | cons p0 pt =>
      have hp0 : p0 = '/' := by simpa using hph
      subst hp0
      rw [List.all_cons, Bool.and_eq_true] at hpall
      have hptall := List.all_eq_true.mp hpall.2
      have hpt_pq : pt.all notPQEnd = true := by
        rw [List.all_eq_true]
        intro x hx
        obtain ⟨-, a63, a35⟩ := pathOkChar_iff.mp (hptall x hx)
        exact notPQEnd_of_toNat a63 a35
      have hpt_gt : pt.all (fun c => decide (0x20 < c.toNat)) = true := by
        rw [List.all_eq_true]
        intro x hx
        exact decide_eq_true (pathOkChar_iff.mp (hptall x hx)).1
      have hPa_pq : ('/' :: pt).all notPQEnd = true := by
        rw [List.all_cons, Bool.and_eq_true]
        exact ⟨by decide, hpt_pq⟩
      have hPa_gt : ('/' :: pt).all (fun c => decide (0x20 < c.toNat)) = true := by
        rw [List.all_cons, Bool.and_eq_true]
        exact ⟨by decide, hpt_gt⟩
      have hpathP : (if ('/' :: pt).isEmpty = true then
          (if isSpecialScheme S = true then ['/'] else []) else pathEncode ('/' :: pt))
          = '/' :: pt := by
        rw [if_neg (by simp)]
        exact pathEncode_eq_self hPa_gt
      cases Po with
      | none =>
        cases Q with
        | none =>
          have hL : serializeUrl ⟨S, H, none, '/' :: pt, none⟩
              = S ++ ':' :: '/' :: '/' :: (H ++ '/' :: pt) := by
            simp [serializeUrl, List.append_assoc]
          rw [hL]
          have hat : (H ++ '/' :: pt).takeWhile notAuthEnd = H :=
            takeWhile_append_cons _ hHauth (by decide)
          have hdr : (H ++ '/' :: pt).dropWhile notAuthEnd = '/' :: pt :=
            dropWhile_append_cons _ hHauth (by decide)
          refine parseUrl_mk_canonical S H (H ++ '/' :: pt) none ('/' :: pt) none
            h1 h2 h5 hguard hScolon ?_ ?_ ?_ rfl ?_ hpathP ?_ hQhash
          · simp [List.all_append, List.all_cons, hSgt, hHgt, hpt_gt]
          · rw [hat, takeWhile_eq_self_of_all hHcolon]
          · rw [hat, dropWhile_eq_nil_of_all hHcolon]; rfl
          · rw [hdr, takeWhile_eq_self_of_all hPa_pq]
          · rw [hdr, dropWhile_eq_nil_of_all hPa_pq]
        | some q =>
          have hL : serializeUrl ⟨S, H, none, '/' :: pt, some q⟩
              = S ++ ':' :: '/' :: '/' :: (H ++ '/' :: (pt ++ '?' :: q)) := by
            simp [serializeUrl, List.append_assoc]
          rw [hL]
          have hat : (H ++ '/' :: (pt ++ '?' :: q)).takeWhile notAuthEnd = H :=
            takeWhile_append_cons _ hHauth (by decide)
          have hdr : (H ++ '/' :: (pt ++ '?' :: q)).dropWhile notAuthEnd
              = '/' :: (pt ++ '?' :: q) :=
            dropWhile_append_cons _ hHauth (by decide)
          refine parseUrl_mk_canonical S H (H ++ '/' :: (pt ++ '?' :: q)) none
            ('/' :: pt) (some q) h1 h2 h5 hguard hScolon ?_ ?_ ?_ rfl ?_ hpathP ?_ hQhash
          · simp [List.all_append, List.all_cons, hSgt, hHgt, hpt_gt, hQgt q rfl]
          · rw [hat, takeWhile_eq_self_of_all hHcolon]
          · rw [hat, dropWhile_eq_nil_of_all hHcolon]; rfl
          · rw [hdr, takeWhile_cons_of_pos _ (by decide),
              takeWhile_append_cons _ hpt_pq (by decide)]
          · rw [hdr, dropWhile_cons_of_pos _ (by decide),
              dropWhile_append_cons _ hpt_pq (by decide)]
      | some n =>
        cases Q with
        | none =>
          have hL : serializeUrl ⟨S, H, some n, '/' :: pt, none⟩
              = S ++ ':' :: '/' :: '/' :: (H ++ ':' :: (natDigits n ++ '/' :: pt)) := by
            simp [serializeUrl, List.append_assoc]
          rw [hL]
          have hat : (H ++ ':' :: (natDigits n ++ '/' :: pt)).takeWhile notAuthEnd
              = H ++ ':' :: natDigits n := by
            rw [takeWhile_append_all _ hHauth, takeWhile_cons_of_pos _ (by decide),
              takeWhile_append_cons _ (natDigits_facts n).1 (by decide)]
          have hdr : (H ++ ':' :: (natDigits n ++ '/' :: pt)).dropWhile notAuthEnd
              = '/' :: pt := by
            rw [dropWhile_append_all _ hHauth, dropWhile_cons_of_pos _ (by decide),
              dropWhile_append_cons _ (natDigits_facts n).1 (by decide)]
          refine parseUrl_mk_canonical S H (H ++ ':' :: (natDigits n ++ '/' :: pt))
            (some n) ('/' :: pt) none h1 h2 h5 hguard hScolon ?_ ?_ ?_ h6 ?_ hpathP ?_ hQhash
          · simp [List.all_append, List.all_cons, hSgt, hHgt, (natDigits_facts n).2,
              hpt_gt]
          · rw [hat, takeWhile_append_cons _ hHcolon (by decide)]
          · rw [hat, dropWhile_append_cons _ hHcolon (by decide), parsePort_digits]
          · rw [hdr, takeWhile_eq_self_of_all hPa_pq]
          · rw [hdr, dropWhile_eq_nil_of_all hPa_pq]
        | some q =>
          have hL : serializeUrl ⟨S, H, some n, '/' :: pt, some q⟩
              = S ++ ':' :: '/' :: '/'
                :: (H ++ ':' :: (natDigits n ++ '/' :: (pt ++ '?' :: q))) := by
            simp [serializeUrl, List.append_assoc]
          rw [hL]
          have hat : (H ++ ':' :: (natDigits n ++ '/' :: (pt ++ '?' :: q))).takeWhile
              notAuthEnd = H ++ ':' :: natDigits n := by
            rw [takeWhile_append_all _ hHauth, takeWhile_cons_of_pos _ (by decide),
              takeWhile_append_cons _ (natDigits_facts n).1 (by decide)]
          have hdr : (H ++ ':' :: (natDigits n ++ '/' :: (pt ++ '?' :: q))).dropWhile
              notAuthEnd = '/' :: (pt ++ '?' :: q) := by
            rw [dropWhile_append_all _ hHauth, dropWhile_cons_of_pos _ (by decide),
              dropWhile_append_cons _ (natDigits_facts n).1 (by decide)]
          refine parseUrl_mk_canonical S H
            (H ++ ':' :: (natDigits n ++ '/' :: (pt ++ '?' :: q)))
            (some n) ('/' :: pt) (some q) h1 h2 h5 hguard hScolon ?_ ?_ ?_ h6 ?_ hpathP
            ?_ hQhash
          · simp [List.all_append, List.all_cons, hSgt, hHgt, (natDigits_facts n).2,
              hpt_gt, hQgt q rfl]
          · rw [hat, takeWhile_append_cons _ hHcolon (by decide)]
          · rw [hat, dropWhile_append_cons _ hHcolon (by decide), parsePort_digits]
          · rw [hdr, takeWhile_cons_of_pos _ (by decide),
              takeWhile_append_cons _ hpt_pq (by decide)]
          · rw [hdr, dropWhile_cons_of_pos _ (by decide),
              dropWhile_append_cons _ hpt_pq (by decide)]

/-! ### The parsed-and-normalized record is in normal form -/

/-- Characters of a join are the separator or come from a segment. -/
theorem mem_joinSep {sep : Char} {l : List (List Char)} {x : Char}
    (h : x ∈ joinSep sep l) : x = sep ∨ ∃ s ∈ l, x ∈ s := by
  induction l with
  | nil => simp [joinSep] at h
  | cons a t ih =>
    cases t with
    | nil => right; exact ⟨a, by simp, by simpa [joinSep] using h⟩
    | cons b u =>
      simp only [joinSep] at h
      rw [List.mem_append] at h
      rcases h with h | h
      · right; exact ⟨a, by simp, h⟩
      · rcases List.mem_cons.mp h with h | h
        · left; exact h
        · rcases ih h with h | ⟨s, hs, hxs⟩
          · left; exact h
          · right; exact ⟨s, List.mem_cons_of_mem _ hs, hxs⟩

/-- Refined characterization of `formEncodeChar`: a verbatim character is
above the control range and is not a space. -/
theorem mem_formEncodeChar_strong {c x : Char} (h : x ∈ formEncodeChar c) :
    x.toNat = 43 ∨ x.toNat = 37 ∨ (∃ k, k < 16 ∧ x = hexDigit k) ∨
      (x = c ∧ 0x1F < c.toNat ∧ c.toNat ≠ 32) := by
  unfold formEncodeChar at h
  by_cases h1 : (c == ' ') = true
  · rw [if_pos h1] at h
    simp at h
    subst h
    left; rfl
  · rw [if_neg h1] at h
    by_cases h2 : c.toNat ≤ 0x1F
    · rw [if_pos h2] at h
      simp at h
      rcases h with h | h | h
      · subst h; right; left; rfl
      · subst h; right; right; left; exact ⟨_, by omega, rfl⟩
      · subst h; right; right; left; exact ⟨_, by omega, rfl⟩
    · rw [if_neg h2] at h
      rw [List.mem_singleton] at h
      subst h
      refine Or.inr (Or.inr (Or.inr ⟨rfl, by omega, fun h32 => ?_⟩))
      exact h1 (beq_iff_eq.mpr
        (char_toNat_inj (h32.trans (show (32 : Nat) = (' ').toNat from rfl))))

/-- Form-encoding a `#`-free component produces only normal-form query
characters. -/
theorem formEncode_all_queryOk {l : List Char}
    (h : l.all (fun c => c != '#') = true) :
    (formEncode l).all queryOkChar = true := by
  rw [List.all_eq_true]
  intro x hx
  rw [formEncode, List.mem_flatMap] at hx
  obtain ⟨a, ha, hxa⟩ := hx
  have hane : (a != '#') = true := List.all_eq_true.mp h a ha
  rcases mem_formEncodeChar_strong hxa with h' | h' | ⟨k, hk, h'⟩ | ⟨h', hgt, hne32⟩
  · exact queryOkChar_iff.mpr ⟨by omega, by omega⟩
  · exact queryOkChar_iff.mpr ⟨by omega, by omega⟩
  · subst h'
    have ht := hexDigit_toNat hk
    exact queryOkChar_iff.mpr ⟨by rw [ht]; split <;> omega, by rw [ht]; split <;> omega⟩
  · subst h'
    exact queryOkChar_iff.mpr ⟨by omega, char_toNat_ne_of_bne hane⟩

/-- Serializing `#`-free pairs produces only normal-form query characters. -/
theorem serializePairs_all_queryOk {ps : List (List Char × List Char)}
    (h : ∀ p ∈ ps, p.1.all (fun c => c != '#') = true ∧
      p.2.all (fun c => c != '#') = true) :
    (serializePairs ps).all queryOkChar = true := by
  rw [List.all_eq_true]
  intro x hx
  unfold serializePairs at hx
  rcases mem_joinSep hx with h1 | ⟨s, hs, hxs⟩
  · subst h1; decide
  · rw [List.mem_map] at hs
    obtain ⟨p, hp, hpeq⟩ := hs
    subst hpeq
    rw [List.mem_append] at hxs
    rcases hxs with hxx | hxx
    · exact List.all_eq_true.mp (formEncode_all_queryOk (h p hp).1) x hxx
    · rcases List.mem_cons.mp hxx with h' | h'
      · subst h'; decide
      · exact List.all_eq_true.mp (formEncode_all_queryOk (h p hp).2) x h'

/-- Pairs parsed from a `#`-free query have `#`-free components. -/
theorem parsePairs_hash_free {q0 : List Char}
    (hq0 : q0.all (fun c => c != '#') = true)
    {p : List Char × List Char} (hp : p ∈ parsePairs q0) :
    p.1.all (fun c => c != '#') = true ∧ p.2.all (fun c => c != '#') = true := by
  unfold parsePairs at hp
  rw [List.mem_map] at hp
  obtain ⟨seg, hseg, hpeq⟩ := hp
  rw [List.mem_filter] at hseg
  have hsegmem : ∀ c ∈ seg, (c != '#') = true := fun c hc =>
    List.all_eq_true.mp hq0 c (mem_splitSep hseg.1 hc)
  cases hsf : splitFirstEq seg with
  | mk k v2 =>
    have hkall : k.all (fun c => c != '#') = true := by
      rw [List.all_eq_true]
      intro c hc
      exact hsegmem c (mem_splitFirstEq_fst (by rw [hsf]; exact hc))
    cases v2 with
    | none =>
      rw [hsf] at hpeq
      dsimp only at hpeq
      subst hpeq
      exact ⟨formDecode_all_bne (by decide) hkall, by rfl⟩
    | some v =>
      rw [hsf] at hpeq
      dsimp only at hpeq
      subst hpeq
      refine ⟨formDecode_all_bne (by decide) hkall, formDecode_all_bne (by decide) ?_⟩
      rw [List.all_eq_true]
      intro c hc
      exact hsegmem c (mem_splitFirstEq_snd (by rw [hsf]) hc)

/-- A normalized query of a `#`-free raw query is in normal form. -/
theorem normQuery_all_ok {q0 : List Char}
    (hq0 : q0.all (fun c => c != '#') = true)
    {q : List Char} (h : normQuery (some q0) = some q) :
    q.all queryOkChar = true := by
  unfold normQuery at h
  simp only [Option.getD_some] at h
  by_cases hemp :
      (serializePairs ((parsePairs q0).filter fun p => !isTracking p.1)).isEmpty = true
  · rw [if_pos hemp] at h
    exact absurd h (by simp)
  · rw [if_neg hemp] at h
    injection h with h
    subst h
    apply serializePairs_all_queryOk
    intro p hp
    rw [List.mem_filter] at hp
    exact parsePairs_hash_free hq0 hp.1

/-- `isAsciiAlpha` from code points. -/
theorem isAsciiAlpha_of_toNat {c : Char}
    (h : (97 ≤ c.toNat ∧ c.toNat ≤ 122) ∨ (65 ≤ c.toNat ∧ c.toNat ≤ 90)) :
    isAsciiAlpha c = true := by
  simp only [isAsciiAlpha, Bool.or_eq_true, Bool.and_eq_true, decide_eq_true_eq]
  exact h

/-- `isSchemeChar` from code points. -/
theorem isSchemeChar_of_toNat {c : Char}
    (h : (97 ≤ c.toNat ∧ c.toNat ≤ 122) ∨ (65 ≤ c.toNat ∧ c.toNat ≤ 90) ∨
      (48 ≤ c.toNat ∧ c.toNat ≤ 57) ∨ c.toNat = 43 ∨ c.toNat = 45 ∨ c.toNat = 46) :
    isSchemeChar c = true := by
  simp only [isSchemeChar, isAsciiAlpha, isAsciiDigit, Bool.or_eq_true,
    Bool.and_eq_true, decide_eq_true_eq, beq_iff_eq]
  rcases h with h | h | h | h | h | h
  · exact Or.inl (Or.inl (Or.inl (Or.inl (Or.inl h))))
  · exact Or.inl (Or.inl (Or.inl (Or.inl (Or.inr h))))
  · exact Or.inl (Or.inl (Or.inl (Or.inr h)))
  · exact Or.inl (Or.inl (Or.inr
      (char_toNat_inj (h.trans (show (43 : Nat) = ('+').toNat from rfl)))))
  · exact Or.inl (Or.inr
      (char_toNat_inj (h.trans (show (45 : Nat) = ('-').toNat from rfl))))
  · exact Or.inr
      (char_toNat_inj (h.trans (show (46 : Nat) = ('.').toNat from rfl)))

/-- Lower-casing preserves scheme validity. -/
theorem validScheme_lower {l : List Char} (h : validScheme l = true) :
    validScheme (lowerList l) = true := by
  cases l with
  | nil => simp [validScheme] at h
  | cons a cs =>
    simp only [validScheme, Bool.and_eq_true] at h
    rw [lowerList, List.map_cons]
    simp only [validScheme, Bool.and_eq_true]
    constructor
    · apply isAsciiAlpha_of_toNat
      have hA := isAsciiAlpha_toNat h.1
      rcases asciiLower_cases a with ⟨he, -⟩ | ⟨he, hup⟩ <;> rw [he] <;> omega
    · rw [List.all_eq_true]
      intro x hx
      rw [List.mem_map] at hx
      obtain ⟨a0, ha0, hax⟩ := hx
      subst hax
      have hsc := isSchemeChar_toNat (List.all_eq_true.mp h.2 a0 ha0)
      apply isSchemeChar_of_toNat
      rcases hsc with h' | h' | h' | h' | h' | h' <;>
        rcases asciiLower_cases a0 with ⟨he, -⟩ | ⟨he, hup⟩ <;> rw [he] <;> omega

/-- Lower-casing preserves normal-form host characters. -/
theorem hostOkChar_lower {c : Char} (h : hostOkChar c = true) :
    hostOkChar (asciiLower c) = true := by
  have h' := hostOkChar_iff.mp h
  apply hostOkChar_iff.mpr
  rcases asciiLower_cases c with ⟨he, -⟩ | ⟨he, hup⟩ <;> rw [he] <;> omega

/-- Lower-casing a normal-form host keeps it normal form. -/
theorem all_hostOk_lower {l : List Char} (h : l.all hostOkChar = true) :
    (lowerList l).all hostOkChar = true := by
  rw [List.all_eq_true]
  intro x hx
  rw [lowerList, List.mem_map] at hx
  obtain ⟨a, ha, hax⟩ := hx
  subst hax
  exact hostOkChar_lower (List.all_eq_true.mp h a ha)

/-- Every successfully parsed and normalized record is in normal form. -/
theorem NF_of_parse {s : String} {r : UrlRec} (hp : parseUrl s = some r) :
    NFUrl (normRec r) := by
  rw [parseUrl_def] at hp
  by_cases hv : validScheme ((preprocessUrl s.data).takeWhile (fun c => c != ':')) = true
  case neg =>
    rw [if_neg hv] at hp
    exact absurd hp (by simp)
  rw [if_pos hv] at hp
  split at hp
  case _ r2 heq =>
    by_cases hg : ((((r2.takeWhile notAuthEnd).takeWhile (fun c => c != ':')).isEmpty
        || ((r2.takeWhile notAuthEnd).takeWhile (fun c => c != ':')).any
          (fun c => !hostOkChar c)) = true)
    · rw [if_pos hg] at hp
      exact absurd hp (by simp)
    · rw [if_neg hg] at hp
      split at hp
      case _ hpp => exact absurd hp (by simp)
      case _ p hpp =>
        injection hp with hp
        subst hp
        have hg' : (((r2.takeWhile notAuthEnd).takeWhile (fun c => c != ':')).isEmpty
            || ((r2.takeWhile notAuthEnd).takeWhile (fun c => c != ':')).any
              (fun c => !hostOkChar c)) = false := by
          simpa using hg
        rw [Bool.or_eq_false_iff] at hg'
        obtain ⟨hgE, hgA⟩ := hg'
        have hhostmem : ∀ c ∈ (r2.takeWhile notAuthEnd).takeWhile (fun c => c != ':'),
            hostOkChar c = true := by
          intro c hc
          rw [List.any_eq_false] at hgA
          have := hgA c hc
          simpa using this
        have hhostall : ((r2.takeWhile notAuthEnd).takeWhile (fun c => c != ':')).all
            hostOkChar = true := by
          rw [List.all_eq_true]; exact hhostmem
        unfold NFUrl normRec
        dsimp only
        refine ⟨?_, ?_, ?_, ?_, ?_, ?_, ?_, ?_⟩
        · rw [lowerList_idem]
          exact validScheme_lower hv
        · rw [lowerList_idem, lowerList_idem]
        · rw [lowerList_idem]
          intro hnil
          rw [lowerList, List.map_eq_nil_iff] at hnil
          rw [hnil] at hgE
          simp at hgE
        · rw [lowerList_idem]
          exact all_hostOk_lower hhostall
        · rw [lowerList_idem, lowerList_idem]
        · rw [lowerList_idem]
          exact dropDefaultPort_idem _ p
        · rw [lowerList_idem]
          by_cases hre : ((r2.dropWhile notAuthEnd).takeWhile notPQEnd).isEmpty = true
          · rw [if_pos hre]
            by_cases hsp : isSpecialScheme
                (lowerList ((preprocessUrl s.data).takeWhile (fun c => c != ':'))) = true
            · rw [if_pos hsp]
              right
              exact ⟨rfl, by decide⟩
            · rw [if_neg hsp]
              left
              exact ⟨rfl, by simpa using hsp⟩
          · rw [if_neg hre]
            right
            constructor
            · cases hrp : (r2.dropWhile notAuthEnd).takeWhile notPQEnd with
              | nil => rw [hrp] at hre; exact absurd rfl hre
              | cons c rest =>
                have hhead : ((r2.dropWhile notAuthEnd).takeWhile notPQEnd).head?
                    = some c := by rw [hrp]; rfl
                obtain ⟨hh1, hh2⟩ := head?_takeWhile hhead
                have hna : notAuthEnd c = false := head?_dropWhile hh1
                obtain ⟨b63, b35⟩ := notPQEnd_toNat hh2
                have hc47 : c.toNat = 47 := by
                  unfold notAuthEnd at hna
                  rw [Bool.not_eq_false', Bool.or_eq_true, Bool.or_eq_true] at hna
                  rcases hna with (hx | hx) | hx
                  · exact char_toNat_eq_of_beq hx
                  · exact absurd (char_toNat_eq_of_beq hx) b63
                  · exact absurd (char_toNat_eq_of_beq hx) b35
                have hcs : c = '/' :=
                  char_toNat_inj (hc47.trans (show (47 : Nat) = ('/').toNat from rfl))
                subst hcs
                rfl
            · apply pathEncode_all_ok
              rw [List.all_eq_true]
              intro x hx
              exact List.mem_takeWhile_imp hx
        · intro q' hq'
          split at hq'
          case _ qq heq2 =>
            refine normQuery_all_ok ?_ hq'
            rw [List.all_eq_true]
            intro x hx
            exact List.mem_takeWhile_imp (p := fun c => c != '#') hx
          case _ =>
            rw [show normQuery none = none from rfl] at hq'
            exact absurd hq' (by simp)
  case _ hne => exact absurd hp (by simp)

/-- Record-level normalization is idempotent. -/
theorem normRec_idem (r : UrlRec) : normRec (normRec r) = normRec r := by
  unfold normRec
  dsimp only
  simp only [lowerList_idem, normQuery_idem]

/-- `normalizeUrl` over an abstract canonicalizer `canon`, the `try`-block of
the method (`new URL(url)` plus the mutations plus `toString`; `none` is a
thrown `TypeError`): the `catch` falls back to `url.trim()`. -/
def normalizeUrlO (canon : String → Option String) (url : String) : String :=
  match canon url with
  | some t => t
  | none => jsTrimS url

/-- The embedded model canonicalizer: parse, normalize the record,
serialize. -/
def canonModel (u : String) : Option String :=
  match parseUrl u with
  | some r => some (String.mk (serializeUrl (normRec r)))
  | none => none

/-- The concrete `normalizeUrl` is the oracle form at the model
canonicalizer. -/
theorem normalizeUrl_eq_normO (u : String) :
    normalizeUrl u = normalizeUrlO canonModel u := by
  unfold normalizeUrl normalizeUrlO canonModel
  cases parseUrl u <;> rfl

/-- The model canonicalizer has the canonical-fixed-point property: its
outputs re-parse to the already-normalized record and re-canonicalize to
themselves. -/
theorem canonModel_fix {s t : String} (h : canonModel s = some t) :
    canonModel t = some t := by
  unfold canonModel at h ⊢
  cases hp : parseUrl s with
  | none =>
    rw [hp] at h
    exact absurd h (by simp)
  | some r =>
    rw [hp] at h
    dsimp only at h
    injection h with h
    subst h
    rw [parse_serialize_of_NF _ (NF_of_parse hp)]
    dsimp only
    rw [normRec_idem]

/-- C2 (amended): `normalizeUrl` — canonicalize the parsed URL (fragment
cleared, scheme and host lower-cased, tracking parameters deleted) and fall
back to `url.trim()` when parsing throws — is idempotent on every input its
canonicalizer accepts, and on every input whose trimmed form the
canonicalizer rejects (both passes then return the trimmed string, and
trimming is idempotent).  The statement quantifies over the canonicalizer
oracle `canon` (the `try`-block; `none` is a throw), assuming only the
canonical-fixed-point property — canonical outputs re-canonicalize to
themselves — which the WHATWG algorithm has and which the embedded model
canonicalizer provably has (`canonModel_fix`).  The remaining inputs —
strings the canonicalizer rejects but whose trimmed form it accepts, e.g. a
URL preceded by a no-break space, which `trim` removes but the URL parser
does not — break idempotence, so the spec's unconditional claim is
corrected. -/
theorem normalizeUrl_idem (canon : String → Option String)
    (hfix : ∀ s t, canon s = some t → canon t = some t)
    (s : String)
    (h : (canon s).isSome = true ∨ canon (jsTrimS s) = none) :
    normalizeUrlO canon (normalizeUrlO canon s) = normalizeUrlO canon s := by
  cases hc : canon s with
  | some t =>
    have h1 : normalizeUrlO canon s = t := by
      unfold normalizeUrlO
      rw [hc]
    rw [h1]
    unfold normalizeUrlO
    rw [hfix s t hc]
  | none =>
    rcases h with h | h
    · rw [hc] at h
      exact absurd h (by simp)
    · have h1 : normalizeUrlO canon s = jsTrimS s := by
        unfold normalizeUrlO
        rw [hc]
      have h2 : normalizeUrlO canon (jsTrimS s) = jsTrimS (jsTrimS s) := by
        unfold normalizeUrlO
        rw [h]
      rw [h1, h2, jsTrimS_idem]

/-- Witness for the amended C2 theorem: at the model canonicalizer — whose
fixed-point hypothesis is discharged by `canonModel_fix` — and a concrete
parsed URL carrying a tracking parameter. -/
theorem normalizeUrl_idem_witness :
    (∀ s t, canonModel s = some t → canonModel t = some t) ∧
    ((canonModel "https://a.com/x?utm_source=f&b=2").isSome = true ∨
      canonModel (jsTrimS "https://a.com/x?utm_source=f&b=2") = none) ∧
    normalizeUrlO canonModel
        (normalizeUrlO canonModel "https://a.com/x?utm_source=f&b=2")
      = normalizeUrlO canonModel "https://a.com/x?utm_source=f&b=2" :=
  ⟨fun _ _ ht => canonModel_fix ht,
    Or.inl (by decide),
    normalizeUrl_idem canonModel (fun _ _ ht => canonModel_fix ht)
      "https://a.com/x?utm_source=f&b=2" (Or.inl (by decide))⟩

/-- C2 (counterexample): normalization is not idempotent on every string.
A URL preceded by a no-break space fails to parse (U+00A0 is not stripped
by the URL parser), so the first pass only trims it; the second pass parses
the trimmed URL and appends the default `/` path, changing the string. -/
theorem normalizeUrl_not_idem :
    normalizeUrl (normalizeUrl "\u00A0https://a.com")
      ≠ normalizeUrl "\u00A0https://a.com" := by
  decide

/-! ## The `detect` orchestrator (`PlatformDetectorService.detect`)

`detect` awaits a pipeline of components inside one outer `try`; any rejection
from the cache read, rule matching, classification, strategy decision or cache
write is caught there and degrades the result.  The metadata extraction await
sits inside its own inner `try` (lines 105-111) whose handler only logs the
error and continues with `metadata` still `undefined`.  The components are
oracle step functions returning `Except String`, a thrown exception being the
`error` case; `normalizeUrl` itself cannot throw (its internal `try` already
falls back to `url.trim()`). -/

/-- The awaited steps of `detect`, as oracles. -/
structure DetectSteps where
  enableMetadataExtraction : Bool
  normalize : String → String
  getCached : String → Except String (Option PlatformDetectionResult)
  matchRules : String → Except String PlatformDetectionIntermediate
  extract : String → Platform → Except String PlatformMetadata
  classifyStep : Platform → PlatformMetadata → Except String ContentType
  chooseStrategy : ContentType → Except String ProcessingStrategy
  storeCache : String → PlatformDetectionResult → Except String Unit

/-- The body of the outer `try` of `detect`: each `match` on an `error`
propagates the exception outward, except the metadata extraction, whose inner
`catch` resumes with no metadata. -/
def runDetect (st : DetectSteps) (url : String) :
    Except String PlatformDetectionResult :=
  let nu := st.normalize url
  match st.getCached nu with
  | .error e => .error e
  | .ok (some c) => .ok c
  | .ok none =>
    match st.matchRules nu with
    | .error e => .error e
    | .ok pr =>
      let metadata : Option PlatformMetadata :=
        if st.enableMetadataExtraction && !(pr.platform == Platform.generic) then
          match st.extract nu pr.platform with
          | .ok m => some m
          | .error _ => none
        else none
      match st.classifyStep pr.platform (metadata.getD {}) with
      | .error e => .error e
      | .ok ct =>
        match st.chooseStrategy ct with
        | .error e => .error e
        | .ok ps =>
          let result : PlatformDetectionResult :=
            { platform := pr.platform
            , contentType := ct
            , confidence := pr.confidence
            , matchedPattern :=
                match pr.matchedPattern with
                | some p => if p = "" then none else some p
                | none => none
            , metadata := metadata
            , processingStrategy := some ps
            , error := none
            , warnings := none }
          match st.storeCache nu result with
          | .error e => .error e
          | .ok _ => .ok result

/-- The degraded result built by the outer `catch` of `detect`. -/
def degradedResult (e : String) : PlatformDetectionResult :=
  { platform := Platform.generic
  , contentType := ContentType.generic
  , confidence := 1/10
  , matchedPattern := none
  , metadata := none
  , processingStrategy := some ProcessingStrategy.clip
  , error := some e
  , warnings := none }

/-- `detect`: the outer `try`/`catch`. -/
def detectO (st : DetectSteps) (url : String) : PlatformDetectionResult :=
  match runDetect st url with
  | .ok r => r
  | .error e => degradedResult e

/-- C1 (amended): `detect` never raises — for every oracle instantiation and
every input it returns a result, either the pipeline's own or the degraded
one — and whenever the pipeline rejects (any step under the outer `try`:
cache read, rule matching, classification, strategy decision, cache write),
the result degrades to platform `generic`, content type `generic`, confidence
0.1, strategy `clip` and a populated `error`; in particular a cache-read
rejection or a rule-matching rejection degrades.  The spec's "whenever an
internal step throws" is corrected: a metadata-extraction throw is swallowed
by the inner `catch` and does not degrade the result (see the
counterexample). -/
theorem detect_never_raises (st : DetectSteps) (url : String) :
    ((∃ r, runDetect st url = Except.ok r ∧ detectO st url = r) ∨
      (∃ e, runDetect st url = Except.error e ∧
        detectO st url = degradedResult e ∧
        (detectO st url).platform = Platform.generic ∧
        (detectO st url).contentType = ContentType.generic ∧
        (detectO st url).confidence = 1/10 ∧
        (detectO st url).error = some e ∧
        (detectO st url).processingStrategy = some ProcessingStrategy.clip)) ∧
    (∀ e, st.getCached (st.normalize url) = Except.error e →
      detectO st url = degradedResult e) ∧
    (∀ e, st.getCached (st.normalize url) = Except.ok none →
      st.matchRules (st.normalize url) = Except.error e →
      detectO st url = degradedResult e) := by
  refine ⟨?_, ?_, ?_⟩
  · cases hr : runDetect st url with
    | ok r =>
      left
      exact ⟨r, rfl, by unfold detectO; rw [hr]⟩
    | error e =>
      right
      have hd : detectO st url = degradedResult e := by
        unfold detectO
        rw [hr]
      exact ⟨e, rfl, hd, by rw [hd]; rfl, by rw [hd]; rfl, by rw [hd]; rfl,
        by rw [hd]; rfl, by rw [hd]; rfl⟩
  · intro e he
    unfold detectO runDetect
    dsimp only
    rw [he]
  · intro e hc he
    unfold detectO runDetect
    dsimp only
    rw [hc, he]

/-- Oracle steps whose cache write rejects (everything before it succeeds). -/
def throwingStoreSteps : DetectSteps :=
  { enableMetadataExtraction := true
  , normalize := fun u => u
  , getCached := fun _ => .ok none
  , matchRules := fun _ => .ok { platform := .generic, confidence := 1/10 }
  , extract := fun _ _ => .error "unreachable"
  , classifyStep := fun _ _ => .ok .generic
  , chooseStrategy := fun _ => .ok .clip
  , storeCache := fun _ _ => .error "disk full" }

/-- Witness for the amended C1 theorem: the cache-write rejection of
`throwingStoreSteps` degrades the result. -/
theorem detect_never_raises_witness :
    detectO throwingStoreSteps "https://a.com" = degradedResult "disk full" := by
  rcases (detect_never_raises throwingStoreSteps "https://a.com").1 with
    ⟨r, hok, -⟩ | ⟨e, herr, hd, -⟩
  · have hrun : runDetect throwingStoreSteps "https://a.com"
        = Except.error "disk full" := rfl
    rw [hrun] at hok
    exact Except.noConfusion hok
  · have hrun : runDetect throwingStoreSteps "https://a.com"
        = Except.error "disk full" := rfl
    rw [hrun] at herr
    injection herr with he
    rw [he]
    exact hd

/-- Oracle steps whose metadata extraction throws while rule matching found a
platform. -/
def throwingExtractSteps : DetectSteps :=
  { enableMetadataExtraction := true
  , normalize := fun u => u
  , getCached := fun _ => .ok none
  , matchRules := fun _ =>
      .ok { platform := .youtube, confidence := 9/10
          , matchedPattern := some "^https://(?:www\\.)?youtube\\.com/watch\\?v=[\\w-]{11}" }
  , extract := fun _ _ => .error "network timeout"
  , classifyStep := fun _ _ => .ok .video
  , chooseStrategy := fun _ => .ok .watch_later
  , storeCache := fun _ _ => .ok () }

/-- C1 (counterexample): a metadata-extraction throw does not degrade the
result — the inner `catch` of `detect` swallows it, the detected platform is
kept and the `error` field stays empty, refuting "whenever an internal step
throws, the returned result degrades ... and a populated error field". -/
theorem detect_extract_throw_not_degraded :
    (detectO throwingExtractSteps "https://www.youtube.com/watch?v=dQw4w9WgXcQ").platform
        = Platform.youtube ∧
    (detectO throwingExtractSteps "https://www.youtube.com/watch?v=dQw4w9WgXcQ").error
        = none := by
  exact ⟨rfl, rfl⟩

/-! ## Concrete end-to-end scenario (`detect` over the real components)

`detect` composed from the embedded components: `normalizeUrl`, the cache
read against a given cache state, `RuleManager.detectPlatform` over the
builtin rules, metadata extraction (an oracle, consulted only for non-generic
platforms; the service config enables it by default), the classifier with its
default rules and threshold, and the strategy decider with the builtin
configuration and an empty decision context (`decide(contentType)`).  The
value returned to the caller is modelled; the subsequent cache write does not
affect it. -/
def detectConcrete (ext : String → Platform → Option PlatformMetadata)
    (s : CacheState) (now : Nat) (url : String) : PlatformDetectionResult :=
  let nu := normalizeUrl url
  match (cacheGet rtCfg s nu now).1 with
  | some c => c
  | none =>
    let pr := detectPlatform builtinRules nu
    let metadata : Option PlatformMetadata :=
      if !(pr.platform == Platform.generic) then ext nu pr.platform else none
    let ct := defaultClassify pr.platform (metadata.getD {})
    let ps := decideDefault ct {}
    { platform := pr.platform
    , contentType := ct
    , confidence := pr.confidence
    , matchedPattern :=
        match pr.matchedPattern with
        | some p => if p = "" then none else some p
        | none => none
    , metadata := metadata
    , processingStrategy := some ps
    , error := none
    , warnings := none }

/-- C7 (amended): on `https://unknown-blog.example.com/post/my-entry` (an
empty cache; any extractor oracle and clock), detection returns platform
`generic` — via the builtin catch-all blog rule, whose pattern
`^https?://[^/]+/post/[^/]+` matches at confidence 0.9 — with
processingStrategy `clip`, but contentType `generic`, not `article`: since
the platform is `generic`, no metadata is extracted, the classifier runs on
an empty metadata record, and its `/post/` URL heuristic reads
`metadata.rawData.url`, which is absent, so no heuristic clears the
threshold. -/
theorem detect_unknown_blog (ext : String → Platform → Option PlatformMetadata)
    (now : Nat) :
    detectConcrete ext emptyCache now "https://unknown-blog.example.com/post/my-entry"
      = { platform := Platform.generic
        , contentType := ContentType.generic
        , confidence := 9/10
        , matchedPattern := some "^https?://[^/]+/post/[^/]+"
        , metadata := none
        , processingStrategy := some ProcessingStrategy.clip
        , error := none
        , warnings := none } := by
  have hct : defaultClassify Platform.generic {} = ContentType.generic := by
    have h1 : ¬((applyPlatformRules classifierDefaultRules Platform.generic {}).2
        ≥ (3 : ℚ)/5) := by
      rw [show applyPlatformRules classifierDefaultRules Platform.generic {}
          = (ContentType.generic, 1/10) from rfl]
      norm_num
    have h2 : ¬((applyHeuristicRules ({} : PlatformMetadata)).2 ≥ (3 : ℚ)/5) := by
      rw [show applyHeuristicRules ({} : PlatformMetadata)
          = (ContentType.generic, 3/10) from rfl]
      norm_num
    unfold defaultClassify classifyWith
    rw [if_neg h1, if_pos rfl, if_neg h2]
  have hps : decideDefault ContentType.generic {} = ProcessingStrategy.clip := rfl
  have hcache : (cacheGet rtCfg emptyCache
      (normalizeUrl "https://unknown-blog.example.com/post/my-entry") now).1 = none := rfl
  have hpr : detectPlatform builtinRules
      (normalizeUrl "https://unknown-blog.example.com/post/my-entry")
      = ({ platform := Platform.generic, confidence := 9/10
         , matchedPattern := some "^https?://[^/]+/post/[^/]+" }
         : PlatformDetectionIntermediate) := rfl
  unfold detectConcrete
  dsimp only
  rw [hcache]
  dsimp only
  rw [hpr]
  dsimp only
  rw [show (!(Platform.generic == Platform.generic)) = false from rfl]
  simp only [Bool.false_eq_true, if_false, Option.getD_none]
  rw [hct, hps]
  rw [if_neg (show ¬("^https?://[^/]+/post/[^/]+" = "") by decide)]

/-- C7 (counterexample): the scenario's content type is `generic`, not the
`article` the spec predicts from the `/post/` URL heuristic. -/
theorem detect_unknown_blog_not_article :
    (detectConcrete (fun _ _ => none) emptyCache 0
        "https://unknown-blog.example.com/post/my-entry").contentType
      = ContentType.generic ∧ ContentType.generic ≠ ContentType.article := by
  constructor
  · have h1 : ¬((applyPlatformRules classifierDefaultRules Platform.generic {}).2
        ≥ (3 : ℚ)/5) := by
      rw [show applyPlatformRules classifierDefaultRules Platform.generic {}
          = (ContentType.generic, 1/10) from rfl]
      norm_num
    have h2 : ¬((applyHeuristicRules ({} : PlatformMetadata)).2 ≥ (3 : ℚ)/5) := by
      rw [show applyHeuristicRules ({} : PlatformMetadata)
          = (ContentType.generic, 3/10) from rfl]
      norm_num
    show defaultClassify Platform.generic (Option.getD
        (if (!(Platform.generic == Platform.generic)) = true
         then (fun _ _ => none : String → Platform → Option PlatformMetadata)
            (normalizeUrl "https://unknown-blog.example.com/post/my-entry")
            Platform.generic
         else none) {}) = ContentType.generic
    simp only [show (!(Platform.generic == Platform.generic)) = false from rfl,
      Bool.false_eq_true, if_false, Option.getD_none]
    unfold defaultClassify classifyWith
    rw [if_neg h1, if_pos rfl, if_neg h2]
  · decide
